import Mathlib

/-!
# The simple 32bpp blitter: `Blitter_32bppSimple::Surface::draw` and `Blitter_32bppSimple::Encode`

A shallow embedding of `src/blitter/32bpp_simple.cpp` and of the parts of
`src/blitter/blitter.h` it uses, followed by the driver parameters and the
driver selection of `src/driver.cpp` and the bridge queries of
`src/script/api/script_bridge.cpp`.

Conventions of the embedding.

* 8-bit quantities (`uint8`, `byte`: colour channels, remap indices, brightness)
  are carried as `Nat`; the code only copies and compares them.
* `int` values and pointer offsets are `Int`. Signed overflow is undefined
  behaviour in C++, so no wrap-around is modelled: arithmetic is exact.
* A buffer reached through a pointer is a `List` of its elements, indexed from
  the pointer; dereferencing an offset outside the list is undefined behaviour
  and makes the embedded function return `none`.
* The remap table `bp->remap` is a function from the byte index to the byte
  stored there.
-/

/-- The modes of blitting (`enum BlitterMode`, blitter.h). -/
inductive BlitterMode where
  | BM_NORMAL
  | BM_COLOUR_REMAP
  | BM_TRANSPARENT
  | BM_CRASH_REMAP
  | BM_BLACK_REMAP
  deriving DecidableEq, Repr

/-- A 32bpp colour as the blitter uses it: the channels `r`, `g`, `b`, `a`.
The declaration of `Colour` is not among the sources; the fields are those
the code and the spec (section 8) name. -/
structure Colour where
  r : Nat
  g : Nat
  b : Nat
  a : Nat
  deriving DecidableEq, Repr

namespace SpriteLoader

/-- A pixel of a decoded sprite (`SpriteLoader::CommonPixel`): the fields
`Encode` reads. -/
structure CommonPixel where
  r : Nat
  g : Nat
  b : Nat
  a : Nat
  m : Nat
  deriving DecidableEq, Repr

/-- A decoded sprite (`SpriteLoader::Sprite`): the fields `AllocateSprite` and
`Encode` read. -/
structure Sprite where
  height : Nat
  width : Nat
  x_offs : Int
  y_offs : Int
  data : List CommonPixel
  deriving DecidableEq, Repr

end SpriteLoader

/-- The functions and constants that `draw` and `Encode` use and whose
definitions are not among the sources (the helpers of the 32bpp base blitter,
`ScaleByZoom` of zoom_func.h, `DEFAULT_BRIGHTNESS`, the constructor of
`Colour`). They are parameters of the embedding. -/
structure Helpers where
  /-- Palette entry for an 8bpp index. -/
  LookupColourInPalette : Nat → Colour
  /-- Composite of `(r, g, b)` with alpha `a` over the current colour. -/
  ComposeColourRGBA : Nat → Nat → Nat → Nat → Colour → Colour
  /-- Composite of a colour with alpha `a` over the current colour. -/
  ComposeColourPA : Colour → Nat → Colour → Colour
  /-- Brightness adjustment of a colour. -/
  AdjustBrightness : Colour → Nat → Colour
  /-- Greyscale value of an RGB triple, stored by the caller in a `uint8`. -/
  MakeDark : Nat → Nat → Nat → Nat
  /-- Darkening of a destination colour by the given numerator. -/
  MakeTransparent : Colour → Nat → Colour
  /-- Scaling of a value by a zoom level. -/
  ScaleByZoom : Int → Nat → Int
  /-- Brightness used for a remapped pixel whose RGB is all zero. -/
  DEFAULT_BRIGHTNESS : Nat
  /-- Alpha that the three-argument constructor `Colour(r, g, b)` stores. -/
  default_alpha : Nat

namespace Spec

/-- Modelled from the spec: `ScaleByZoom` (zoom_func.h) is not among the
sources. Section 4.2: the stride multiplier `scale_by_zoom(1, zoom)` grows
geometrically with the zoom level, and section 8: level n+1 has twice the
stride of level n. The value is scaled by two to the power of the level. -/
def ScaleByZoom (value : Int) (zoom : Nat) : Int :=
  value * 2 ^ zoom

/-- Modelled from the spec: the numeric composition `compose_over` of section
4.2, one channel: `src*srcAlpha/255 + dst*(255-srcAlpha)/255` with truncating
integer division. -/
def compose_over (src srcAlpha dst : Nat) : Nat :=
  src * srcAlpha / 255 + dst * (255 - srcAlpha) / 255

/-- Modelled from the spec: `ComposeColourRGBA` is not among the sources.
Section 4.2: the composite of the source RGB over the destination RGB using
the source alpha, each channel by `compose_over`; the composite is of the RGB
channels, the destination keeps its own alpha. -/
def ComposeColourRGBA (r g b a : Nat) (current : Colour) : Colour :=
  { r := compose_over r a current.r
    g := compose_over g a current.g
    b := compose_over b a current.b
    a := current.a }

/-- Modelled from the spec: `ComposeColourPA` is not among the sources.
Section 4.2: the given colour composited over the destination using the
source alpha, by the same `compose_over` as `ComposeColourRGBA`. -/
def ComposeColourPA (colour : Colour) (a : Nat) (current : Colour) : Colour :=
  ComposeColourRGBA colour.r colour.g colour.b a current

end Spec

/-- Read through a pointer: element `i` of the buffer, `none` outside it. -/
def peek {α : Type} (buf : List α) (i : Int) : Option α :=
  if 0 ≤ i then buf[i.toNat]? else none

/-- Read-modify-write through a pointer: `*p = f(*p)` at offset `i`, `none`
outside the buffer. -/
def poke {α : Type} (buf : List α) (i : Int) (f : α → α) : Option (List α) :=
  match peek buf i with
  | none => none
  | some c => some (buf.set i.toNat (f c))

namespace Blitter_32bppSimple

/-- A pixel of an encoded sprite (`Blitter_32bppSimple::Pixel`): the fields
`draw` reads and `Encode` writes. -/
structure Pixel where
  r : Nat
  g : Nat
  b : Nat
  a : Nat
  m : Nat
  v : Nat
  deriving DecidableEq, Repr

/-- An encoded sprite (`Blitter_32bppSimple::Sprite`): the header copied by
`AllocateSprite` and the pixel records. -/
structure Sprite where
  height : Nat
  width : Nat
  x_offs : Int
  y_offs : Int
  data : List Pixel
  deriving DecidableEq, Repr

/-- Parameters related to blitting (`Blitter::BlitterParams`, blitter.h). The
destination pointer `dst` is the start of the destination buffer that `draw`
takes as its state. -/
structure BlitterParams where
  sprite : Sprite
  remap : Nat → Nat
  skip_left : Int
  skip_top : Int
  width : Int
  height : Int
  left : Int
  top : Int
  pitch : Int

/-- The body of the `switch (mode)` of `draw` for one source pixel: `none`
when no branch assigns to `*dst`, `some f` when the branch taken does
`*dst = f (*dst)`. -/
def drawPixel (H : Helpers) (remap : Nat → Nat) (mode : BlitterMode)
    (src : Pixel) : Option (Colour → Colour) :=
  match mode with
  | BlitterMode.BM_COLOUR_REMAP =>
    if src.m = 0 then
      if src.a ≠ 0 then some (fun d => H.ComposeColourRGBA src.r src.g src.b src.a d) else none
    else
      if remap src.m ≠ 0 then
        some (fun d => H.ComposeColourPA
          (H.AdjustBrightness (H.LookupColourInPalette (remap src.m)) src.v) src.a d)
      else none
  | BlitterMode.BM_CRASH_REMAP =>
    if src.m = 0 then
      if src.a ≠ 0 then
        let g := H.MakeDark src.r src.g src.b
        some (fun d => H.ComposeColourRGBA g g g src.a d)
      else none
    else
      if remap src.m ≠ 0 then
        some (fun d => H.ComposeColourPA
          (H.AdjustBrightness (H.LookupColourInPalette (remap src.m)) src.v) src.a d)
      else none
  | BlitterMode.BM_BLACK_REMAP =>
    if src.a ≠ 0 then some (fun _ => Colour.mk 0 0 0 H.default_alpha) else none
  | BlitterMode.BM_TRANSPARENT =>
    if src.a ≠ 0 then some (fun d => H.MakeTransparent d 192) else none
  | BlitterMode.BM_NORMAL =>
    if src.a ≠ 0 then some (fun d => H.ComposeColourRGBA src.r src.g src.b src.a d) else none

/-- The value of `*dst` after the switch, given its value before. -/
def pixelResult (H : Helpers) (remap : Nat → Nat) (mode : BlitterMode)
    (src : Pixel) (old : Colour) : Colour :=
  match drawPixel H remap mode src with
  | none => old
  | some f => f old

/-- One iteration of the inner loop of `draw`, before the cursors advance:
the source pixel at `src` is read and the switch acts on the destination
element at `dst`. -/
def drawAt (H : Helpers) (remap : Nat → Nat) (mode : BlitterMode)
    (data : List Pixel) (src dst : Int) (video : List Colour) : Option (List Colour) :=
  match peek data src with
  | none => none
  | some p =>
    match drawPixel H remap mode p with
    | none => some video
    | some f => poke video dst f

/-- The inner loop `for (x = 0; x < bp->width; x++)` with `n` iterations
left: after each pixel `dst++` and `src += ScaleByZoom(1, zoom)`. -/
def drawRow (H : Helpers) (remap : Nat → Nat) (mode : BlitterMode)
    (data : List Pixel) (step : Int) :
    Nat → Int → Int → List Colour → Option (List Colour)
  | 0, _, _, video => some video
  | n + 1, src, dst, video =>
    match drawAt H remap mode data src dst video with
    | none => none
    | some video' => drawRow H remap mode data step n (src + step) (dst + 1) video'

/-- The outer loop `for (y = 0; y < bp->height; y++)` with `n` iterations
left: each row starts at the line cursors, which then advance by
`sprite->width * ScaleByZoom(1, zoom)` and by `bp->pitch`. -/
def drawRows (H : Helpers) (remap : Nat → Nat) (mode : BlitterMode)
    (data : List Pixel) (step : Int) (width : Nat) (src_stride pitch : Int) :
    Nat → Int → Int → List Colour → Option (List Colour)
  | 0, _, _, video => some video
  | n + 1, src_line, dst_line, video =>
    match drawRow H remap mode data step width src_line dst_line video with
    | none => none
    | some video' =>
      drawRows H remap mode data step width src_stride pitch n
        (src_line + src_stride) (dst_line + pitch) video'

/-- The method `Blitter_32bppSimple::Surface::draw`: the destination buffer
after the call, `none` when the call dereferences outside the sprite data or the
destination buffer. -/
def draw (H : Helpers) (bp : BlitterParams) (mode : BlitterMode)
    (zoom : Nat) (video : List Colour) : Option (List Colour) :=
  drawRows H bp.remap mode bp.sprite.data (H.ScaleByZoom 1 zoom) bp.width.toNat
    ((bp.sprite.width : Int) * H.ScaleByZoom 1 zoom) bp.pitch bp.height.toNat
    ((bp.skip_top * (bp.sprite.width : Int) + bp.skip_left) * H.ScaleByZoom 1 zoom)
    (bp.top * bp.pitch + bp.left) video

/-- The source offset the loops of `draw` have reached at row `y`, column `x`
in closed form. -/
def srcIndex (H : Helpers) (bp : BlitterParams) (zoom : Nat) (y x : Nat) : Int :=
  ((bp.skip_top + (y : Int)) * (bp.sprite.width : Int) + bp.skip_left + (x : Int))
    * H.ScaleByZoom 1 zoom

/-- The destination offset the loops of `draw` have reached at row `y`,
column `x` in closed form. -/
def dstIndex (bp : BlitterParams) (y x : Nat) : Int :=
  (bp.top + (y : Int)) * bp.pitch + bp.left + (x : Int)

/-- The caller's side of the contract of `draw` (spec, sections 3 and 7): the
drawn width does not exceed the pitch, so that rows do not overlap, and every
element of the drawn rectangle lies inside the sprite data and inside the
destination buffer. -/
def drawWellFormed (H : Helpers) (bp : BlitterParams) (zoom : Nat) (video : List Colour) : Prop :=
  bp.width ≤ bp.pitch ∧
  ∀ y < bp.height.toNat, ∀ x < bp.width.toNat,
    (0 ≤ srcIndex H bp zoom y x ∧ srcIndex H bp zoom y x < bp.sprite.data.length) ∧
    (0 ≤ dstIndex bp y x ∧ dstIndex bp y x < video.length)

instance (H : Helpers) (bp : BlitterParams) (zoom : Nat) (video : List Colour) :
    Decidable (drawWellFormed H bp zoom video) := by
  unfold drawWellFormed
  infer_instance

/-- The helper `Blitter::AllocateSprite` (blitter.h): the header of the new sprite, copied
from the decoded sprite; the pixel records are not yet written. -/
def AllocateSprite (sprite : SpriteLoader.Sprite) : Sprite :=
  { height := sprite.height
    width := sprite.width
    x_offs := sprite.x_offs
    y_offs := sprite.y_offs
    data := [] }

/-- The body of the loop of `Encode`: the record stored in `dst[i]` for the
decoded pixel `*src`. -/
def encodePixel (H : Helpers) (src : SpriteLoader.CommonPixel) : Pixel :=
  if src.m = 0 then
    { r := src.r, g := src.g, b := src.b, a := src.a, m := 0, v := 0 }
  else
    let rgb_max := max src.r (max src.g src.b)
    let rgb_max := if rgb_max = 0 then H.DEFAULT_BRIGHTNESS else rgb_max
    let colour := H.AdjustBrightness (H.LookupColourInPalette src.m) rgb_max
    { r := colour.r, g := colour.g, b := colour.b, a := src.a, m := src.m, v := rgb_max }

/-- The loop `for (i = 0; i < height * width; i++)` of `Encode` with `n`
iterations left and `src` the decoded pixels from the cursor on: the records
written from `dst[i]` on, `none` when the cursor runs off the decoded data. -/
def encodeLoop (H : Helpers) : Nat → List SpriteLoader.CommonPixel → Option (List Pixel)
  | 0, _ => some []
  | _ + 1, [] => none
  | n + 1, p :: src =>
    match encodeLoop H n src with
    | none => none
    | some dst => some (encodePixel H p :: dst)

/-- The method `Blitter_32bppSimple::Encode`: the encoded sprite, `none` when the decoded
sprite has fewer than `height * width` pixels. -/
def Encode (H : Helpers) (sprite : SpriteLoader.Sprite) (_is_font : Bool) :
    Option Sprite :=
  match encodeLoop H (sprite.height * sprite.width) sprite.data with
  | none => none
  | some dst => some { AllocateSprite sprite with data := dst }

end Blitter_32bppSimple

open Blitter_32bppSimple

/-! ## Concrete sprites and parameters, and the subsampling of sprite data -/

/-- Helpers chosen for the concrete instances below: the composition and the
zoom scaling of the spec, and simple stand-ins for the other helpers. -/
def sampleHelpers : Helpers :=
  { LookupColourInPalette := fun i => Colour.mk i (i + 1) (i + 2) 255
    ComposeColourRGBA := Spec.ComposeColourRGBA
    ComposeColourPA := Spec.ComposeColourPA
    ScaleByZoom := Spec.ScaleByZoom
    AdjustBrightness := fun c v => Colour.mk (c.r * v / 128) (c.g * v / 128) (c.b * v / 128) c.a
    MakeDark := fun r g b => (r + g + b) / 4
    MakeTransparent := fun c n => Colour.mk (c.r * n / 256) (c.g * n / 256) (c.b * n / 256) c.a
    DEFAULT_BRIGHTNESS := 128
    default_alpha := 255 }

/-- The 2x1 sprite of the worked scenario of the spec (section 8). -/
def scenarioSprite : Sprite :=
  { height := 1, width := 2, x_offs := 0, y_offs := 0
    data := [Pixel.mk 200 0 0 255 0 0, Pixel.mk 0 0 0 0 0 0] }

/-- The whole of `scenarioSprite` drawn at the origin of a destination of pitch 2. -/
def scenarioParams : BlitterParams :=
  { sprite := scenarioSprite, remap := fun _ => 0
    skip_left := 0, skip_top := 0, width := 2, height := 1, left := 0, top := 0, pitch := 2 }

/-- A 2x1 sprite whose first pixel is opaque with a remap index that the
table of `sentinelParams` sends to 0. -/
def sentinelSprite : Sprite :=
  { height := 1, width := 2, x_offs := 0, y_offs := 0
    data := [Pixel.mk 200 100 50 255 7 128, Pixel.mk 1 2 3 255 0 0] }

/-- The whole of `sentinelSprite` drawn at the origin of a destination of pitch
2, with a remap table that sends index 7 to 0. -/
def sentinelParams : BlitterParams :=
  { sprite := sentinelSprite, remap := fun m => if m = 7 then 0 else m
    skip_left := 0, skip_top := 0, width := 2, height := 1, left := 0, top := 0, pitch := 2 }

/-- A remap table that sends index 7 to palette entry 9. -/
def paletteParams : BlitterParams :=
  { sentinelParams with remap := fun m => if m = 7 then 9 else m }

/-- A 2x1 sprite whose first pixel has `a == 0` and a remap index. -/
def alphaZeroSprite : Sprite :=
  { height := 1, width := 2, x_offs := 0, y_offs := 0
    data := [Pixel.mk 200 100 50 0 7 128, Pixel.mk 1 2 3 255 0 0] }

/-- The whole of `alphaZeroSprite` drawn at the origin of a destination of
pitch 2, with a remap table that sends index 7 to palette entry 9. -/
def alphaZeroParams : BlitterParams :=
  { paletteParams with sprite := alphaZeroSprite }

/-- A 4x2 sprite whose pixels are told apart by their red channel. -/
def stripSprite : Sprite :=
  { height := 2, width := 4, x_offs := 0, y_offs := 0
    data := [Pixel.mk 1 0 0 255 0 0, Pixel.mk 2 0 0 255 0 0, Pixel.mk 3 0 0 255 0 0,
      Pixel.mk 4 0 0 255 0 0, Pixel.mk 5 0 0 255 0 0, Pixel.mk 6 0 0 255 0 0,
      Pixel.mk 7 0 0 255 0 0, Pixel.mk 8 0 0 255 0 0] }

/-- A 2x2 part of `stripSprite`, one column skipped, drawn at column 1 of row 1
of a destination of pitch 3. -/
def stripParams : BlitterParams :=
  { sprite := stripSprite, remap := fun m => m
    skip_left := 1, skip_top := 0, width := 2, height := 2, left := 1, top := 1, pitch := 3 }

/-- A decoded 2x1 sprite: a true-colour pixel and a pixel with remap index 7
whose RGB is all zero. -/
def decodedSample : SpriteLoader.Sprite :=
  { height := 1, width := 2, x_offs := -3, y_offs := 4
    data := [SpriteLoader.CommonPixel.mk 200 100 50 255 0,
      SpriteLoader.CommonPixel.mk 0 0 0 255 7] }

/-- The parameters of a whole-sprite draw onto a destination of the sprite's
own size: nothing skipped, the sprite's width and height, origin 0, pitch equal
to the width. -/
def wholeSprite (sprite : Sprite) (remap : Nat → Nat) : BlitterParams :=
  { sprite := sprite, remap := remap
    skip_left := 0, skip_top := 0, width := sprite.width, height := sprite.height
    left := 0, top := 0, pitch := sprite.width }

/-- A decoded 2x2 sprite of opaque true-colour pixels. -/
def opaqueSample : SpriteLoader.Sprite :=
  { height := 2, width := 2, x_offs := 0, y_offs := 0
    data := [SpriteLoader.CommonPixel.mk 1 2 3 255 0, SpriteLoader.CommonPixel.mk 4 5 6 255 0,
      SpriteLoader.CommonPixel.mk 7 8 9 255 0, SpriteLoader.CommonPixel.mk 10 11 12 255 0] }

/-- The elements at even offsets of a buffer: element `i` of the result is
element `2 * i` of the buffer. -/
def everySecond {α : Type} : List α → List α
  | [] => []
  | [a] => [a]
  | a :: _ :: rest => a :: everySecond rest

/-- The parameters `bp` with the sprite data replaced by its elements at even
offsets. -/
def subsampled (bp : BlitterParams) : BlitterParams :=
  { bp with sprite := { bp.sprite with data := everySecond bp.sprite.data } }

/-- The whole of `stripSprite` as seen at zoom level 1: 2 columns, the one row
that the data holds at the doubled row stride. -/
def zoomedParams : BlitterParams :=
  { sprite := stripSprite, remap := fun m => m
    skip_left := 0, skip_top := 0, width := 2, height := 1, left := 0, top := 0, pitch := 2 }

/-- A 2x1 sprite for the crash remap: an opaque true-colour pixel and an opaque
pixel with remap index 7. -/
def crashSprite : Sprite :=
  { height := 1, width := 2, x_offs := 0, y_offs := 0
    data := [Pixel.mk 40 80 120 255 0 0, Pixel.mk 1 2 3 255 7 128] }

/-- The whole of `crashSprite` drawn at the origin of a destination of pitch 2,
with a remap table that sends index 7 to palette entry 9. -/
def crashParams : BlitterParams :=
  { paletteParams with sprite := crashSprite }

/-- The parameters `bp` with other pixel records in the sprite and another
remap table; the geometry and the sprite header are those of `bp`. -/
def withData (bp : BlitterParams) (data : List Pixel) (remap : Nat → Nat) : BlitterParams :=
  { bp with sprite := { bp.sprite with data := data }, remap := remap }

/-- A 2x1 sprite with the alpha mask of `crashSprite` and other values in
every other field. -/
def maskSprite : Sprite :=
  { height := 1, width := 2, x_offs := 0, y_offs := 0
    data := [Pixel.mk 9 8 7 1 3 2, Pixel.mk 6 5 4 200 0 0] }

namespace Blitter_32bppSimple

/-- The sizes that `Encode` hands to the allocator and whose values are not
among the sources: the width of `size_t` in bits, `sizeof(Sprite)` and
`sizeof(Pixel)`. They are parameters of the embedding. -/
structure Layout where
  size_bits : Nat
  sizeof_Sprite : Nat
  sizeof_Pixel : Nat

/-- The helper `Blitter::AllocateSprite` (blitter.h) with the allocator explicit: the
allocator is the list of the sizes requested from it so far, the one call
`allocator (sizeof(T) + extra)` appends its argument, a `size_t`, and the
header is copied as in `AllocateSprite`. -/
def AllocateSprite_alloc (L : Layout) (sprite : SpriteLoader.Sprite) (extra : Nat)
    (requests : List Nat) : List Nat × Sprite :=
  (requests ++ [(L.sizeof_Sprite + extra) % 2 ^ L.size_bits], AllocateSprite sprite)

/-- The method `Blitter_32bppSimple::Encode` with the allocator explicit: the requests
made to the allocator after the call and the encoded sprite. The extra size
`(size_t)height * (size_t)width * sizeof(*dst)` is computed in `size_t`. -/
def Encode_alloc (L : Layout) (H : Helpers) (sprite : SpriteLoader.Sprite) (_is_font : Bool)
    (requests : List Nat) : List Nat × Option Sprite :=
  let extra := (sprite.height % 2 ^ L.size_bits) * (sprite.width % 2 ^ L.size_bits)
    % 2 ^ L.size_bits * L.sizeof_Pixel % 2 ^ L.size_bits
  let allocated := AllocateSprite_alloc L sprite extra requests
  match encodeLoop H (sprite.height * sprite.width) sprite.data with
  | none => (allocated.1, none)
  | some dst => (allocated.1, some { allocated.2 with data := dst })

end Blitter_32bppSimple

/-- A layout for the concrete instances: a 64-bit `size_t`, a header of 8 bytes
and pixel records of 6 bytes. -/
def sampleLayout : Layout :=
  { size_bits := 64, sizeof_Sprite := 8, sizeof_Pixel := 6 }

/-- Modelled from the spec: `LookupColourInPalette` is not among the sources.
Section 4.1: the preview colour of a remapped pixel is resolved by looking up
palette index `m`; section 3: the palette is an ordered table of colour entries
of which a range of indices changes between animation ticks. The palette is
state of the program, not an argument of `Encode`; the lookup returns its
entry at the index. -/
def Spec.LookupColourInPalette (palette : Nat → Colour) (index : Nat) : Colour :=
  palette index

/-- The helpers `H` at a moment when the palette of the program is `palette`. -/
def withPalette (H : Helpers) (palette : Nat → Colour) : Helpers :=
  { H with LookupColourInPalette := Spec.LookupColourInPalette palette }

/-- A palette for the concrete instances. -/
def paletteA : Nat → Colour :=
  fun i => Colour.mk i (i + 1) (i + 2) 255

/-- The palette `paletteA` after a change of entry 7. -/
def paletteB : Nat → Colour :=
  fun i => if i = 7 then Colour.mk 70 80 90 255 else paletteA i

/-- The palette `paletteA` after a change of entry 3, which `decodedSample`
does not use. -/
def paletteC : Nat → Colour :=
  fun i => if i = 3 then Colour.mk 70 80 90 255 else paletteA i

/-! ## Driver parameters and driver selection (`driver.cpp`)

A C string is the list of its characters before the terminating NUL; a
pointer into a string is the string from that character on. `NULL` is `none`. -/

/-- The character of a C string at an offset: the terminating NUL at its end. -/
def charAt (s : List Char) (i : Nat) : Char :=
  s.getD i '\x00'

/-- The test `strncmp (s1, s2, n) == 0` of the C library: the strings agree on
their first `n` characters, or up to and including the NUL where both end. -/
def strncmp_eq : Nat → List Char → List Char → Bool
  | 0, _, _ => true
  | n + 1, s1, s2 =>
    if charAt s1 0 ≠ charAt s2 0 then false
    else if charAt s1 0 = '\x00' then true
    else strncmp_eq n s1.tail s2.tail

/-- The loop of `GetDriverParam` from the entry `*parm` on, with
`len = strlen(name)`. -/
def GetDriverParam_loop (name : List Char) (len : Nat) : List (List Char) → Option (List Char)
  | [] => none
  | p :: parm =>
    if strncmp_eq len p name then
      if charAt p len = '=' then some (p.drop (len + 1))
      else if charAt p len = '\x00' then some (p.drop len)
      else GetDriverParam_loop name len parm
    else GetDriverParam_loop name len parm

/-- The function `GetDriverParam`: the value of the parameter `name` in the
NULL-terminated array `parm`, or `NULL`. -/
def GetDriverParam (parm : Option (List (List Char))) (name : List Char) :
    Option (List Char) :=
  match parm with
  | none => none
  | some entries => GetDriverParam_loop name name.length entries

/-- The function `GetDriverParamBool`: whether `GetDriverParam` is not `NULL`. -/
def GetDriverParamBool (parm : Option (List (List Char))) (name : List Char) : Bool :=
  (GetDriverParam parm name).isSome

/-- What an entry says about the parameter `name`, in the words of the claim:
the empty string when the entry is `name` itself, the text after the `=` when
the entry is `name` followed by `=`, nothing otherwise. -/
def paramValue (name p : List Char) : Option (List Char) :=
  if p = name then some []
  else if (name ++ ['=']).isPrefixOf p then some (p.drop (name.length + 1))
  else none

/-- Whether a list of characters is a C string: it holds no NUL. -/
def isCString (s : List Char) : Prop :=
  ∀ c ∈ s, c ≠ '\x00'

instance (s : List Char) : Decidable (isCString s) := by
  unfold isCString
  infer_instance

/-- A driver factory (`DriverFactoryBase`): the fields that `select` reads. -/
structure DriverFactoryBase where
  name : List Char
  priority : Int
  deriving DecidableEq, Repr

/-- A driver instance, made by `CreateInstance` of its factory. -/
structure Driver where
  factory : DriverFactoryBase
  deriving DecidableEq, Repr

/-- The state of a `DriverSystem`: the factories of its map `drivers` in the
order of iteration, and the active driver, `NULL` at first. -/
structure DriverSystem where
  drivers : List DriverFactoryBase
  active : Option Driver
  deriving DecidableEq, Repr

/-- What `select` calls and whose definitions are not among the sources: the
virtual `Driver::Start` of an instance on a parameter array, which returns
`NULL` or an error text; `StrEmpty`; and `bstrcpy (buffer, name)`, given by the
contents of the 256-byte buffer after the copy, up to and including its
terminating NUL. They are parameters of the embedding. -/
structure DriverEnv where
  Start : Driver → Option (List (List Char)) → Option (List Char)
  StrEmpty : Option (List Char) → Bool
  bstrcpy : List Char → List Char

/-- The calls that `select` makes on factories and drivers, in order. -/
inductive DriverEvent where
  | CreateInstance (d : DriverFactoryBase)
  | Start (drv : Driver) (parms : Option (List (List Char)))
  | delete (drv : Option Driver)
  deriving DecidableEq, Repr

/-- The calls of `usererror` in `select`, which do not return. -/
inductive UserError where
  | autoprobe_failed
  | select_failed (name : Option (List Char))
  | no_suitable_driver
  | unable_to_load (name : List Char) (err : List Char)
  | no_such_driver (buffer : List Char)
  deriving DecidableEq, Repr

/-- How a call of `select` ends: it returns with a new state, it ends the
program in `usererror`, or it dereferences outside a buffer. -/
inductive SelectResult where
  | returned (sys : DriverSystem)
  | usererror (e : UserError)
  | undefined
  deriving DecidableEq, Repr

/-- The body of the probing loop of `select` for a factory of the probed
priority: the calls made, the state after it, and whether `select` returns. -/
def probe (E : DriverEnv) (d : DriverFactoryBase) (sys : DriverSystem) (log : List DriverEvent) :
    List DriverEvent × DriverSystem × Bool :=
  let oldd := sys.active
  let newd := Driver.mk d
  let probing : DriverSystem := { sys with active := some newd }
  match E.Start newd none with
  | none =>
    (log ++ [DriverEvent.CreateInstance d, DriverEvent.Start newd none, DriverEvent.delete oldd],
      probing, true)
  | some _ =>
    (log ++ [DriverEvent.CreateInstance d, DriverEvent.Start newd none,
      DriverEvent.delete (some newd)], { probing with active := oldd }, false)

/-- The inner probing loop of `select` over the map from the iterator on, for
one priority. -/
def probeMap (E : DriverEnv) (priority : Int) :
    List DriverFactoryBase → DriverSystem → List DriverEvent →
      List DriverEvent × DriverSystem × Bool
  | [], sys, log => (log, sys, false)
  | d :: rest, sys, log =>
    if d.priority ≠ priority then probeMap E priority rest sys log
    else
      match probe E d sys log with
      | (log', sys', true) => (log', sys', true)
      | (log', sys', false) => probeMap E priority rest sys' log'

/-- The outer probing loop `for (priority = 10; priority > 0; priority--)` of
`select` at priority `n`, and the `usererror` after it. -/
def probeAll (E : DriverEnv) (drivers : List DriverFactoryBase) :
    Nat → DriverSystem → List DriverEvent → List DriverEvent × SelectResult
  | 0, _, log => (log, SelectResult.usererror UserError.no_suitable_driver)
  | n + 1, sys, log =>
    match probeMap E ((n + 1 : Nat) : Int) drivers sys log with
    | (log', sys', true) => (log', SelectResult.returned sys')
    | (log', sys', false) => probeAll E drivers n sys' log'

/-- The function `strchr` of the C library on a buffer that holds a C string:
the offset of the first `c` before the terminating NUL. -/
def strchr : List Char → Char → Option Nat
  | [], _ => none
  | x :: xs, c =>
    if x = c then some 0
    else if x = '\x00' then none
    else (strchr xs c).map (· + 1)

/-- The C string that starts at an offset of a buffer. -/
def cstringAt (buffer : List Char) (i : Nat) : List Char :=
  (buffer.drop i).takeWhile (· ≠ '\x00')

/-- The test `strcasecmp (s1, s2) == 0` of the C library. -/
def strcasecmp_eq (s1 s2 : List Char) : Bool :=
  s1.map Char.toLower = s2.map Char.toLower

/-- A store `parms[np] = v` into the 32-entry array `parms` of `select`, of
which the `np` entries before the terminating `NULL` are kept as a list: a
pointer is appended, a `NULL` ends the list; `none` outside the array. -/
def storeParm (parms : List Nat) (v : Option Nat) : Option (List Nat) :=
  if parms.length < 32 then
    match v with
    | some p => some (parms ++ [p])
    | none => some parms
  else none

/-- The loop `while (*parm != 0 && *parm != ',') parm++` of `select`. -/
def skipParam (buffer : List Char) : Nat → Nat → Option Nat
  | 0, _ => none
  | fuel + 1, parm =>
    match buffer[parm]? with
    | none => none
    | some c => if c ≠ '\x00' ∧ c ≠ ',' then skipParam buffer fuel (parm + 1) else some parm

/-- The loop `do ... while (*parm == ',')` of `select` that tokenizes the
parameters in place: the buffer and the stored pointers after it. -/
def tokenize : Nat → List Char → Nat → List Nat → Option (List Char × List Nat)
  | 0, _, _, _ => none
  | fuel + 1, buffer, parm, parms =>
    if parm < buffer.length then
      match (if parms.length < 31 then storeParm parms (some (parm + 1)) else some parms) with
      | none => none
      | some parms1 =>
        match skipParam (buffer.set parm '\x00') buffer.length (parm + 1) with
        | none => none
        | some parm2 =>
          if (buffer.set parm '\x00')[parm2]? = some ',' then
            tokenize fuel (buffer.set parm '\x00') parm2 parms1
          else some (buffer.set parm '\x00', parms1)
    else none

/-- The first part of the named branch of `select`: the name is copied into
`buffer`, cut at the first `:`, and the text after it is tokenized; the result
is the buffer and the pointers stored in `parms` before its terminating
`NULL`, whose store is checked as well. -/
def parseName (E : DriverEnv) (name : List Char) : Option (List Char × List Nat) :=
  let buffer := E.bstrcpy name
  match strchr buffer ':' with
  | none => some (buffer, [])
  | some parm =>
    match tokenize buffer.length buffer parm [] with
    | none => none
    | some (buffer', parms) =>
      match storeParm parms none with
      | none => none
      | some parms' => some (buffer', parms')

/-- The loop of `select` that looks for the named driver from the iterator
on and starts it. -/
def selectNamed (E : DriverEnv) (buffer : List Char) (parms : List (List Char))
    (sys : DriverSystem) : List DriverFactoryBase → List DriverEvent × SelectResult
  | [] => ([], SelectResult.usererror (UserError.no_such_driver buffer))
  | d :: rest =>
    if strcasecmp_eq buffer d.name then
      match E.Start (Driver.mk d) (some parms) with
      | some err =>
        ([DriverEvent.CreateInstance d, DriverEvent.Start (Driver.mk d) (some parms),
          DriverEvent.delete (some (Driver.mk d))],
          SelectResult.usererror (UserError.unable_to_load d.name err))
      | none =>
        ([DriverEvent.CreateInstance d, DriverEvent.Start (Driver.mk d) (some parms),
          DriverEvent.delete sys.active],
          SelectResult.returned { sys with active := some (Driver.mk d) })
    else selectNamed E buffer parms sys rest

/-- The method `DriverSystem::select`: the calls it makes and how it ends. -/
def DriverSystem.select (E : DriverEnv) (sys : DriverSystem) (name : Option (List Char)) :
    List DriverEvent × SelectResult :=
  if sys.drivers.isEmpty then
    if E.StrEmpty name then ([], SelectResult.usererror UserError.autoprobe_failed)
    else ([], SelectResult.usererror (UserError.select_failed name))
  else if E.StrEmpty name then probeAll E sys.drivers 10 sys []
  else
    match name with
    | none => ([], SelectResult.undefined)
    | some s =>
      match parseName E s with
      | none => ([], SelectResult.undefined)
      | some (buffer, parms) =>
        selectNamed E (cstringAt buffer 0) (parms.map (cstringAt buffer)) sys sys.drivers

/-- The factories in the order in which the claim says they are probed:
priority `n` first, in the order of the registry, then `n - 1`, down to 1. -/
def probeOrder (drivers : List DriverFactoryBase) : Nat → List DriverFactoryBase
  | 0 => []
  | n + 1 => drivers.filter (fun d => d.priority = ((n + 1 : Nat) : Int)) ++ probeOrder drivers n

/-- The calls of one failed probe of each of the factories. -/
def failedProbes (ds : List DriverFactoryBase) : List DriverEvent :=
  ds.flatMap (fun q => [DriverEvent.CreateInstance q, DriverEvent.Start (Driver.mk q) none,
    DriverEvent.delete (some (Driver.mk q))])

/-- The comma-separated fields of a text. -/
def commaFields : List Char → List (List Char)
  | [] => [[]]
  | c :: s =>
    if c = ',' then [] :: commaFields s
    else
      match commaFields s with
      | [] => [[c]]
      | f :: fs => (c :: f) :: fs

/-- The parameters that a driver name carries, in the words of the claim: none
without a `:`, else the first 31 comma-separated fields of the text after the
first `:`. -/
def nameParams (name : List Char) : List (List Char) :=
  match name.dropWhile (· ≠ ':') with
  | [] => []
  | _ :: text => (commaFields text).take 31

/-- A `DriverEnv` for the concrete instances: only the driver `sdl` starts, a
name is empty when it is `NULL` or has no characters, and `bstrcpy` copies up
to 255 characters. -/
def sampleEnv : DriverEnv :=
  { Start := fun drv _ => if drv.factory.name = "sdl".toList then none else some "no".toList
    StrEmpty := fun name => name = none ∨ name = some []
    bstrcpy := fun s => s.take 255 ++ ['\x00'] }

/-- A registry of four factories, in the order of the map. -/
def sampleSystem : DriverSystem :=
  { drivers := [DriverFactoryBase.mk "allegro".toList 5, DriverFactoryBase.mk "null".toList 0,
      DriverFactoryBase.mk "sdl".toList 5, DriverFactoryBase.mk "win32".toList 9]
    active := none }

/-- The probes of a list of factories one after the other, until one starts:
the calls made, the state after them, and whether one started. -/
def probeList (E : DriverEnv) :
    List DriverFactoryBase → DriverSystem → List DriverEvent →
      List DriverEvent × DriverSystem × Bool
  | [], sys, log => (log, sys, false)
  | d :: rest, sys, log =>
    match probe E d sys log with
    | (log', sys', true) => (log', sys', true)
    | (log', sys', false) => probeList E rest sys' log'

/-- The fields joined by a separator. -/
def joinWith (sep : Char) : List (List Char) → List Char
  | [] => []
  | [f] => f
  | f :: g :: fs => f ++ sep :: joinWith sep (g :: fs)

/-- The offsets at which consecutive fields start when the first starts at
`off` and one separator follows each. -/
def fieldStarts : Nat → List (List Char) → List Nat
  | _, [] => []
  | off, f :: fs => off :: fieldStarts (off + f.length + 1) fs

/-- The pointers that the guarded store `if (np < 31) parms[np++] = parm`
keeps of a sequence of pointers. -/
def storeAll : List Nat → List Nat → List Nat
  | parms, [] => parms
  | parms, p :: ps => storeAll (if parms.length < 31 then parms ++ [p] else parms) ps

/-- Whether a text is a field: it holds neither a NUL nor a comma. -/
def isField (f : List Char) : Prop :=
  ∀ c ∈ f, c ≠ '\x00' ∧ c ≠ ','

/-! ## The script API for bridges (`script_bridge.cpp`) -/

/-- A bridge specification (`BridgeSpec`): the fields that `ScriptBridge`
reads. -/
structure BridgeSpec where
  avail_year : Int
  min_length : Nat
  max_length : Nat
  price : Nat
  speed : Nat
  transport_name : Nat
  deriving DecidableEq, Repr

/-- What `ScriptBridge` reads and calls and whose definitions are not among
the sources: the constant `MAX_BRIDGES`, the table of bridge specifications
behind `GetBridgeSpec`, the current year `_cur_year`, the setting
`_settings_game.construction.max_bridge_length`, the price
`_price[PR_BUILD_BRIDGE]`, and the functions `CalcBridgeLenCostFactor` and
`GetString`. They are parameters of the embedding. -/
structure BridgeEnv where
  MAX_BRIDGES : Nat
  bridges : List BridgeSpec
  cur_year : Int
  max_bridge_length : Nat
  price_build_bridge : Int
  CalcBridgeLenCostFactor : Nat → Int
  GetString : Nat → List Char

namespace ScriptBridge

/-- The call `::GetBridgeSpec (bridge_id)`: the entry of the table, `none` when
the index is outside the table. -/
def GetBridgeSpec (E : BridgeEnv) (bridge_id : Nat) : Option BridgeSpec :=
  E.bridges[bridge_id]?

/-- The function `ScriptBridge::IsValidBridge`; `&&` evaluates its right operand,
which reads the bridge specification, only when the left one holds. -/
def IsValidBridge (E : BridgeEnv) (bridge_id : Nat) : Option Bool :=
  if bridge_id < E.MAX_BRIDGES then
    match GetBridgeSpec E bridge_id with
    | none => none
    | some spec => some (decide (spec.avail_year ≤ E.cur_year))
  else some false

/-- The function `ScriptBridge::GetName`: `NULL` is the inner `none`. -/
def GetName (E : BridgeEnv) (bridge_id : Nat) : Option (Option (List Char)) :=
  match IsValidBridge E bridge_id with
  | none => none
  | some false => some none
  | some true =>
    match GetBridgeSpec E bridge_id with
    | none => none
    | some spec => some (some (E.GetString spec.transport_name))

/-- The function `ScriptBridge::GetMaxSpeed`. -/
def GetMaxSpeed (E : BridgeEnv) (bridge_id : Nat) : Option Int :=
  match IsValidBridge E bridge_id with
  | none => none
  | some false => some (-1)
  | some true =>
    match GetBridgeSpec E bridge_id with
    | none => none
    | some spec => some (spec.speed : Int)

/-- The function `ScriptBridge::GetPrice`; the product is taken exactly and
`>> 8` is the division by 256 rounded down. -/
def GetPrice (E : BridgeEnv) (bridge_id : Nat) (length : Nat) : Option Int :=
  match IsValidBridge E bridge_id with
  | none => none
  | some false => some (-1)
  | some true =>
    match GetBridgeSpec E bridge_id with
    | none => none
    | some spec =>
      some ((E.CalcBridgeLenCostFactor length * E.price_build_bridge * (spec.price : Int)) / 256)

/-- The function `ScriptBridge::GetMaxLength`. -/
def GetMaxLength (E : BridgeEnv) (bridge_id : Nat) : Option Int :=
  match IsValidBridge E bridge_id with
  | none => none
  | some false => some (-1)
  | some true =>
    match GetBridgeSpec E bridge_id with
    | none => none
    | some spec => some ((min spec.max_length E.max_bridge_length : Nat) + 2)

/-- The function `ScriptBridge::GetMinLength`. -/
def GetMinLength (E : BridgeEnv) (bridge_id : Nat) : Option Int :=
  match IsValidBridge E bridge_id with
  | none => none
  | some false => some (-1)
  | some true =>
    match GetBridgeSpec E bridge_id with
    | none => none
    | some spec => some ((spec.min_length : Int) + 2)

end ScriptBridge

/-- A bridge table for the concrete instances: two bridges, the second one
available from 1930 on, in the year 1920. -/
def sampleBridges : BridgeEnv :=
  { MAX_BRIDGES := 2
    bridges := [BridgeSpec.mk 0 0 16 80 32 1, BridgeSpec.mk 1930 1 9 100 48 2]
    cur_year := 1920
    max_bridge_length := 12
    price_build_bridge := 1000
    CalcBridgeLenCostFactor := fun n => n
    GetString := fun _ => "bridge".toList }

/-! ## Reading and writing through a pointer -/

theorem peek_of_bounds {α : Type} (buf : List α) (i : Int) (h0 : 0 ≤ i)
    (h1 : i < buf.length) : ∃ c, peek buf i = some c := by
  have hlt : i.toNat < buf.length := by omega
  exact ⟨buf[i.toNat], by simp [peek, h0, List.getElem?_eq_getElem hlt]⟩

theorem peek_some_bounds {α : Type} (buf : List α) (i : Int) (c : α)
    (h : peek buf i = some c) : 0 ≤ i ∧ i < buf.length := by
  unfold peek at h
  split at h
  · rename_i h0
    have hlt := (List.getElem?_eq_some.mp h).1
    omega
  · cases h

theorem poke_of_bounds {α : Type} (buf : List α) (i : Int) (f : α → α) (h0 : 0 ≤ i)
    (h1 : i < buf.length) : ∃ buf', poke buf i f = some buf' := by
  obtain ⟨c, hc⟩ := peek_of_bounds buf i h0 h1
  exact ⟨buf.set i.toNat (f c), by simp [poke, hc]⟩

theorem poke_length {α : Type} (buf buf' : List α) (i : Int) (f : α → α)
    (h : poke buf i f = some buf') : buf'.length = buf.length := by
  unfold poke at h
  split at h
  · cases h
  · cases h; simp

theorem peek_poke_same {α : Type} (buf buf' : List α) (i : Int) (f : α → α)
    (h : poke buf i f = some buf') : peek buf' i = (peek buf i).map f := by
  unfold poke at h
  split at h
  · cases h
  · rename_i c hc
    cases h
    obtain ⟨h0, h1⟩ := peek_some_bounds buf i c hc
    have hlt : i.toNat < buf.length := by omega
    have hc' : buf[i.toNat]? = some c := by simpa [peek, h0] using hc
    rw [hc]
    simp [peek, h0, List.getElem?_set, hlt]

theorem peek_poke_other {α : Type} (buf buf' : List α) (i j : Int) (f : α → α)
    (h : poke buf i f = some buf') (hij : j ≠ i) : peek buf' j = peek buf j := by
  unfold poke at h
  split at h
  · cases h
  · rename_i c hc
    cases h
    obtain ⟨h0, _⟩ := peek_some_bounds buf i c hc
    unfold peek
    split
    · rename_i hj
      have hne : i.toNat ≠ j.toNat := by omega
      simp [List.getElem?_set_ne hne]
    · rfl

/-! ## The loops of `draw` -/

theorem drawAt_spec (H : Helpers) (remap : Nat → Nat) (mode : BlitterMode)
    (data : List Pixel) (src dst : Int) (video : List Colour) (p : Pixel)
    (hp : peek data src = some p) (h0 : 0 ≤ dst) (h1 : dst < video.length) :
    ∃ video', drawAt H remap mode data src dst video = some video' ∧
      video'.length = video.length ∧
      (∀ j, j ≠ dst → peek video' j = peek video j) ∧
      peek video' dst = (peek video dst).map (pixelResult H remap mode p) := by
  cases hd : drawPixel H remap mode p with
  | none =>
    obtain ⟨c, hc⟩ := peek_of_bounds video dst h0 h1
    refine ⟨video, by simp [drawAt, hp, hd], rfl, fun _ _ => rfl, ?_⟩
    have hfun : pixelResult H remap mode p = id := by
      funext old
      simp [pixelResult, hd]
    simp [hc, hfun]
  | some f =>
    obtain ⟨video', hv⟩ := poke_of_bounds video dst f h0 h1
    refine ⟨video', by simp [drawAt, hp, hd, hv], poke_length _ _ _ _ hv, ?_, ?_⟩
    · intro j hj
      exact peek_poke_other _ _ _ _ _ hv hj
    · have hfun : pixelResult H remap mode p = f := by
        funext old
        simp [pixelResult, hd]
      rw [hfun]
      exact peek_poke_same _ _ _ _ hv

theorem drawRow_spec (H : Helpers) (remap : Nat → Nat) (mode : BlitterMode)
    (data : List Pixel) (step : Int) (n : Nat) :
    ∀ (src dst : Int) (video : List Colour),
      (∀ k : Nat, k < n → ∃ p, peek data (src + k * step) = some p) →
      (∀ k : Nat, k < n → 0 ≤ dst + k ∧ dst + k < video.length) →
      ∃ video', drawRow H remap mode data step n src dst video = some video' ∧
        video'.length = video.length ∧
        (∀ j, (j < dst ∨ dst + n ≤ j) → peek video' j = peek video j) ∧
        (∀ k : Nat, k < n → ∀ p, peek data (src + k * step) = some p →
          peek video' (dst + k) = (peek video (dst + k)).map (pixelResult H remap mode p)) := by
  induction n with
  | zero =>
    intro src dst video _ _
    exact ⟨video, rfl, rfl, fun _ _ => rfl, fun k hk => absurd hk (Nat.not_lt_zero k)⟩
  | succ n ih =>
    intro src dst video hsrc hdst
    obtain ⟨p0, hp0⟩ := hsrc 0 (Nat.succ_pos n)
    have hd0 := hdst 0 (Nat.succ_pos n)
    simp only [Nat.cast_zero, zero_mul, add_zero] at hp0 hd0
    obtain ⟨v1, hv1, hlen1, hframe1, hcell1⟩ :=
      drawAt_spec H remap mode data src dst video p0 hp0 hd0.1 hd0.2
    have hsrc' : ∀ k : Nat, k < n → ∃ p, peek data (src + step + k * step) = some p := by
      intro k hk
      have := hsrc (k + 1) (Nat.succ_lt_succ hk)
      have e : src + ((k + 1 : Nat) : Int) * step = src + step + k * step := by
        push_cast; ring
      rwa [e] at this
    have hdst' : ∀ k : Nat, k < n → 0 ≤ dst + 1 + k ∧ dst + 1 + k < v1.length := by
      intro k hk
      have := hdst (k + 1) (Nat.succ_lt_succ hk)
      rw [hlen1]
      push_cast at this
      omega
    obtain ⟨v2, hv2, hlen2, hframe2, hcell2⟩ := ih (src + step) (dst + 1) v1 hsrc' hdst'
    refine ⟨v2, ?_, by rw [hlen2, hlen1], ?_, ?_⟩
    · simp only [drawRow, hv1, hv2]
    · intro j hj
      rw [hframe2 j (by push_cast at hj; omega), hframe1 j (by push_cast at hj; omega)]
    · intro k hk p hp
      cases k with
      | zero =>
        simp only [Nat.cast_zero, zero_mul, add_zero] at hp ⊢
        rw [hframe2 dst (by omega), hcell1]
        rw [hp0] at hp
        cases hp
        rfl
      | succ k =>
        have e : src + ((k + 1 : Nat) : Int) * step = src + step + k * step := by
          push_cast; ring
        have e2 : dst + ((k + 1 : Nat) : Int) = dst + 1 + k := by
          push_cast; ring
        rw [e] at hp
        rw [e2, hcell2 k (Nat.lt_of_succ_lt_succ hk) p hp, hframe1 (dst + 1 + k) (by omega)]

theorem drawRows_zero_width (H : Helpers) (remap : Nat → Nat) (mode : BlitterMode)
    (data : List Pixel) (step stride pitch : Int) (n : Nat) :
    ∀ (src_line dst_line : Int) (video : List Colour),
      drawRows H remap mode data step 0 stride pitch n src_line dst_line video = some video := by
  induction n with
  | zero => intro _ _ _; rfl
  | succ n ih =>
    intro src_line dst_line video
    simp only [drawRows, drawRow]
    exact ih _ _ _

theorem drawRows_spec (H : Helpers) (remap : Nat → Nat) (mode : BlitterMode)
    (data : List Pixel) (step : Int) (w : Nat) (stride pitch : Int)
    (hpitch : (w : Int) ≤ pitch) (n : Nat) :
    ∀ (src_line dst_line : Int) (video : List Colour),
      (∀ y x : Nat, y < n → x < w →
        ∃ p, peek data (src_line + y * stride + x * step) = some p) →
      (∀ y x : Nat, y < n → x < w →
        0 ≤ dst_line + y * pitch + x ∧ dst_line + y * pitch + x < video.length) →
      ∃ video', drawRows H remap mode data step w stride pitch n src_line dst_line video
          = some video' ∧
        video'.length = video.length ∧
        (∀ j, (∀ y x : Nat, y < n → x < w → j ≠ dst_line + y * pitch + x) →
          peek video' j = peek video j) ∧
        (∀ y x : Nat, y < n → x < w → ∀ p,
          peek data (src_line + y * stride + x * step) = some p →
          peek video' (dst_line + y * pitch + x)
            = (peek video (dst_line + y * pitch + x)).map (pixelResult H remap mode p)) := by
  have hw0 : (0 : Int) ≤ w := Int.ofNat_nonneg w
  have hpitch0 : 0 ≤ pitch := le_trans hw0 hpitch
  induction n with
  | zero =>
    intro src_line dst_line video _ _
    exact ⟨video, rfl, rfl, fun _ _ => rfl, fun y x hy => absurd hy (Nat.not_lt_zero y)⟩
  | succ n ih =>
    intro src_line dst_line video hsrc hdst
    have hsrc0 : ∀ k : Nat, k < w → ∃ p, peek data (src_line + k * step) = some p := by
      intro k hk
      simpa using hsrc 0 k (Nat.succ_pos n) hk
    have hdst0 : ∀ k : Nat, k < w → 0 ≤ dst_line + k ∧ dst_line + k < video.length := by
      intro k hk
      simpa using hdst 0 k (Nat.succ_pos n) hk
    obtain ⟨v1, hv1, hlen1, hframe1, hcell1⟩ :=
      drawRow_spec H remap mode data step w src_line dst_line video hsrc0 hdst0
    have esrc : ∀ y x : Nat, src_line + ((y + 1 : Nat) : Int) * stride + x * step
        = src_line + stride + y * stride + x * step := by
      intro y x; push_cast; ring
    have edst : ∀ y x : Nat, dst_line + ((y + 1 : Nat) : Int) * pitch + x
        = dst_line + pitch + y * pitch + x := by
      intro y x; push_cast; ring
    have hsrc' : ∀ y x : Nat, y < n → x < w →
        ∃ p, peek data (src_line + stride + y * stride + x * step) = some p := by
      intro y x hy hx
      have := hsrc (y + 1) x (Nat.succ_lt_succ hy) hx
      rwa [esrc] at this
    have hdst' : ∀ y x : Nat, y < n → x < w →
        0 ≤ dst_line + pitch + y * pitch + x ∧ dst_line + pitch + y * pitch + x < v1.length := by
      intro y x hy hx
      have := hdst (y + 1) x (Nat.succ_lt_succ hy) hx
      rwa [edst, ← hlen1] at this
    obtain ⟨v2, hv2, hlen2, hframe2, hcell2⟩ :=
      ih (src_line + stride) (dst_line + pitch) v1 hsrc' hdst'
    have hbelow : ∀ y x : Nat, dst_line + (w : Int) ≤ dst_line + pitch + y * pitch + x := by
      intro y x
      have h1 : (0 : Int) ≤ (y : Int) * pitch := mul_nonneg (Int.ofNat_nonneg y) hpitch0
      have h2 : (0 : Int) ≤ x := Int.ofNat_nonneg x
      linarith
    refine ⟨v2, ?_, by rw [hlen2, hlen1], ?_, ?_⟩
    · simp only [drawRows, hv1, hv2]
    · intro j hj
      have hj2 : ∀ y x : Nat, y < n → x < w → j ≠ dst_line + pitch + y * pitch + x := by
        intro y x hy hx
        have := hj (y + 1) x (Nat.succ_lt_succ hy) hx
        rwa [edst] at this
      have hj1 : j < dst_line ∨ dst_line + w ≤ j := by
        by_contra hcon
        push_neg at hcon
        have hx : (j - dst_line).toNat < w := by omega
        have := hj 0 (j - dst_line).toNat (Nat.succ_pos n) hx
        apply this
        have : ((j - dst_line).toNat : Int) = j - dst_line := Int.toNat_of_nonneg (by omega)
        rw [this]
        simp
      rw [hframe2 j hj2, hframe1 j hj1]
    · intro y x hy hx p hp
      cases y with
      | zero =>
        simp only [Nat.cast_zero, zero_mul, add_zero] at hp ⊢
        have hne : ∀ y' x' : Nat, y' < n → x' < w →
            dst_line + x ≠ dst_line + pitch + y' * pitch + x' := by
          intro y' x' _ _
          have := hbelow y' x'
          have hxw : (x : Int) < w := by exact_mod_cast hx
          omega
        rw [hframe2 _ hne, hcell1 x hx p hp]
      | succ y =>
        rw [esrc] at hp
        rw [edst, hcell2 y x (Nat.lt_of_succ_lt_succ hy) hx p hp,
          hframe1 _ (Or.inr (hbelow y x))]

/-- The loops of `draw` in closed form. When the drawn width does not exceed
the pitch and every element of the rectangle lies inside the sprite data and
the destination buffer, `draw` returns a buffer of the same length in which
the element at `dstIndex bp y x` is the result of the switch for the source
pixel at `srcIndex H bp zoom y x` and the old element, and every element
outside the rectangle is unchanged. -/
theorem draw_spec (H : Helpers) (bp : BlitterParams) (mode : BlitterMode) (zoom : Nat)
    (video : List Colour)
    (hpitch : bp.width ≤ bp.pitch)
    (hsrc : ∀ y x : Nat, (y : Int) < bp.height → (x : Int) < bp.width →
      ∃ p, peek bp.sprite.data (srcIndex H bp zoom y x) = some p)
    (hdst : ∀ y x : Nat, (y : Int) < bp.height → (x : Int) < bp.width →
      0 ≤ dstIndex bp y x ∧ dstIndex bp y x < video.length) :
    ∃ video', draw H bp mode zoom video = some video' ∧
      video'.length = video.length ∧
      (∀ j, (∀ y x : Nat, (y : Int) < bp.height → (x : Int) < bp.width → j ≠ dstIndex bp y x) →
        peek video' j = peek video j) ∧
      (∀ y x : Nat, (y : Int) < bp.height → (x : Int) < bp.width → ∀ p,
        peek bp.sprite.data (srcIndex H bp zoom y x) = some p →
        peek video' (dstIndex bp y x)
          = (peek video (dstIndex bp y x)).map (pixelResult H bp.remap mode p)) := by
  have esrc : ∀ y x : Nat,
      (bp.skip_top * (bp.sprite.width : Int) + bp.skip_left) * H.ScaleByZoom 1 zoom
        + y * ((bp.sprite.width : Int) * H.ScaleByZoom 1 zoom) + x * H.ScaleByZoom 1 zoom
      = srcIndex H bp zoom y x := by
    intro y x; unfold srcIndex; ring
  have edst : ∀ y x : Nat, bp.top * bp.pitch + bp.left + y * bp.pitch + x = dstIndex bp y x := by
    intro y x; unfold dstIndex; ring
  have hy : ∀ y : Nat, y < bp.height.toNat ↔ (y : Int) < bp.height := by
    intro y; omega
  have hx : ∀ x : Nat, x < bp.width.toNat ↔ (x : Int) < bp.width := by
    intro x; omega
  by_cases hwpos : 0 ≤ bp.width
  · have hp' : ((bp.width.toNat : Nat) : Int) ≤ bp.pitch := by
      rw [Int.toNat_of_nonneg hwpos]; exact hpitch
    obtain ⟨v, hv, hlen, hframe, hcell⟩ :=
      drawRows_spec H bp.remap mode bp.sprite.data (H.ScaleByZoom 1 zoom) bp.width.toNat
        ((bp.sprite.width : Int) * H.ScaleByZoom 1 zoom) bp.pitch hp' bp.height.toNat
        ((bp.skip_top * (bp.sprite.width : Int) + bp.skip_left) * H.ScaleByZoom 1 zoom)
        (bp.top * bp.pitch + bp.left) video
        (fun y x h1 h2 => by rw [esrc]; exact hsrc y x ((hy y).mp h1) ((hx x).mp h2))
        (fun y x h1 h2 => by rw [edst]; exact hdst y x ((hy y).mp h1) ((hx x).mp h2))
    refine ⟨v, hv, hlen, ?_, ?_⟩
    · intro j hj
      apply hframe
      intro y x h1 h2
      rw [edst]
      exact hj y x ((hy y).mp h1) ((hx x).mp h2)
    · intro y x h1 h2 p hp
      have := hcell y x ((hy y).mpr h1) ((hx x).mpr h2) p (by rw [esrc]; exact hp)
      rwa [edst] at this
  · have hw0 : bp.width.toNat = 0 := by omega
    have hnone : ∀ x : Nat, ¬ (x : Int) < bp.width := by
      intro x; omega
    refine ⟨video, ?_, rfl, fun _ _ => rfl, fun y x _ h2 => absurd h2 (hnone x)⟩
    unfold draw
    rw [hw0]
    exact drawRows_zero_width H bp.remap mode bp.sprite.data _ _ _ _ _ _ video

/-- The result of `draw` on a well-formed call, element by element: the
call returns, each element of the rectangle is the result of the switch for
its source pixel and its old value, and the other elements are unchanged. -/
theorem draw_cells (H : Helpers) (bp : BlitterParams) (mode : BlitterMode) (zoom : Nat)
    (video : List Colour) (hwf : drawWellFormed H bp zoom video) :
    ∃ video', draw H bp mode zoom video = some video' ∧
      video'.length = video.length ∧
      (∀ j, (∀ y x : Nat, (y : Int) < bp.height → (x : Int) < bp.width → j ≠ dstIndex bp y x) →
        peek video' j = peek video j) ∧
      (∀ y x : Nat, (y : Int) < bp.height → (x : Int) < bp.width →
        ∃ p old, peek bp.sprite.data (srcIndex H bp zoom y x) = some p ∧
          peek video (dstIndex bp y x) = some old ∧
          peek video' (dstIndex bp y x) = some (pixelResult H bp.remap mode p old)) := by
  obtain ⟨hpitch, hin⟩ := hwf
  have hsrc : ∀ y x : Nat, (y : Int) < bp.height → (x : Int) < bp.width →
      ∃ p, peek bp.sprite.data (srcIndex H bp zoom y x) = some p := by
    intro y x hy hx
    have h := (hin y (by omega) x (by omega)).1
    exact peek_of_bounds _ _ h.1 h.2
  have hdst : ∀ y x : Nat, (y : Int) < bp.height → (x : Int) < bp.width →
      0 ≤ dstIndex bp y x ∧ dstIndex bp y x < video.length := by
    intro y x hy hx
    exact (hin y (by omega) x (by omega)).2
  obtain ⟨video', hv, hlen, hframe, hcell⟩ := draw_spec H bp mode zoom video hpitch hsrc hdst
  refine ⟨video', hv, hlen, hframe, ?_⟩
  intro y x hy hx
  obtain ⟨p, hp⟩ := hsrc y x hy hx
  obtain ⟨old, hold⟩ := peek_of_bounds video _ (hdst y x hy hx).1 (hdst y x hy hx).2
  refine ⟨p, old, hp, hold, ?_⟩
  rw [hcell y x hy hx p hp, hold]
  rfl

/-! ## The blend modes -/

/-- C1: in `BM_NORMAL` mode a well-formed `draw` returns, and for every
destination pixel of the drawn rectangle: when the sampled source pixel has
`a != 0` the pixel becomes `ComposeColourRGBA(src.r, src.g, src.b, src.a, old)`,
and when `a == 0` it keeps its old value. With the composition of the spec,
the 2x1 sprite of the worked scenario drawn at zoom 0 over `{10,10,10,255}`
gives `{200,0,0,255}` at column 0 and `{10,10,10,255}` at column 1. -/
theorem draw_normal (H : Helpers) (bp : BlitterParams) (zoom : Nat) (video : List Colour)
    (hwf : drawWellFormed H bp zoom video) :
    (∃ video', draw H bp BlitterMode.BM_NORMAL zoom video = some video' ∧
      ∀ y x : Nat, (y : Int) < bp.height → (x : Int) < bp.width →
        ∃ p old, peek bp.sprite.data (srcIndex H bp zoom y x) = some p ∧
          peek video (dstIndex bp y x) = some old ∧
          (p.a ≠ 0 → peek video' (dstIndex bp y x)
            = some (H.ComposeColourRGBA p.r p.g p.b p.a old)) ∧
          (p.a = 0 → peek video' (dstIndex bp y x) = some old)) ∧
    (H.ComposeColourRGBA = Spec.ComposeColourRGBA → H.ScaleByZoom = Spec.ScaleByZoom →
      draw H scenarioParams BlitterMode.BM_NORMAL 0
        [Colour.mk 10 10 10 255, Colour.mk 10 10 10 255]
        = some [Colour.mk 200 0 0 255, Colour.mk 10 10 10 255]) := by
  constructor
  · obtain ⟨video', hv, _, _, hcell⟩ := draw_cells H bp BlitterMode.BM_NORMAL zoom video hwf
    refine ⟨video', hv, ?_⟩
    intro y x hy hx
    obtain ⟨p, old, hp, hold, hres⟩ := hcell y x hy hx
    refine ⟨p, old, hp, hold, ?_, ?_⟩
    · intro ha
      rw [hres]
      simp [pixelResult, drawPixel, ha]
    · intro ha
      rw [hres]
      simp [pixelResult, drawPixel, ha]
  · intro hC hZ
    simp [draw, drawRows, drawRow, drawAt, drawPixel, peek, poke, scenarioParams,
      scenarioSprite, hC, hZ, Spec.ComposeColourRGBA, Spec.compose_over, Spec.ScaleByZoom]

/-- The hypothesis of `draw_normal` holds for the worked scenario, where it
gives the two destination pixels of the spec. -/
theorem draw_normal_witness :
    drawWellFormed sampleHelpers scenarioParams 0
      [Colour.mk 10 10 10 255, Colour.mk 10 10 10 255] ∧
    draw sampleHelpers scenarioParams BlitterMode.BM_NORMAL 0
      [Colour.mk 10 10 10 255, Colour.mk 10 10 10 255]
      = some [Colour.mk 200 0 0 255, Colour.mk 10 10 10 255] :=
  ⟨by decide,
   (draw_normal sampleHelpers scenarioParams 0
      [Colour.mk 10 10 10 255, Colour.mk 10 10 10 255] (by decide)).2 rfl rfl⟩

/-! ### Calls that agree pixel by pixel -/

theorem drawAt_congr (H : Helpers) (r1 r2 : Nat → Nat) (m1 m2 : BlitterMode)
    (data : List Pixel) (src dst : Int) (video : List Colour)
    (h : ∀ p, peek data src = some p → drawPixel H r1 m1 p = drawPixel H r2 m2 p) :
    drawAt H r1 m1 data src dst video = drawAt H r2 m2 data src dst video := by
  unfold drawAt
  cases hp : peek data src with
  | none => rfl
  | some p => simp only [h p hp]

theorem drawRow_congr (H : Helpers) (r1 r2 : Nat → Nat) (m1 m2 : BlitterMode)
    (data : List Pixel) (step : Int) (n : Nat) :
    ∀ (src dst : Int) (video : List Colour),
      (∀ k : Nat, k < n → ∀ p, peek data (src + k * step) = some p →
        drawPixel H r1 m1 p = drawPixel H r2 m2 p) →
      drawRow H r1 m1 data step n src dst video = drawRow H r2 m2 data step n src dst video := by
  induction n with
  | zero => intro _ _ _ _; rfl
  | succ n ih =>
    intro src dst video h
    have h0 : ∀ p, peek data src = some p → drawPixel H r1 m1 p = drawPixel H r2 m2 p := by
      intro p hp
      exact h 0 (Nat.succ_pos n) p (by simpa using hp)
    have hs : ∀ k : Nat, k < n → ∀ p, peek data (src + step + k * step) = some p →
        drawPixel H r1 m1 p = drawPixel H r2 m2 p := by
      intro k hk p hp
      apply h (k + 1) (Nat.succ_lt_succ hk) p
      have e : src + ((k + 1 : Nat) : Int) * step = src + step + k * step := by
        push_cast; ring
      rw [e]; exact hp
    simp only [drawRow, drawAt_congr H r1 r2 m1 m2 data src dst video h0]
    cases drawAt H r2 m2 data src dst video with
    | none => rfl
    | some v => exact ih (src + step) (dst + 1) v hs

theorem drawRows_congr (H : Helpers) (r1 r2 : Nat → Nat) (m1 m2 : BlitterMode)
    (data : List Pixel) (step : Int) (w : Nat) (stride pitch : Int) (n : Nat) :
    ∀ (src_line dst_line : Int) (video : List Colour),
      (∀ y x : Nat, y < n → x < w → ∀ p,
        peek data (src_line + y * stride + x * step) = some p →
        drawPixel H r1 m1 p = drawPixel H r2 m2 p) →
      drawRows H r1 m1 data step w stride pitch n src_line dst_line video
        = drawRows H r2 m2 data step w stride pitch n src_line dst_line video := by
  induction n with
  | zero => intro _ _ _ _; rfl
  | succ n ih =>
    intro src_line dst_line video h
    have h0 : ∀ k : Nat, k < w → ∀ p, peek data (src_line + k * step) = some p →
        drawPixel H r1 m1 p = drawPixel H r2 m2 p := by
      intro k hk p hp
      exact h 0 k (Nat.succ_pos n) hk p (by simpa using hp)
    have hs : ∀ y x : Nat, y < n → x < w → ∀ p,
        peek data (src_line + stride + y * stride + x * step) = some p →
        drawPixel H r1 m1 p = drawPixel H r2 m2 p := by
      intro y x hy hx p hp
      apply h (y + 1) x (Nat.succ_lt_succ hy) hx p
      have e : src_line + ((y + 1 : Nat) : Int) * stride + x * step
          = src_line + stride + y * stride + x * step := by
        push_cast; ring
      rw [e]; exact hp
    simp only [drawRows, drawRow_congr H r1 r2 m1 m2 data step w src_line dst_line video h0]
    cases drawRow H r2 m2 data step w src_line dst_line video with
    | none => rfl
    | some v => exact ih (src_line + stride) (dst_line + pitch) v hs

/-- Two calls of `draw` on the same sprite, geometry and destination return the
same buffer when the switch acts alike on every sampled source pixel. -/
theorem draw_congr (H : Helpers) (bp : BlitterParams) (r2 : Nat → Nat) (m1 m2 : BlitterMode)
    (zoom : Nat) (video : List Colour)
    (h : ∀ y x : Nat, (y : Int) < bp.height → (x : Int) < bp.width → ∀ p,
      peek bp.sprite.data (srcIndex H bp zoom y x) = some p →
      drawPixel H bp.remap m1 p = drawPixel H r2 m2 p) :
    draw H bp m1 zoom video = draw H { bp with remap := r2 } m2 zoom video := by
  unfold draw
  apply drawRows_congr
  intro y x hy hx p hp
  apply h y x (by omega) (by omega) p
  have e : srcIndex H bp zoom y x
      = (bp.skip_top * (bp.sprite.width : Int) + bp.skip_left) * H.ScaleByZoom 1 zoom
        + y * ((bp.sprite.width : Int) * H.ScaleByZoom 1 zoom) + x * H.ScaleByZoom 1 zoom := by
    unfold srcIndex; ring
  rw [e]; exact hp

/-- C2: under `BM_COLOUR_REMAP` a well-formed `draw` returns, and every
destination pixel whose source pixel has `m != 0` and `remap[m] == 0` keeps
its old value, whatever the source alpha, `r`, `g`, `b` and `v`. -/
theorem draw_colour_remap_sentinel (H : Helpers) (bp : BlitterParams) (zoom : Nat)
    (video : List Colour) (hwf : drawWellFormed H bp zoom video) :
    ∃ video', draw H bp BlitterMode.BM_COLOUR_REMAP zoom video = some video' ∧
      ∀ y x : Nat, (y : Int) < bp.height → (x : Int) < bp.width →
        ∀ p, peek bp.sprite.data (srcIndex H bp zoom y x) = some p →
          p.m ≠ 0 → bp.remap p.m = 0 →
          ∃ old, peek video (dstIndex bp y x) = some old ∧
            peek video' (dstIndex bp y x) = some old := by
  obtain ⟨video', hv, _, _, hcell⟩ :=
    draw_cells H bp BlitterMode.BM_COLOUR_REMAP zoom video hwf
  refine ⟨video', hv, ?_⟩
  intro y x hy hx p hp hm hr
  obtain ⟨p', old, hp', hold, hres⟩ := hcell y x hy hx
  rw [hp] at hp'
  cases hp'
  refine ⟨old, hold, ?_⟩
  rw [hres]
  simp [pixelResult, drawPixel, hm, hr]

/-- The hypothesis of `draw_colour_remap_sentinel` holds for `sentinelParams`,
where the opaque pixel with remap index 7 leaves column 0 as it was. -/
theorem draw_colour_remap_sentinel_witness :
    drawWellFormed sampleHelpers sentinelParams 0
      [Colour.mk 10 20 30 255, Colour.mk 10 20 30 255] ∧
    ∃ video', draw sampleHelpers sentinelParams BlitterMode.BM_COLOUR_REMAP 0
      [Colour.mk 10 20 30 255, Colour.mk 10 20 30 255] = some video' ∧
      peek video' 0 = some (Colour.mk 10 20 30 255) := by
  refine ⟨by decide, ?_⟩
  obtain ⟨video', hv, hcell⟩ := draw_colour_remap_sentinel sampleHelpers sentinelParams 0
    [Colour.mk 10 20 30 255, Colour.mk 10 20 30 255] (by decide)
  refine ⟨video', hv, ?_⟩
  obtain ⟨old, hold, hres⟩ := hcell 0 0 (by decide) (by decide) (Pixel.mk 200 100 50 255 7 128)
    (by decide) (by decide) (by decide)
  have e : dstIndex sentinelParams 0 0 = 0 := by decide
  rw [e] at hold hres
  rw [hres, ← hold]
  decide

/-- C3: when every sampled source pixel has `m == 0`, `draw` in
`BM_COLOUR_REMAP` mode returns exactly what `draw` in `BM_NORMAL` mode returns
for the same sprite, parameters, zoom and destination, and the remap table is
not consulted: any other table gives the same result. -/
theorem draw_colour_remap_eq_normal (H : Helpers) (bp : BlitterParams) (zoom : Nat)
    (video : List Colour)
    (hm : ∀ y x : Nat, (y : Int) < bp.height → (x : Int) < bp.width → ∀ p,
      peek bp.sprite.data (srcIndex H bp zoom y x) = some p → p.m = 0) :
    draw H bp BlitterMode.BM_COLOUR_REMAP zoom video
      = draw H bp BlitterMode.BM_NORMAL zoom video ∧
    ∀ remap' : Nat → Nat,
      draw H { bp with remap := remap' } BlitterMode.BM_COLOUR_REMAP zoom video
        = draw H bp BlitterMode.BM_NORMAL zoom video := by
  have key : ∀ r1 r2 : Nat → Nat, ∀ p : Pixel, p.m = 0 →
      drawPixel H r1 BlitterMode.BM_COLOUR_REMAP p = drawPixel H r2 BlitterMode.BM_NORMAL p := by
    intro r1 r2 p h0
    simp [drawPixel, h0]
  constructor
  · exact draw_congr H bp bp.remap BlitterMode.BM_COLOUR_REMAP BlitterMode.BM_NORMAL zoom video
      (fun y x hy hx p hp => key _ _ p (hm y x hy hx p hp))
  · intro remap'
    exact draw_congr H { bp with remap := remap' } bp.remap BlitterMode.BM_COLOUR_REMAP
      BlitterMode.BM_NORMAL zoom video
      (fun y x hy hx p hp => key _ _ p (hm y x hy hx p hp))

/-- The hypothesis of `draw_colour_remap_eq_normal` holds for the worked
scenario, whose two pixels have `m == 0`: both modes give the same buffer. -/
theorem draw_colour_remap_eq_normal_witness :
    draw sampleHelpers scenarioParams BlitterMode.BM_COLOUR_REMAP 0
        [Colour.mk 10 10 10 255, Colour.mk 10 10 10 255]
      = draw sampleHelpers scenarioParams BlitterMode.BM_NORMAL 0
        [Colour.mk 10 10 10 255, Colour.mk 10 10 10 255] ∧
    draw sampleHelpers scenarioParams BlitterMode.BM_NORMAL 0
        [Colour.mk 10 10 10 255, Colour.mk 10 10 10 255]
      = some [Colour.mk 200 0 0 255, Colour.mk 10 10 10 255] := by
  refine ⟨(draw_colour_remap_eq_normal sampleHelpers scenarioParams 0
    [Colour.mk 10 10 10 255, Colour.mk 10 10 10 255] ?_).1, by decide⟩
  intro y x hy hx p hp
  have hy0 : y = 0 := by
    have : (y : Int) < 1 := hy
    omega
  have hx2 : x = 0 ∨ x = 1 := by
    have : (x : Int) < 2 := hx
    omega
  subst hy0
  rcases hx2 with h | h <;> subst h
  · have e : peek scenarioParams.sprite.data (srcIndex sampleHelpers scenarioParams 0 0 0)
        = some (Pixel.mk 200 0 0 255 0 0) := by decide
    rw [e] at hp
    cases hp
    rfl
  · have e : peek scenarioParams.sprite.data (srcIndex sampleHelpers scenarioParams 0 0 1)
        = some (Pixel.mk 0 0 0 0 0 0) := by decide
    rw [e] at hp
    cases hp
    rfl

/-- C4: under `BM_COLOUR_REMAP` a well-formed `draw` returns, and every
destination pixel whose source pixel has `m != 0` and `remap[m] != 0` becomes
`ComposeColourPA(AdjustBrightness(LookupColourInPalette(remap[m]), v), a, old)`;
the stored `r`, `g`, `b` of such a source pixel do not influence what the
switch does. -/
theorem draw_colour_remap_palette (H : Helpers) (bp : BlitterParams) (zoom : Nat)
    (video : List Colour) (hwf : drawWellFormed H bp zoom video) :
    (∃ video', draw H bp BlitterMode.BM_COLOUR_REMAP zoom video = some video' ∧
      ∀ y x : Nat, (y : Int) < bp.height → (x : Int) < bp.width →
        ∀ p, peek bp.sprite.data (srcIndex H bp zoom y x) = some p →
          p.m ≠ 0 → bp.remap p.m ≠ 0 →
          ∃ old, peek video (dstIndex bp y x) = some old ∧
            peek video' (dstIndex bp y x) = some (H.ComposeColourPA
              (H.AdjustBrightness (H.LookupColourInPalette (bp.remap p.m)) p.v) p.a old)) ∧
    (∀ (p : Pixel) (r g b : Nat), p.m ≠ 0 →
      drawPixel H bp.remap BlitterMode.BM_COLOUR_REMAP { p with r := r, g := g, b := b }
        = drawPixel H bp.remap BlitterMode.BM_COLOUR_REMAP p) := by
  constructor
  · obtain ⟨video', hv, _, _, hcell⟩ :=
      draw_cells H bp BlitterMode.BM_COLOUR_REMAP zoom video hwf
    refine ⟨video', hv, ?_⟩
    intro y x hy hx p hp hm hr
    obtain ⟨p', old, hp', hold, hres⟩ := hcell y x hy hx
    rw [hp] at hp'
    cases hp'
    refine ⟨old, hold, ?_⟩
    rw [hres]
    simp [pixelResult, drawPixel, hm, hr]
  · intro p r g b hm
    simp [drawPixel, hm]

/-- The hypothesis of `draw_colour_remap_palette` holds for `paletteParams`,
where column 0 becomes the composite of palette entry 9 at brightness 128. -/
theorem draw_colour_remap_palette_witness :
    drawWellFormed sampleHelpers paletteParams 0
      [Colour.mk 10 20 30 255, Colour.mk 10 20 30 255] ∧
    ∃ video', draw sampleHelpers paletteParams BlitterMode.BM_COLOUR_REMAP 0
      [Colour.mk 10 20 30 255, Colour.mk 10 20 30 255] = some video' ∧
      peek video' 0 = some (Colour.mk 9 10 11 255) := by
  refine ⟨by decide, ?_⟩
  obtain ⟨video', hv, hcell⟩ := (draw_colour_remap_palette sampleHelpers paletteParams 0
    [Colour.mk 10 20 30 255, Colour.mk 10 20 30 255] (by decide)).1
  refine ⟨video', hv, ?_⟩
  obtain ⟨old, hold, hres⟩ := hcell 0 0 (by decide) (by decide) (Pixel.mk 200 100 50 255 7 128)
    (by decide) (by decide) (by decide)
  have e : dstIndex paletteParams 0 0 = 0 := by decide
  rw [e] at hold hres
  have e2 : peek [Colour.mk 10 20 30 255, Colour.mk 10 20 30 255] 0
      = some (Colour.mk 10 20 30 255) := by decide
  rw [e2] at hold
  cases hold
  rw [hres]
  decide

theorem Spec.ComposeColourPA_zero (colour current : Colour) :
    Spec.ComposeColourPA colour 0 current = current := by
  simp [Spec.ComposeColourPA, Spec.ComposeColourRGBA, Spec.compose_over]

/-- With the composition of the spec, the switch leaves the destination value
as it is for a source pixel with `a == 0`, in every mode. -/
theorem pixelResult_alpha_zero (H : Helpers) (hPA : H.ComposeColourPA = Spec.ComposeColourPA)
    (remap : Nat → Nat) (mode : BlitterMode) (p : Pixel) (ha : p.a = 0) (old : Colour) :
    pixelResult H remap mode p old = old := by
  by_cases hm : p.m = 0 <;> by_cases hr : remap p.m = 0 <;> cases mode <;>
    simp [pixelResult, drawPixel, ha, hPA, hm, hr, Spec.ComposeColourPA_zero]

/-- C5: for a source pixel with `a == 0` the switch of `draw` assigns nothing
to the destination in `BM_NORMAL`, `BM_TRANSPARENT` and `BM_BLACK_REMAP` mode,
and in `BM_COLOUR_REMAP` and `BM_CRASH_REMAP` mode when `m == 0` or
`remap[m] == 0`; on the remaining path it assigns
`ComposeColourPA(.., 0, old)`. With the composition of the spec for
`ComposeColourPA`, a well-formed `draw` returns in every blend mode and every
destination pixel whose source pixel has `a == 0` keeps its old value. -/
theorem draw_alpha_zero (H : Helpers) (bp : BlitterParams) (mode : BlitterMode) (zoom : Nat)
    (video : List Colour) (hwf : drawWellFormed H bp zoom video) :
    (∀ p : Pixel, p.a = 0 →
      (mode = BlitterMode.BM_NORMAL ∨ mode = BlitterMode.BM_TRANSPARENT ∨
        mode = BlitterMode.BM_BLACK_REMAP ∨ p.m = 0 ∨ bp.remap p.m = 0) →
      drawPixel H bp.remap mode p = none) ∧
    (H.ComposeColourPA = Spec.ComposeColourPA →
      ∃ video', draw H bp mode zoom video = some video' ∧
        ∀ y x : Nat, (y : Int) < bp.height → (x : Int) < bp.width →
          ∀ p, peek bp.sprite.data (srcIndex H bp zoom y x) = some p → p.a = 0 →
            ∃ old, peek video (dstIndex bp y x) = some old ∧
              peek video' (dstIndex bp y x) = some old) := by
  constructor
  · intro p ha hpath
    by_cases hm : p.m = 0 <;> by_cases hr : bp.remap p.m = 0 <;> cases mode <;>
      simp_all [drawPixel]
  · intro hPA
    obtain ⟨video', hv, _, _, hcell⟩ := draw_cells H bp mode zoom video hwf
    refine ⟨video', hv, ?_⟩
    intro y x hy hx p hp ha
    obtain ⟨p', old, hp', hold, hres⟩ := hcell y x hy hx
    rw [hp] at hp'
    cases hp'
    exact ⟨old, hold, by rw [hres, pixelResult_alpha_zero H hPA bp.remap mode p ha old]⟩

/-- The hypotheses of `draw_alpha_zero` hold for `alphaZeroParams` in
`BM_COLOUR_REMAP` mode, where the remapped pixel with `a == 0` leaves column 0
as it was although its remap entry is not 0. -/
theorem draw_alpha_zero_witness :
    drawWellFormed sampleHelpers alphaZeroParams 0
      [Colour.mk 10 20 30 40, Colour.mk 10 20 30 40] ∧
    ∃ video', draw sampleHelpers alphaZeroParams BlitterMode.BM_COLOUR_REMAP 0
      [Colour.mk 10 20 30 40, Colour.mk 10 20 30 40] = some video' ∧
      peek video' 0 = some (Colour.mk 10 20 30 40) := by
  refine ⟨by decide, ?_⟩
  obtain ⟨video', hv, hcell⟩ := (draw_alpha_zero sampleHelpers alphaZeroParams
    BlitterMode.BM_COLOUR_REMAP 0 [Colour.mk 10 20 30 40, Colour.mk 10 20 30 40]
    (by decide)).2 rfl
  refine ⟨video', hv, ?_⟩
  obtain ⟨old, hold, hres⟩ := hcell 0 0 (by decide) (by decide) (Pixel.mk 200 100 50 0 7 128)
    (by decide) (by decide)
  have e : dstIndex alphaZeroParams 0 0 = 0 := by decide
  rw [e] at hold hres
  rw [hres, ← hold]
  decide

/-! ### The cursors -/

/-- C7: with `step = ScaleByZoom(1, zoom)`, a well-formed `draw` returns, and
for every `0 <= y < bp.height` and `0 <= x < bp.width` the destination element
at linear index `(bp.top + y) * bp.pitch + bp.left + x` is the result of the
switch for its old value and the source element at flat index
`((bp.skip_top + y) * sprite.width + bp.skip_left + x) * step`. These indices
are where the cursors of the loops stand: the source cursor starts at
`(skip_top * width + skip_left) * step` and advances by `step` per column and
by `width * step` per row, the destination cursor starts at
`top * pitch + left` and advances by 1 per column and by `pitch` per row. -/
theorem draw_indexing (H : Helpers) (bp : BlitterParams) (mode : BlitterMode) (zoom : Nat)
    (video : List Colour) (hwf : drawWellFormed H bp zoom video) :
    (∃ video', draw H bp mode zoom video = some video' ∧
      ∀ y x : Nat, (y : Int) < bp.height → (x : Int) < bp.width →
        ∃ p old,
          peek bp.sprite.data
            (((bp.skip_top + y) * bp.sprite.width + bp.skip_left + x) * H.ScaleByZoom 1 zoom)
            = some p ∧
          peek video ((bp.top + y) * bp.pitch + bp.left + x) = some old ∧
          peek video' ((bp.top + y) * bp.pitch + bp.left + x)
            = some (pixelResult H bp.remap mode p old)) ∧
    (srcIndex H bp zoom 0 0
        = (bp.skip_top * bp.sprite.width + bp.skip_left) * H.ScaleByZoom 1 zoom ∧
      dstIndex bp 0 0 = bp.top * bp.pitch + bp.left ∧
      ∀ y x : Nat,
        srcIndex H bp zoom y (x + 1) = srcIndex H bp zoom y x + H.ScaleByZoom 1 zoom ∧
        srcIndex H bp zoom (y + 1) x
          = srcIndex H bp zoom y x + bp.sprite.width * H.ScaleByZoom 1 zoom ∧
        dstIndex bp y (x + 1) = dstIndex bp y x + 1 ∧
        dstIndex bp (y + 1) x = dstIndex bp y x + bp.pitch) := by
  constructor
  · obtain ⟨video', hv, _, _, hcell⟩ := draw_cells H bp mode zoom video hwf
    exact ⟨video', hv, fun y x hy hx => hcell y x hy hx⟩
  · refine ⟨?_, ?_, ?_⟩
    · simp [srcIndex]
    · simp [dstIndex]
    · intro y x
      refine ⟨?_, ?_, ?_, ?_⟩ <;> simp only [srcIndex, dstIndex] <;> push_cast <;> ring

/-- The hypothesis of `draw_indexing` holds for `stripParams` on a 3x3
destination, where the element of row 1, column 1 of the rectangle, at linear
index 8, comes from the source element at flat index 6. -/
theorem draw_indexing_witness :
    drawWellFormed sampleHelpers stripParams 0 (List.replicate 9 (Colour.mk 0 0 0 255)) ∧
    ∃ video', draw sampleHelpers stripParams BlitterMode.BM_NORMAL 0
        (List.replicate 9 (Colour.mk 0 0 0 255)) = some video' ∧
      peek video' 8 = some (Colour.mk 7 0 0 255) := by
  refine ⟨by decide, ?_⟩
  obtain ⟨video', hv, hcell⟩ := (draw_indexing sampleHelpers stripParams BlitterMode.BM_NORMAL 0
    (List.replicate 9 (Colour.mk 0 0 0 255)) (by decide)).1
  refine ⟨video', hv, ?_⟩
  obtain ⟨p, old, hp, hold, hres⟩ := hcell 1 1 (by decide) (by decide)
  have e1 : peek stripParams.sprite.data
      (((stripParams.skip_top + (1 : Nat)) * stripParams.sprite.width + stripParams.skip_left
        + (1 : Nat)) * sampleHelpers.ScaleByZoom 1 0) = some (Pixel.mk 7 0 0 255 0 0) := by
    decide
  have e2 : (stripParams.top + (1 : Nat)) * stripParams.pitch + stripParams.left + (1 : Nat)
      = (8 : Int) := by decide
  have e3 : peek (List.replicate 9 (Colour.mk 0 0 0 255)) 8 = some (Colour.mk 0 0 0 255) := by
    decide
  rw [e1] at hp
  rw [e2] at hold hres
  rw [e3] at hold
  cases hp
  cases hold
  rw [hres]
  decide

/-! ## `Encode` -/

theorem encodeLoop_spec (H : Helpers) (n : Nat) :
    ∀ src : List SpriteLoader.CommonPixel, n ≤ src.length →
      ∃ dst, encodeLoop H n src = some dst ∧ dst.length = n ∧
        ∀ i, i < n → dst[i]? = (src[i]?).map (encodePixel H) := by
  induction n with
  | zero =>
    intro src _
    exact ⟨[], rfl, rfl, fun i hi => absurd hi (Nat.not_lt_zero i)⟩
  | succ n ih =>
    intro src hlen
    cases src with
    | nil => simp at hlen
    | cons p rest =>
      obtain ⟨dst, hd, hl, hi⟩ := ih rest (by simpa using hlen)
      refine ⟨encodePixel H p :: dst, by simp [encodeLoop, hd], by simp [hl], ?_⟩
      intro i hlt
      cases i with
      | zero => simp
      | succ i => simpa using hi i (Nat.lt_of_succ_lt_succ hlt)

/-- The result of `Encode` on a decoded sprite that holds its `height * width` pixels: it
returns a sprite with the header of the decoded one and `height * width`
records, record `i` being `encodePixel` of decoded pixel `i`. -/
theorem Encode_spec (H : Helpers) (sprite : SpriteLoader.Sprite) (is_font : Bool)
    (hlen : sprite.height * sprite.width ≤ sprite.data.length) :
    ∃ enc, Encode H sprite is_font = some enc ∧
      enc.height = sprite.height ∧ enc.width = sprite.width ∧
      enc.x_offs = sprite.x_offs ∧ enc.y_offs = sprite.y_offs ∧
      enc.data.length = sprite.height * sprite.width ∧
      ∀ i, i < sprite.height * sprite.width →
        enc.data[i]? = (sprite.data[i]?).map (encodePixel H) := by
  obtain ⟨dst, hd, hl, hi⟩ := encodeLoop_spec H (sprite.height * sprite.width) sprite.data hlen
  exact ⟨{ AllocateSprite sprite with data := dst }, by simp [Encode, hd], rfl, rfl, rfl, rfl,
    hl, hi⟩

/-- C9: `Encode` on a decoded sprite that holds its `height * width` pixels
returns a sprite in which, for every index `i < width * height` whose decoded
pixel has `m == 0`, record `i` has the decoded pixel's `r`, `g`, `b`, `a` and
`m = 0`, `v = 0`. -/
theorem Encode_true_colour (H : Helpers) (sprite : SpriteLoader.Sprite) (is_font : Bool)
    (hlen : sprite.height * sprite.width ≤ sprite.data.length) :
    ∃ enc, Encode H sprite is_font = some enc ∧
      ∀ (i : Nat) (p : SpriteLoader.CommonPixel), i < sprite.width * sprite.height →
        sprite.data[i]? = some p → p.m = 0 →
        enc.data[i]? = some (Pixel.mk p.r p.g p.b p.a 0 0) := by
  obtain ⟨enc, he, _, _, _, _, _, hi⟩ := Encode_spec H sprite is_font hlen
  refine ⟨enc, he, ?_⟩
  intro i p hlt hp hm
  rw [hi i (by rw [Nat.mul_comm]; exact hlt), hp]
  simp [encodePixel, hm]

/-- The hypothesis of `Encode_true_colour` holds for `decodedSample`, whose
pixel 0 is stored verbatim with `m = 0` and `v = 0`. -/
theorem Encode_true_colour_witness :
    decodedSample.height * decodedSample.width ≤ decodedSample.data.length ∧
    ∃ enc, Encode sampleHelpers decodedSample false = some enc ∧
      enc.data[0]? = some (Pixel.mk 200 100 50 255 0 0) := by
  refine ⟨by decide, ?_⟩
  obtain ⟨enc, he, h⟩ := Encode_true_colour sampleHelpers decodedSample false (by decide)
  exact ⟨enc, he, h 0 (SpriteLoader.CommonPixel.mk 200 100 50 255 0) (by decide) (by decide)
    (by decide)⟩

/-- C10: `Encode` on a decoded sprite that holds its `height * width` pixels
returns a sprite in which, for every index `i < width * height` whose decoded
pixel has `m != 0`, record `i` has `v = max(r, g, b)` of the decoded pixel, or
`DEFAULT_BRIGHTNESS` when that maximum is 0, has for `r`, `g`, `b` the channels
of `AdjustBrightness(LookupColourInPalette(m), v)` for that stored `v`, and has
the decoded pixel's `a` and `m`. -/
theorem Encode_remapped (H : Helpers) (sprite : SpriteLoader.Sprite) (is_font : Bool)
    (hlen : sprite.height * sprite.width ≤ sprite.data.length) :
    ∃ enc, Encode H sprite is_font = some enc ∧
      ∀ (i : Nat) (p : SpriteLoader.CommonPixel), i < sprite.width * sprite.height →
        sprite.data[i]? = some p → p.m ≠ 0 →
        ∃ q, enc.data[i]? = some q ∧
          q.v = (if max p.r (max p.g p.b) = 0 then H.DEFAULT_BRIGHTNESS
            else max p.r (max p.g p.b)) ∧
          q.r = (H.AdjustBrightness (H.LookupColourInPalette p.m) q.v).r ∧
          q.g = (H.AdjustBrightness (H.LookupColourInPalette p.m) q.v).g ∧
          q.b = (H.AdjustBrightness (H.LookupColourInPalette p.m) q.v).b ∧
          q.a = p.a ∧ q.m = p.m := by
  obtain ⟨enc, he, _, _, _, _, _, hi⟩ := Encode_spec H sprite is_font hlen
  refine ⟨enc, he, ?_⟩
  intro i p hlt hp hm
  refine ⟨encodePixel H p, ?_, ?_⟩
  · rw [hi i (by rw [Nat.mul_comm]; exact hlt), hp]
    rfl
  · simp [encodePixel, hm]

/-- The hypothesis of `Encode_remapped` holds for `decodedSample`, whose pixel 1
has remap index 7 and RGB all zero: it is stored with the default brightness
and the palette colour of index 7 at that brightness. -/
theorem Encode_remapped_witness :
    decodedSample.height * decodedSample.width ≤ decodedSample.data.length ∧
    ∃ enc, Encode sampleHelpers decodedSample false = some enc ∧
      enc.data[1]? = some (Pixel.mk 7 8 9 255 7 128) := by
  refine ⟨by decide, ?_⟩
  obtain ⟨enc, he, h⟩ := Encode_remapped sampleHelpers decodedSample false (by decide)
  refine ⟨enc, he, ?_⟩
  obtain ⟨q, hq, hv, hr, hg, hb, ha, hm⟩ :=
    h 1 (SpriteLoader.CommonPixel.mk 0 0 0 255 7) (by decide) (by decide) (by decide)
  rw [hq]
  have hv' : q.v = 128 := by rw [hv]; decide
  rw [hv'] at hr hg hb
  cases q
  simp only [Pixel.mk.injEq, Option.some.injEq]
  simp only at hv' hr hg hb ha hm
  subst hv' hr hg hb ha hm
  decide

/-! ## Encoding, then drawing -/

theorem peek_natCast {α : Type} (buf : List α) (n : Nat) : peek buf (n : Int) = buf[n]? := by
  simp [peek]

theorem Spec.ComposeColourRGBA_full_alpha (r g b : Nat) (current : Colour) :
    Spec.ComposeColourRGBA r g b 255 current = Colour.mk r g b current.a := by
  simp [Spec.ComposeColourRGBA, Spec.compose_over]

theorem cell_lt {w h x y : Nat} (hx : x < w) (hy : y < h) : y * w + x < h * w := by
  have h1 : (y + 1) * w ≤ h * w := Nat.mul_le_mul_right w hy
  have h2 : (y + 1) * w = y * w + w := by ring
  omega

/-- C6: with the composition and the zoom scaling of the spec, for a decoded
sprite that holds its `height * width` pixels, each with `a = 255` and `m = 0`:
`Encode` returns a sprite, drawing the whole of it in `BM_NORMAL` mode at zoom
level 0 onto a zero-initialised destination of the same size returns a buffer,
and the pixel of that buffer at `(x, y)` has the decoded pixel's `r`, `g`, `b`
for every `x < width`, `y < height`. -/
theorem Encode_draw_roundtrip (H : Helpers)
    (hC : H.ComposeColourRGBA = Spec.ComposeColourRGBA)
    (hZ : H.ScaleByZoom = Spec.ScaleByZoom)
    (sprite : SpriteLoader.Sprite) (is_font : Bool) (remap : Nat → Nat)
    (hlen : sprite.height * sprite.width ≤ sprite.data.length)
    (hpix : ∀ p ∈ sprite.data, p.a = 255 ∧ p.m = 0) :
    ∃ enc, Encode H sprite is_font = some enc ∧
      ∃ video', draw H (wholeSprite enc remap) BlitterMode.BM_NORMAL 0
          (List.replicate (sprite.height * sprite.width) (Colour.mk 0 0 0 0)) = some video' ∧
        ∀ x y : Nat, x < sprite.width → y < sprite.height →
          ∃ p c, sprite.data[y * sprite.width + x]? = some p ∧
            video'[y * sprite.width + x]? = some c ∧
            c.r = p.r ∧ c.g = p.g ∧ c.b = p.b := by
  obtain ⟨enc, he, hh, hw, _, _, hel, hi⟩ := Encode_spec H sprite is_font hlen
  refine ⟨enc, he, ?_⟩
  have hstep : H.ScaleByZoom 1 0 = 1 := by rw [hZ]; simp [Spec.ScaleByZoom]
  have hsrcI : ∀ y x : Nat, srcIndex H (wholeSprite enc remap) 0 y x
      = ((y * sprite.width + x : Nat) : Int) := by
    intro y x
    simp only [srcIndex, wholeSprite, hstep, hw]
    push_cast; ring
  have hdstI : ∀ y x : Nat, dstIndex (wholeSprite enc remap) y x
      = ((y * sprite.width + x : Nat) : Int) := by
    intro y x
    simp only [dstIndex, wholeSprite, hw]
    push_cast; ring
  have hwf : drawWellFormed H (wholeSprite enc remap) 0
      (List.replicate (sprite.height * sprite.width) (Colour.mk 0 0 0 0)) := by
    refine ⟨le_refl _, ?_⟩
    intro y hy x hx
    have hy' : y < sprite.height := by
      have : y < (enc.height : Int).toNat := hy
      rw [hh] at this
      simpa using this
    have hx' : x < sprite.width := by
      have : x < (enc.width : Int).toNat := hx
      rw [hw] at this
      simpa using this
    have hlt := cell_lt hx' hy'
    have hel' : (wholeSprite enc remap).sprite.data.length = sprite.height * sprite.width := hel
    rw [hsrcI, hdstI, hel', List.length_replicate]
    refine ⟨⟨Int.ofNat_nonneg _, ?_⟩, ⟨Int.ofNat_nonneg _, ?_⟩⟩ <;> exact_mod_cast hlt
  obtain ⟨video', hv, _, _, hcell⟩ := draw_cells H (wholeSprite enc remap)
    BlitterMode.BM_NORMAL 0 _ hwf
  refine ⟨video', hv, ?_⟩
  intro x y hx hy
  have hlt := cell_lt hx hy
  obtain ⟨q, old, hq, _, hres⟩ := hcell y x
    (by simp only [wholeSprite, hh]; exact_mod_cast hy)
    (by simp only [wholeSprite, hw]; exact_mod_cast hx)
  rw [hsrcI, peek_natCast] at hq
  rw [hdstI, peek_natCast] at hres
  have hlt' : y * sprite.width + x < sprite.data.length := lt_of_lt_of_le hlt hlen
  have hq' : (wholeSprite enc remap).sprite.data[y * sprite.width + x]?
      = some (encodePixel H sprite.data[y * sprite.width + x]) := by
    show enc.data[y * sprite.width + x]? = _
    rw [hi _ hlt, List.getElem?_eq_getElem hlt']
    rfl
  rw [hq'] at hq
  cases hq
  obtain ⟨ha, hm⟩ := hpix _ (List.getElem_mem hlt')
  refine ⟨sprite.data[y * sprite.width + x], _, List.getElem?_eq_getElem hlt', hres, ?_⟩
  simp [pixelResult, drawPixel, encodePixel, hm, ha, hC, Spec.ComposeColourRGBA_full_alpha]

/-- The hypotheses of `Encode_draw_roundtrip` hold for `opaqueSample`: encoded
and drawn onto four zero pixels, it gives back its own RGB values. -/
theorem Encode_draw_roundtrip_witness :
    ∃ enc, Encode sampleHelpers opaqueSample false = some enc ∧
      ∃ video', draw sampleHelpers (wholeSprite enc (fun m => m)) BlitterMode.BM_NORMAL 0
          (List.replicate (opaqueSample.height * opaqueSample.width) (Colour.mk 0 0 0 0))
          = some video' ∧
        ∃ c, video'[1 * opaqueSample.width + 0]? = some c ∧ c.r = 7 ∧ c.g = 8 ∧ c.b = 9 := by
  obtain ⟨enc, he, video', hv, h⟩ := Encode_draw_roundtrip sampleHelpers rfl rfl opaqueSample
    false (fun m => m) (by decide) (by decide)
  refine ⟨enc, he, video', hv, ?_⟩
  obtain ⟨p, c, hp, hc, hr, hg, hb⟩ := h 0 1 (by decide) (by decide)
  have e : opaqueSample.data[1 * opaqueSample.width + 0]?
      = some (SpriteLoader.CommonPixel.mk 7 8 9 255 0) := by decide
  rw [e] at hp
  cases hp
  exact ⟨c, hc, hr, hg, hb⟩

/-! ## Zoom levels -/

theorem everySecond_getElem? {α : Type} :
    ∀ (l : List α) (i : Nat), (everySecond l)[i]? = l[2 * i]?
  | [], i => by simp [everySecond]
  | [a], i => by cases i <;> simp [everySecond, Nat.mul_succ]
  | a :: b :: rest, i => by
    cases i with
    | zero => simp [everySecond]
    | succ i =>
      have ih := everySecond_getElem? rest i
      simp [everySecond, Nat.mul_succ, ih]

theorem peek_everySecond {α : Type} (l : List α) (i : Int) :
    peek (everySecond l) i = peek l (2 * i) := by
  unfold peek
  by_cases h : 0 ≤ i
  · have h2 : (0 : Int) ≤ 2 * i := by omega
    have e : (2 * i).toNat = 2 * i.toNat := by omega
    simp only [h, h2, if_true, e]
    exact everySecond_getElem? l i.toNat
  · have h2 : ¬ (0 : Int) ≤ 2 * i := by omega
    simp only [h, h2, if_false]

theorem drawAt_everySecond (H : Helpers) (remap : Nat → Nat) (mode : BlitterMode)
    (data : List Pixel) (src dst : Int) (video : List Colour) :
    drawAt H remap mode data (2 * src) dst video
      = drawAt H remap mode (everySecond data) src dst video := by
  unfold drawAt
  rw [peek_everySecond]

theorem drawRow_everySecond (H : Helpers) (remap : Nat → Nat) (mode : BlitterMode)
    (data : List Pixel) (step : Int) (n : Nat) :
    ∀ (src dst : Int) (video : List Colour),
      drawRow H remap mode data (2 * step) n (2 * src) dst video
        = drawRow H remap mode (everySecond data) step n src dst video := by
  induction n with
  | zero => intro _ _ _; rfl
  | succ n ih =>
    intro src dst video
    simp only [drawRow, drawAt_everySecond]
    cases drawAt H remap mode (everySecond data) src dst video with
    | none => rfl
    | some v =>
      have e : 2 * src + 2 * step = 2 * (src + step) := by ring
      simp only [e]
      exact ih _ _ _

theorem drawRows_everySecond (H : Helpers) (remap : Nat → Nat) (mode : BlitterMode)
    (data : List Pixel) (step : Int) (w : Nat) (stride pitch : Int) (n : Nat) :
    ∀ (src_line dst_line : Int) (video : List Colour),
      drawRows H remap mode data (2 * step) w (2 * stride) pitch n (2 * src_line) dst_line video
        = drawRows H remap mode (everySecond data) step w stride pitch n src_line dst_line
          video := by
  induction n with
  | zero => intro _ _ _; rfl
  | succ n ih =>
    intro src_line dst_line video
    simp only [drawRows, drawRow_everySecond]
    cases drawRow H remap mode (everySecond data) step w src_line dst_line video with
    | none => rfl
    | some v =>
      have e : 2 * src_line + 2 * stride = 2 * (src_line + stride) := by ring
      simp only [e]
      exact ih _ _ _

/-- C8: with the zoom scaling of the spec, at zoom level `n + 1` the column
stride and the row stride of `draw` are twice those of level `n`, the flat
source index read for each destination `(x, y)` is exactly twice the index
read at level `n`, so that `draw` at level `n + 1` returns what `draw` at level
`n` returns on the sprite data subsampled at even offsets; and destination
`(x, y)` at level `n + 1` reads the source element that destination
`(2 * x, 2 * y)` reads at level `n` with the skips doubled: a fixed source
region is covered by a destination of half the width and half the height. -/
theorem draw_zoom_doubling (H : Helpers) (hZ : H.ScaleByZoom = Spec.ScaleByZoom)
    (bp : BlitterParams) (mode : BlitterMode) (n : Nat) (video : List Colour) :
    H.ScaleByZoom 1 (n + 1) = 2 * H.ScaleByZoom 1 n ∧
    (bp.sprite.width : Int) * H.ScaleByZoom 1 (n + 1)
      = 2 * ((bp.sprite.width : Int) * H.ScaleByZoom 1 n) ∧
    (∀ y x : Nat, srcIndex H bp (n + 1) y x = 2 * srcIndex H bp n y x) ∧
    draw H bp mode (n + 1) video = draw H (subsampled bp) mode n video ∧
    (∀ y x : Nat, srcIndex H bp (n + 1) y x
      = srcIndex H { bp with skip_left := 2 * bp.skip_left, skip_top := 2 * bp.skip_top } n
          (2 * y) (2 * x)) := by
  have hstep : H.ScaleByZoom 1 (n + 1) = 2 * H.ScaleByZoom 1 n := by
    rw [hZ]
    simp only [Spec.ScaleByZoom]
    ring
  refine ⟨hstep, by rw [hstep]; ring, ?_, ?_, ?_⟩
  · intro y x
    simp only [srcIndex, hstep]
    ring
  · unfold draw
    have e1 : (bp.sprite.width : Int) * H.ScaleByZoom 1 (n + 1)
        = 2 * ((bp.sprite.width : Int) * H.ScaleByZoom 1 n) := by rw [hstep]; ring
    have e2 : (bp.skip_top * (bp.sprite.width : Int) + bp.skip_left) * H.ScaleByZoom 1 (n + 1)
        = 2 * ((bp.skip_top * (bp.sprite.width : Int) + bp.skip_left) * H.ScaleByZoom 1 n) := by
      rw [hstep]; ring
    rw [e1, e2, hstep, drawRows_everySecond]
    rfl
  · intro y x
    simp only [srcIndex, hstep]
    push_cast
    ring

/-- The hypothesis of `draw_zoom_doubling` holds for the helpers with the zoom
scaling of the spec: at zoom level 1 `draw` on `zoomedParams` reads the source
elements 0 and 2, as it does at level 0 on the subsampled data. -/
theorem draw_zoom_doubling_witness :
    draw sampleHelpers zoomedParams BlitterMode.BM_NORMAL 1
        [Colour.mk 0 0 0 255, Colour.mk 0 0 0 255]
      = draw sampleHelpers (subsampled zoomedParams) BlitterMode.BM_NORMAL 0
        [Colour.mk 0 0 0 255, Colour.mk 0 0 0 255] ∧
    draw sampleHelpers zoomedParams BlitterMode.BM_NORMAL 1
        [Colour.mk 0 0 0 255, Colour.mk 0 0 0 255]
      = some [Colour.mk 1 0 0 255, Colour.mk 3 0 0 255] :=
  ⟨(draw_zoom_doubling sampleHelpers rfl zoomedParams BlitterMode.BM_NORMAL 0
      [Colour.mk 0 0 0 255, Colour.mk 0 0 0 255]).2.2.2.1, by decide⟩

/-! ## The crash, black and transparent modes -/

/-- C13: under `BM_CRASH_REMAP` a well-formed `draw` returns, and for every
destination pixel: when the source pixel has `m != 0` the pixel becomes what
the switch of `BM_COLOUR_REMAP` produces for the same source pixel, remap
table and old value; when it has `m == 0` and `a != 0` the pixel becomes
`ComposeColourRGBA(g, g, g, a, old)` with the one value
`g = MakeDark(r, g, b)` in all three channels. When every sampled pixel has
`m != 0` the two modes return the same buffer. -/
theorem draw_crash_remap (H : Helpers) (bp : BlitterParams) (zoom : Nat)
    (video : List Colour) (hwf : drawWellFormed H bp zoom video) :
    (∃ video', draw H bp BlitterMode.BM_CRASH_REMAP zoom video = some video' ∧
      ∀ y x : Nat, (y : Int) < bp.height → (x : Int) < bp.width →
        ∀ p, peek bp.sprite.data (srcIndex H bp zoom y x) = some p →
          ∃ old, peek video (dstIndex bp y x) = some old ∧
            (p.m ≠ 0 → peek video' (dstIndex bp y x)
              = some (pixelResult H bp.remap BlitterMode.BM_COLOUR_REMAP p old)) ∧
            (p.m = 0 → p.a ≠ 0 → peek video' (dstIndex bp y x)
              = some (H.ComposeColourRGBA (H.MakeDark p.r p.g p.b) (H.MakeDark p.r p.g p.b)
                  (H.MakeDark p.r p.g p.b) p.a old))) ∧
    ((∀ y x : Nat, (y : Int) < bp.height → (x : Int) < bp.width → ∀ p,
        peek bp.sprite.data (srcIndex H bp zoom y x) = some p → p.m ≠ 0) →
      draw H bp BlitterMode.BM_CRASH_REMAP zoom video
        = draw H bp BlitterMode.BM_COLOUR_REMAP zoom video) := by
  constructor
  · obtain ⟨video', hv, _, _, hcell⟩ :=
      draw_cells H bp BlitterMode.BM_CRASH_REMAP zoom video hwf
    refine ⟨video', hv, ?_⟩
    intro y x hy hx p hp
    obtain ⟨p', old, hp', hold, hres⟩ := hcell y x hy hx
    rw [hp] at hp'
    cases hp'
    refine ⟨old, hold, ?_, ?_⟩
    · intro hm
      rw [hres]
      simp [pixelResult, drawPixel, hm]
    · intro hm ha
      rw [hres]
      simp [pixelResult, drawPixel, hm, ha]
  · intro hm
    exact draw_congr H bp bp.remap BlitterMode.BM_CRASH_REMAP BlitterMode.BM_COLOUR_REMAP
      zoom video (fun y x hy hx p hp => by simp [drawPixel, hm y x hy hx p hp])

/-- The hypothesis of `draw_crash_remap` holds for `crashParams`, where the
true-colour pixel of column 0 is drawn as the grey `(40 + 80 + 120) / 4`. -/
theorem draw_crash_remap_witness :
    drawWellFormed sampleHelpers crashParams 0
      [Colour.mk 10 20 30 255, Colour.mk 10 20 30 255] ∧
    ∃ video', draw sampleHelpers crashParams BlitterMode.BM_CRASH_REMAP 0
      [Colour.mk 10 20 30 255, Colour.mk 10 20 30 255] = some video' ∧
      peek video' 0 = some (Colour.mk 60 60 60 255) := by
  refine ⟨by decide, ?_⟩
  obtain ⟨video', hv, hcell⟩ := (draw_crash_remap sampleHelpers crashParams 0
    [Colour.mk 10 20 30 255, Colour.mk 10 20 30 255] (by decide)).1
  refine ⟨video', hv, ?_⟩
  obtain ⟨old, hold, _, hres⟩ := hcell 0 0 (by decide) (by decide) (Pixel.mk 40 80 120 255 0 0)
    (by decide)
  have e : dstIndex crashParams 0 0 = 0 := by decide
  rw [e] at hold hres
  have e2 : peek [Colour.mk 10 20 30 255, Colour.mk 10 20 30 255] 0
      = some (Colour.mk 10 20 30 255) := by decide
  rw [e2] at hold
  cases hold
  rw [hres (by decide) (by decide)]
  decide

/-- C14: under `BM_BLACK_REMAP` a well-formed `draw` returns, and every
destination pixel whose source pixel has `a != 0` becomes `Colour(0, 0, 0)`,
pure black with `r = g = b = 0`: the value does not depend on the source
pixel's `r`, `g`, `b`, `m`, `v`, on which non-zero alpha it has, on the remap
table or on the old destination pixel. -/
theorem draw_black_remap (H : Helpers) (bp : BlitterParams) (zoom : Nat)
    (video : List Colour) (hwf : drawWellFormed H bp zoom video) :
    ∃ video', draw H bp BlitterMode.BM_BLACK_REMAP zoom video = some video' ∧
      ∀ y x : Nat, (y : Int) < bp.height → (x : Int) < bp.width →
        ∀ p, peek bp.sprite.data (srcIndex H bp zoom y x) = some p → p.a ≠ 0 →
          ∃ c, peek video' (dstIndex bp y x) = some c ∧
            c = Colour.mk 0 0 0 H.default_alpha ∧ c.r = 0 ∧ c.g = 0 ∧ c.b = 0 := by
  obtain ⟨video', hv, _, _, hcell⟩ :=
    draw_cells H bp BlitterMode.BM_BLACK_REMAP zoom video hwf
  refine ⟨video', hv, ?_⟩
  intro y x hy hx p hp ha
  obtain ⟨p', old, hp', _, hres⟩ := hcell y x hy hx
  rw [hp] at hp'
  cases hp'
  refine ⟨Colour.mk 0 0 0 H.default_alpha, ?_, rfl, rfl, rfl, rfl⟩
  rw [hres]
  simp [pixelResult, drawPixel, ha]

/-- The hypothesis of `draw_black_remap` holds for `crashParams`, where the
opaque pixel of column 1 turns the destination black. -/
theorem draw_black_remap_witness :
    drawWellFormed sampleHelpers crashParams 0
      [Colour.mk 10 20 30 40, Colour.mk 50 60 70 80] ∧
    ∃ video', draw sampleHelpers crashParams BlitterMode.BM_BLACK_REMAP 0
      [Colour.mk 10 20 30 40, Colour.mk 50 60 70 80] = some video' ∧
      peek video' 1 = some (Colour.mk 0 0 0 255) := by
  refine ⟨by decide, ?_⟩
  obtain ⟨video', hv, hcell⟩ := draw_black_remap sampleHelpers crashParams 0
    [Colour.mk 10 20 30 40, Colour.mk 50 60 70 80] (by decide)
  refine ⟨video', hv, ?_⟩
  obtain ⟨c, hc, hval, _⟩ := hcell 0 1 (by decide) (by decide) (Pixel.mk 1 2 3 255 7 128)
    (by decide) (by decide)
  have e : dstIndex crashParams 0 1 = 1 := by decide
  rw [e] at hc
  rw [hc, hval]
  rfl

/-! ### Calls on sprites that agree pixel by pixel -/

theorem drawAt_congr_data (H : Helpers) (r1 r2 : Nat → Nat) (m1 m2 : BlitterMode)
    (d1 d2 : List Pixel) (src dst : Int) (video : List Colour)
    (h : (peek d1 src).map (drawPixel H r1 m1) = (peek d2 src).map (drawPixel H r2 m2)) :
    drawAt H r1 m1 d1 src dst video = drawAt H r2 m2 d2 src dst video := by
  unfold drawAt
  cases h1 : peek d1 src with
  | none =>
    cases h2 : peek d2 src with
    | none => rfl
    | some p2 => rw [h1, h2] at h; cases h
  | some p1 =>
    cases h2 : peek d2 src with
    | none => rw [h1, h2] at h; cases h
    | some p2 =>
      rw [h1, h2] at h
      have e : drawPixel H r1 m1 p1 = drawPixel H r2 m2 p2 := by simpa using h
      simp only [e]

theorem drawRow_congr_data (H : Helpers) (r1 r2 : Nat → Nat) (m1 m2 : BlitterMode)
    (d1 d2 : List Pixel) (step : Int) (n : Nat) :
    ∀ (src dst : Int) (video : List Colour),
      (∀ k : Nat, k < n → (peek d1 (src + k * step)).map (drawPixel H r1 m1)
        = (peek d2 (src + k * step)).map (drawPixel H r2 m2)) →
      drawRow H r1 m1 d1 step n src dst video = drawRow H r2 m2 d2 step n src dst video := by
  induction n with
  | zero => intro _ _ _ _; rfl
  | succ n ih =>
    intro src dst video h
    have h0 : (peek d1 src).map (drawPixel H r1 m1) = (peek d2 src).map (drawPixel H r2 m2) := by
      simpa using h 0 (Nat.succ_pos n)
    have hs : ∀ k : Nat, k < n → (peek d1 (src + step + k * step)).map (drawPixel H r1 m1)
        = (peek d2 (src + step + k * step)).map (drawPixel H r2 m2) := by
      intro k hk
      have := h (k + 1) (Nat.succ_lt_succ hk)
      have e : src + ((k + 1 : Nat) : Int) * step = src + step + k * step := by
        push_cast; ring
      rwa [e] at this
    simp only [drawRow, drawAt_congr_data H r1 r2 m1 m2 d1 d2 src dst video h0]
    cases drawAt H r2 m2 d2 src dst video with
    | none => rfl
    | some v => exact ih (src + step) (dst + 1) v hs

theorem drawRows_congr_data (H : Helpers) (r1 r2 : Nat → Nat) (m1 m2 : BlitterMode)
    (d1 d2 : List Pixel) (step : Int) (w : Nat) (stride pitch : Int) (n : Nat) :
    ∀ (src_line dst_line : Int) (video : List Colour),
      (∀ y x : Nat, y < n → x < w →
        (peek d1 (src_line + y * stride + x * step)).map (drawPixel H r1 m1)
          = (peek d2 (src_line + y * stride + x * step)).map (drawPixel H r2 m2)) →
      drawRows H r1 m1 d1 step w stride pitch n src_line dst_line video
        = drawRows H r2 m2 d2 step w stride pitch n src_line dst_line video := by
  induction n with
  | zero => intro _ _ _ _; rfl
  | succ n ih =>
    intro src_line dst_line video h
    have h0 : ∀ k : Nat, k < w → (peek d1 (src_line + k * step)).map (drawPixel H r1 m1)
        = (peek d2 (src_line + k * step)).map (drawPixel H r2 m2) := by
      intro k hk
      simpa using h 0 k (Nat.succ_pos n) hk
    have hs : ∀ y x : Nat, y < n → x < w →
        (peek d1 (src_line + stride + y * stride + x * step)).map (drawPixel H r1 m1)
          = (peek d2 (src_line + stride + y * stride + x * step)).map (drawPixel H r2 m2) := by
      intro y x hy hx
      have := h (y + 1) x (Nat.succ_lt_succ hy) hx
      have e : src_line + ((y + 1 : Nat) : Int) * stride + x * step
          = src_line + stride + y * stride + x * step := by
        push_cast; ring
      rwa [e] at this
    simp only [drawRows,
      drawRow_congr_data H r1 r2 m1 m2 d1 d2 step w src_line dst_line video h0]
    cases drawRow H r2 m2 d2 step w src_line dst_line video with
    | none => rfl
    | some v => exact ih (src_line + stride) (dst_line + pitch) v hs

/-- Two calls of `draw` with the same geometry and destination return the same
buffer when at every sampled offset the two sprites both end or both hold a
pixel on which the switch acts alike. -/
theorem draw_congr_data (H : Helpers) (bp : BlitterParams) (data2 : List Pixel)
    (remap2 : Nat → Nat) (m1 m2 : BlitterMode) (zoom : Nat) (video : List Colour)
    (h : ∀ y x : Nat, (y : Int) < bp.height → (x : Int) < bp.width →
      (peek bp.sprite.data (srcIndex H bp zoom y x)).map (drawPixel H bp.remap m1)
        = (peek data2 (srcIndex H bp zoom y x)).map (drawPixel H remap2 m2)) :
    draw H bp m1 zoom video = draw H (withData bp data2 remap2) m2 zoom video := by
  unfold draw
  apply drawRows_congr_data
  intro y x hy hx
  have e : srcIndex H bp zoom y x
      = (bp.skip_top * (bp.sprite.width : Int) + bp.skip_left) * H.ScaleByZoom 1 zoom
        + y * ((bp.sprite.width : Int) * H.ScaleByZoom 1 zoom) + x * H.ScaleByZoom 1 zoom := by
    unfold srcIndex; ring
  have := h y x (by omega) (by omega)
  rw [e] at this
  exact this

/-- C15: under `BM_TRANSPARENT` a well-formed `draw` returns, and every
destination pixel whose source pixel has `a != 0` becomes
`MakeTransparent(old, 192)`. The result depends only on the old destination
and on where the source alpha is non-zero: a second sprite with the same
geometry and the same non-zero-alpha mask at every sampled offset, whatever its
`r`, `g`, `b`, `m`, `v` and whatever the remap table, gives the same buffer. -/
theorem draw_transparent (H : Helpers) (bp : BlitterParams) (zoom : Nat)
    (video : List Colour) (hwf : drawWellFormed H bp zoom video) :
    (∃ video', draw H bp BlitterMode.BM_TRANSPARENT zoom video = some video' ∧
      ∀ y x : Nat, (y : Int) < bp.height → (x : Int) < bp.width →
        ∀ p, peek bp.sprite.data (srcIndex H bp zoom y x) = some p → p.a ≠ 0 →
          ∃ old, peek video (dstIndex bp y x) = some old ∧
            peek video' (dstIndex bp y x) = some (H.MakeTransparent old 192)) ∧
    (∀ (data2 : List Pixel) (remap2 : Nat → Nat),
      (∀ y x : Nat, (y : Int) < bp.height → (x : Int) < bp.width →
        (peek bp.sprite.data (srcIndex H bp zoom y x)).map (fun p => decide (p.a ≠ 0))
          = (peek data2 (srcIndex H bp zoom y x)).map (fun p => decide (p.a ≠ 0))) →
      draw H (withData bp data2 remap2) BlitterMode.BM_TRANSPARENT zoom video
        = draw H bp BlitterMode.BM_TRANSPARENT zoom video) := by
  constructor
  · obtain ⟨video', hv, _, _, hcell⟩ :=
      draw_cells H bp BlitterMode.BM_TRANSPARENT zoom video hwf
    refine ⟨video', hv, ?_⟩
    intro y x hy hx p hp ha
    obtain ⟨p', old, hp', hold, hres⟩ := hcell y x hy hx
    rw [hp] at hp'
    cases hp'
    refine ⟨old, hold, ?_⟩
    rw [hres]
    simp [pixelResult, drawPixel, ha]
  · intro data2 remap2 hmask
    symm
    apply draw_congr_data
    intro y x hy hx
    have hm := hmask y x hy hx
    cases h1 : peek bp.sprite.data (srcIndex H bp zoom y x) with
    | none =>
      rw [h1] at hm
      cases h2 : peek data2 (srcIndex H bp zoom y x) with
      | none => rfl
      | some p2 => rw [h2] at hm; cases hm
    | some p1 =>
      rw [h1] at hm
      cases h2 : peek data2 (srcIndex H bp zoom y x) with
      | none => rw [h2] at hm; cases hm
      | some p2 =>
        rw [h2] at hm
        have e : decide (p1.a ≠ 0) = decide (p2.a ≠ 0) := by simpa using hm
        have e' : p1.a = 0 ↔ p2.a = 0 := by simpa using e
        by_cases ha : p1.a = 0
        · have ha2 : p2.a = 0 := e'.mp ha
          simp [drawPixel, ha, ha2]
        · have ha2 : p2.a ≠ 0 := fun hc => ha (e'.mpr hc)
          simp [drawPixel, ha, ha2]

/-- The hypothesis of `draw_transparent` holds for `crashParams`: its opaque
pixel darkens column 0 to three quarters, and the sprite `maskSprite` with the
same alpha mask gives the same buffer under another remap table. -/
theorem draw_transparent_witness :
    drawWellFormed sampleHelpers crashParams 0
      [Colour.mk 100 200 40 255, Colour.mk 10 20 30 255] ∧
    draw sampleHelpers crashParams BlitterMode.BM_TRANSPARENT 0
      [Colour.mk 100 200 40 255, Colour.mk 10 20 30 255]
      = some [Colour.mk 75 150 30 255, Colour.mk 7 15 22 255] ∧
    draw sampleHelpers (withData crashParams maskSprite.data (fun _ => 0))
        BlitterMode.BM_TRANSPARENT 0 [Colour.mk 100 200 40 255, Colour.mk 10 20 30 255]
      = draw sampleHelpers crashParams BlitterMode.BM_TRANSPARENT 0
        [Colour.mk 100 200 40 255, Colour.mk 10 20 30 255] := by
  refine ⟨by decide, by decide, ?_⟩
  apply (draw_transparent sampleHelpers crashParams 0
    [Colour.mk 100 200 40 255, Colour.mk 10 20 30 255] (by decide)).2
  intro y x hy hx
  have hy0 : y = 0 := by
    have : (y : Int) < 1 := hy
    omega
  have hx2 : x = 0 ∨ x = 1 := by
    have : (x : Int) < 2 := hx
    omega
  subst hy0
  rcases hx2 with h | h <;> subst h <;> decide

/-! ## The frame of `draw` -/

theorem drawAt_frame (H : Helpers) (remap : Nat → Nat) (mode : BlitterMode)
    (data : List Pixel) (src dst : Int) (video video' : List Colour)
    (h : drawAt H remap mode data src dst video = some video') :
    video'.length = video.length ∧ ∀ j, j ≠ dst → peek video' j = peek video j := by
  unfold drawAt at h
  cases hp : peek data src with
  | none => rw [hp] at h; cases h
  | some p =>
    rw [hp] at h
    cases hd : drawPixel H remap mode p with
    | none =>
      simp only [hd] at h
      cases h
      exact ⟨rfl, fun _ _ => rfl⟩
    | some f =>
      simp only [hd] at h
      exact ⟨poke_length _ _ _ _ h, fun j hj => peek_poke_other _ _ _ _ _ h hj⟩

theorem drawAt_result (H : Helpers) (remap : Nat → Nat) (mode : BlitterMode)
    (data : List Pixel) (src dst : Int) (video video' : List Colour) (p : Pixel)
    (h : drawAt H remap mode data src dst video = some video')
    (hp : peek data src = some p) :
    peek video' dst = (peek video dst).map (pixelResult H remap mode p) := by
  unfold drawAt at h
  rw [hp] at h
  cases hd : drawPixel H remap mode p with
  | none =>
    simp only [hd] at h
    cases h
    have hfun : pixelResult H remap mode p = id := by
      funext old
      simp [pixelResult, hd]
    simp [hfun]
  | some f =>
    simp only [hd] at h
    have hfun : pixelResult H remap mode p = f := by
      funext old
      simp [pixelResult, hd]
    rw [hfun]
    exact peek_poke_same _ _ _ _ h

theorem drawRow_frame (H : Helpers) (remap : Nat → Nat) (mode : BlitterMode)
    (data : List Pixel) (step : Int) (n : Nat) :
    ∀ (src dst : Int) (video video' : List Colour),
      drawRow H remap mode data step n src dst video = some video' →
      video'.length = video.length ∧
        ∀ j, (j < dst ∨ dst + n ≤ j) → peek video' j = peek video j := by
  induction n with
  | zero =>
    intro src dst video video' h
    simp only [drawRow] at h
    cases h
    exact ⟨rfl, fun _ _ => rfl⟩
  | succ n ih =>
    intro src dst video video' h
    simp only [drawRow] at h
    cases h1 : drawAt H remap mode data src dst video with
    | none => rw [h1] at h; cases h
    | some v1 =>
      rw [h1] at h
      obtain ⟨hl1, hf1⟩ := drawAt_frame H remap mode data src dst video v1 h1
      obtain ⟨hl2, hf2⟩ := ih (src + step) (dst + 1) v1 video' h
      refine ⟨by rw [hl2, hl1], ?_⟩
      intro j hj
      rw [hf2 j (by push_cast at hj; omega), hf1 j (by push_cast at hj; omega)]

theorem drawRows_frame (H : Helpers) (remap : Nat → Nat) (mode : BlitterMode)
    (data : List Pixel) (step : Int) (w : Nat) (stride pitch : Int) (n : Nat) :
    ∀ (src_line dst_line : Int) (video video' : List Colour),
      drawRows H remap mode data step w stride pitch n src_line dst_line video = some video' →
      video'.length = video.length ∧
        ∀ j, (∀ y x : Nat, y < n → x < w → j ≠ dst_line + y * pitch + x) →
          peek video' j = peek video j := by
  induction n with
  | zero =>
    intro src_line dst_line video video' h
    simp only [drawRows] at h
    cases h
    exact ⟨rfl, fun _ _ => rfl⟩
  | succ n ih =>
    intro src_line dst_line video video' h
    simp only [drawRows] at h
    cases h1 : drawRow H remap mode data step w src_line dst_line video with
    | none => rw [h1] at h; cases h
    | some v1 =>
      rw [h1] at h
      obtain ⟨hl1, hf1⟩ := drawRow_frame H remap mode data step w src_line dst_line video v1 h1
      obtain ⟨hl2, hf2⟩ := ih (src_line + stride) (dst_line + pitch) v1 video' h
      refine ⟨by rw [hl2, hl1], ?_⟩
      intro j hj
      have hj2 : ∀ y x : Nat, y < n → x < w → j ≠ dst_line + pitch + y * pitch + x := by
        intro y x hy hx
        have := hj (y + 1) x (Nat.succ_lt_succ hy) hx
        have e : dst_line + ((y + 1 : Nat) : Int) * pitch + x
            = dst_line + pitch + y * pitch + x := by
          push_cast; ring
        rwa [e] at this
      have hj1 : j < dst_line ∨ dst_line + w ≤ j := by
        by_contra hcon
        push_neg at hcon
        have hx : (j - dst_line).toNat < w := by omega
        have := hj 0 (j - dst_line).toNat (Nat.succ_pos n) hx
        apply this
        have : ((j - dst_line).toNat : Int) = j - dst_line := Int.toNat_of_nonneg (by omega)
        rw [this]
        simp
      rw [hf2 j hj2, hf1 j hj1]

/-- C16: the frame of `draw`, for every mode, zoom and parameters. Whenever
`draw` returns, the destination keeps its length and every element whose
linear index is not `(bp.top + y) * bp.pitch + bp.left + x` for some
`0 <= y < bp.height` and `0 <= x < bp.width` is unchanged; when
`bp.width <= 0` or `bp.height <= 0` the destination is returned as it was; and
every iteration of the inner loop that returns leaves at its destination
cursor a function (`pixelResult`) of the mode, the remap table, the one source
pixel under its source cursor and the old element; on a well-formed call
`draw` returns and each element of the rectangle is that function of its
sampled source pixel and its own old value. The sprite data and the remap table
are values that `draw` reads and does not return: they cannot change. -/
theorem draw_frame (H : Helpers) (bp : BlitterParams) (mode : BlitterMode) (zoom : Nat)
    (video : List Colour) :
    (∀ video', draw H bp mode zoom video = some video' →
      video'.length = video.length ∧
      ∀ j : Int,
        (∀ y x : Nat, (y : Int) < bp.height → (x : Int) < bp.width →
          j ≠ (bp.top + y) * bp.pitch + bp.left + x) →
        peek video' j = peek video j) ∧
    ((bp.width ≤ 0 ∨ bp.height ≤ 0) → draw H bp mode zoom video = some video) ∧
    (∀ (src dst : Int) (v v' : List Colour) (p : Pixel),
      drawAt H bp.remap mode bp.sprite.data src dst v = some v' →
      peek bp.sprite.data src = some p →
      v'.length = v.length ∧ (∀ j, j ≠ dst → peek v' j = peek v j) ∧
        peek v' dst = (peek v dst).map (pixelResult H bp.remap mode p)) ∧
    (drawWellFormed H bp zoom video →
      ∃ video', draw H bp mode zoom video = some video' ∧
        ∀ y x : Nat, (y : Int) < bp.height → (x : Int) < bp.width →
          ∃ p old, peek bp.sprite.data (srcIndex H bp zoom y x) = some p ∧
            peek video ((bp.top + y) * bp.pitch + bp.left + x) = some old ∧
            peek video' ((bp.top + y) * bp.pitch + bp.left + x)
              = some (pixelResult H bp.remap mode p old)) := by
  refine ⟨?_, ?_, ?_, ?_⟩
  · intro video' h
    unfold draw at h
    obtain ⟨hl, hf⟩ := drawRows_frame H bp.remap mode bp.sprite.data _ _ _ _ _ _ _ video video' h
    refine ⟨hl, ?_⟩
    intro j hj
    apply hf
    intro y x hy hx
    have := hj y x (by omega) (by omega)
    intro hcon
    apply this
    rw [hcon]
    ring
  · intro h
    unfold draw
    rcases h with h | h
    · have hw0 : bp.width.toNat = 0 := by omega
      rw [hw0]
      exact drawRows_zero_width H bp.remap mode bp.sprite.data _ _ _ _ _ _ video
    · have hh0 : bp.height.toNat = 0 := by omega
      rw [hh0]
      rfl
  · intro src dst v v' p h hp
    obtain ⟨hl, hf⟩ := drawAt_frame H bp.remap mode bp.sprite.data src dst v v' h
    exact ⟨hl, hf, drawAt_result H bp.remap mode bp.sprite.data src dst v v' p h hp⟩
  · intro hwf
    obtain ⟨video', hv, _, _, hcell⟩ := draw_cells H bp mode zoom video hwf
    exact ⟨video', hv, fun y x hy hx => hcell y x hy hx⟩

/-- On the 3x3 destination of `stripParams` the call returns, the element at
linear index 0, outside the rectangle, is unchanged, and with a width of 0 the
destination is returned as it was. -/
theorem draw_frame_witness :
    (∃ video', draw sampleHelpers stripParams BlitterMode.BM_NORMAL 0
        (List.replicate 9 (Colour.mk 0 0 0 255)) = some video' ∧
      peek video' 0 = some (Colour.mk 0 0 0 255)) ∧
    draw sampleHelpers { stripParams with width := 0 } BlitterMode.BM_NORMAL 0
        (List.replicate 9 (Colour.mk 0 0 0 255))
      = some (List.replicate 9 (Colour.mk 0 0 0 255)) := by
  constructor
  · obtain ⟨video', hv, _⟩ := (draw_frame sampleHelpers stripParams BlitterMode.BM_NORMAL 0
      (List.replicate 9 (Colour.mk 0 0 0 255))).2.2.2 (by decide)
    refine ⟨video', hv, ?_⟩
    have hf := ((draw_frame sampleHelpers stripParams BlitterMode.BM_NORMAL 0
      (List.replicate 9 (Colour.mk 0 0 0 255))).1 video' hv).2 0
    rw [hf]
    · decide
    · intro y x _ _
      have hy0 : (0 : Int) ≤ y := Int.ofNat_nonneg y
      have hx0 : (0 : Int) ≤ x := Int.ofNat_nonneg x
      show (0 : Int) ≠ ((1 : Int) + y) * 3 + 1 + x
      omega
  · exact (draw_frame sampleHelpers { stripParams with width := 0 } BlitterMode.BM_NORMAL 0
      (List.replicate 9 (Colour.mk 0 0 0 255))).2.1 (Or.inl (by decide))

/-! ## `Encode` and the allocator -/

theorem size_t_product_exact (M h w s : Nat) (hfit : h * w * s < M) :
    (h % M) * (w % M) % M * s % M = h * w * s := by
  rcases Nat.eq_zero_or_pos s with hs | hs
  · subst hs
    simp
  rcases Nat.eq_zero_or_pos h with hh | hh
  · subst hh
    simp
  rcases Nat.eq_zero_or_pos w with hw | hw
  · subst hw
    simp
  have h1 : h * w ≤ h * w * s := Nat.le_mul_of_pos_right _ hs
  have h2 : h ≤ h * w := Nat.le_mul_of_pos_right _ hw
  have h3 : w ≤ h * w := Nat.le_mul_of_pos_left _ hh
  rw [Nat.mod_eq_of_lt (show h < M by omega), Nat.mod_eq_of_lt (show w < M by omega),
    Nat.mod_eq_of_lt (show h * w < M by omega), Nat.mod_eq_of_lt hfit]

/-- C11: `Encode` on a decoded sprite that holds its `height * width` pixels
makes exactly one allocator request, and when
`sizeof(Sprite) + height * width * sizeof(Pixel)` fits in a `size_t` the
request is for exactly that many bytes; it returns a sprite whose `width`,
`height`, `x_offs` and `y_offs` are the decoded sprite's and which holds
exactly `width * height` records, record `i` being `encodePixel` of decoded
pixel `i`, in the order of the decoded pixels. -/
theorem Encode_allocation (L : Layout) (H : Helpers) (sprite : SpriteLoader.Sprite)
    (is_font : Bool) (requests : List Nat)
    (hlen : sprite.height * sprite.width ≤ sprite.data.length) :
    ∃ enc req, Encode_alloc L H sprite is_font requests = (requests ++ [req], some enc) ∧
      (L.sizeof_Sprite + sprite.height * sprite.width * L.sizeof_Pixel < 2 ^ L.size_bits →
        req = L.sizeof_Sprite + sprite.height * sprite.width * L.sizeof_Pixel) ∧
      Encode H sprite is_font = some enc ∧
      enc.width = sprite.width ∧ enc.height = sprite.height ∧
      enc.x_offs = sprite.x_offs ∧ enc.y_offs = sprite.y_offs ∧
      enc.data.length = sprite.width * sprite.height ∧
      ∀ i, i < sprite.width * sprite.height →
        ∃ p, sprite.data[i]? = some p ∧ enc.data[i]? = some (encodePixel H p) := by
  obtain ⟨dst, hd, hl, hi⟩ := encodeLoop_spec H (sprite.height * sprite.width) sprite.data hlen
  refine ⟨{ AllocateSprite sprite with data := dst },
    (L.sizeof_Sprite + (sprite.height % 2 ^ L.size_bits) * (sprite.width % 2 ^ L.size_bits)
      % 2 ^ L.size_bits * L.sizeof_Pixel % 2 ^ L.size_bits) % 2 ^ L.size_bits,
    ?_, ?_, ?_, rfl, rfl, rfl, rfl, ?_, ?_⟩
  · simp only [Encode_alloc, AllocateSprite_alloc, hd]
  · intro hfit
    rw [size_t_product_exact _ _ _ _ (by omega), Nat.mod_eq_of_lt hfit]
  · simp [Encode, hd]
  · show dst.length = sprite.width * sprite.height
    rw [hl, Nat.mul_comm]
  · intro i hlt
    have hlt' : i < sprite.height * sprite.width := by rw [Nat.mul_comm]; exact hlt
    have hlt2 : i < sprite.data.length := lt_of_lt_of_le hlt' hlen
    refine ⟨sprite.data[i], List.getElem?_eq_getElem hlt2, ?_⟩
    show dst[i]? = _
    rw [hi i hlt', List.getElem?_eq_getElem hlt2]
    rfl

/-- The hypothesis of `Encode_allocation` holds for `decodedSample`: after two
earlier requests the allocator has seen one more, of `8 + 1 * 2 * 6` bytes,
and the header is that of the decoded sprite. -/
theorem Encode_allocation_witness :
    decodedSample.height * decodedSample.width ≤ decodedSample.data.length ∧
    ∃ enc, Encode_alloc sampleLayout sampleHelpers decodedSample false [100, 200]
        = ([100, 200, 20], some enc) ∧
      enc.width = 2 ∧ enc.height = 1 ∧ enc.x_offs = -3 ∧ enc.y_offs = 4 ∧
      enc.data.length = 2 := by
  refine ⟨by decide, ?_⟩
  obtain ⟨enc, req, he, hreq, _, hw, hh, hx, hy, hl, _⟩ :=
    Encode_allocation sampleLayout sampleHelpers decodedSample false [100, 200] (by decide)
  have hr : req = 20 := hreq (by decide)
  subst hr
  exact ⟨enc, he, hw, hh, hx, hy, hl⟩

theorem encodeLoop_congr (H1 H2 : Helpers) (n : Nat) :
    ∀ src : List SpriteLoader.CommonPixel,
      (∀ p ∈ src, encodePixel H1 p = encodePixel H2 p) →
      encodeLoop H1 n src = encodeLoop H2 n src := by
  induction n with
  | zero => intro _ _; rfl
  | succ n ih =>
    intro src h
    cases src with
    | nil => rfl
    | cons p rest =>
      simp only [encodeLoop]
      rw [ih rest (fun q hq => h q (List.mem_cons_of_mem p hq)), h p (List.mem_cons_self p rest)]

/-- The claim C12 as stated fails: the decoded sprite `decodedSample`, encoded
once while the palette is `paletteA` and once while it is `paletteB`, which
differs at entry 7, gives two different encoded sprites. -/
theorem Encode_depends_on_palette :
    Encode (withPalette sampleHelpers paletteA) decodedSample false
      ≠ Encode (withPalette sampleHelpers paletteB) decodedSample false := by
  decide

/-- C12, amended: `Encode` is a function of the decoded sprite and of the
palette entries that it looks up. Two invocations on the same decoded sprite,
under palettes that agree at every remap index `m != 0` of the sprite's
pixels, return the same encoded sprite, header and pixel records, whatever the
two values of `is_font` and whatever the allocator was asked before. -/
theorem Encode_deterministic (H : Helpers) (L : Layout) (P1 P2 : Nat → Colour)
    (sprite : SpriteLoader.Sprite) (f1 f2 : Bool) (requests1 requests2 : List Nat)
    (hP : ∀ p ∈ sprite.data, p.m ≠ 0 → P1 p.m = P2 p.m) :
    Encode (withPalette H P1) sprite f1 = Encode (withPalette H P2) sprite f2 ∧
    (Encode_alloc L (withPalette H P1) sprite f1 requests1).2
      = Encode (withPalette H P1) sprite f1 ∧
    (Encode_alloc L (withPalette H P1) sprite f1 requests1).2
      = (Encode_alloc L (withPalette H P2) sprite f2 requests2).2 := by
  have hpix : ∀ p ∈ sprite.data,
      encodePixel (withPalette H P1) p = encodePixel (withPalette H P2) p := by
    intro p hp
    by_cases hm : p.m = 0
    · simp [encodePixel, hm]
    · simp [encodePixel, hm, withPalette, Spec.LookupColourInPalette, hP p hp hm]
  have hloop := encodeLoop_congr (withPalette H P1) (withPalette H P2)
    (sprite.height * sprite.width) sprite.data hpix
  have halloc : ∀ (H' : Helpers) (f : Bool) (requests : List Nat),
      (Encode_alloc L H' sprite f requests).2 = Encode H' sprite f := by
    intro H' f requests
    simp only [Encode_alloc, Encode, AllocateSprite_alloc]
    cases encodeLoop H' (sprite.height * sprite.width) sprite.data <;> rfl
  have hE : Encode (withPalette H P1) sprite f1 = Encode (withPalette H P2) sprite f2 := by
    simp only [Encode, hloop]
  exact ⟨hE, halloc _ _ _, by rw [halloc, halloc, hE]⟩

/-- The hypothesis of `Encode_deterministic` holds for `decodedSample` under
`paletteA` and `paletteC`, which differ only at an index the sprite does not
use: both invocations return the same sprite. -/
theorem Encode_deterministic_witness :
    Encode (withPalette sampleHelpers paletteA) decodedSample true
        = Encode (withPalette sampleHelpers paletteC) decodedSample false ∧
    (Encode (withPalette sampleHelpers paletteA) decodedSample true).isSome = true := by
  refine ⟨(Encode_deterministic sampleHelpers sampleLayout paletteA paletteC decodedSample
    true false [] [1] ?_).1, by decide⟩
  intro p hp _
  have hcases : p = SpriteLoader.CommonPixel.mk 200 100 50 255 0
      ∨ p = SpriteLoader.CommonPixel.mk 0 0 0 255 7 := by
    simpa [decodedSample] using hp
  rcases hcases with h | h <;> subst h <;> decide

/-! ## `GetDriverParam` -/

theorem strncmp_eq_iff_starts (name : List Char) (hname : isCString name) :
    ∀ p : List Char, strncmp_eq name.length p name = true ↔ ∃ t, p = name ++ t := by
  induction name with
  | nil =>
    intro p
    simp [strncmp_eq]
  | cons c name ih =>
    intro p
    have hc : c ≠ '\x00' := hname c (List.mem_cons_self c name)
    have hname' : isCString name := fun d hd => hname d (List.mem_cons_of_mem c hd)
    cases p with
    | nil =>
      simp [strncmp_eq, charAt, hc.symm]
    | cons d p =>
      by_cases hdc : d = c
      · subst hdc
        simp [strncmp_eq, charAt, hc, ih hname' p]
      · simp [strncmp_eq, charAt, hdc]

theorem charAt_append_length (name t : List Char) :
    charAt (name ++ t) name.length = charAt t 0 := by
  induction name with
  | nil => rfl
  | cons c name ih => simpa [charAt] using ih

theorem GetDriverParam_loop_step (name p : List Char) (parm : List (List Char))
    (hname : isCString name) (hp : isCString p) :
    GetDriverParam_loop name name.length (p :: parm)
      = match paramValue name p with
        | some v => some v
        | none => GetDriverParam_loop name name.length parm := by
  by_cases hpre : ∃ t, p = name ++ t
  · obtain ⟨t, rfl⟩ := hpre
    have hcmp : strncmp_eq name.length (name ++ t) name = true :=
      (strncmp_eq_iff_starts name hname _).mpr ⟨t, rfl⟩
    simp only [GetDriverParam_loop, hcmp, if_true, charAt_append_length]
    cases t with
    | nil =>
      simp [charAt, paramValue]
    | cons c t =>
      have hc : c ≠ '\x00' := hp c (by simp)
      by_cases hceq : c = '='
      · subst hceq
        simp [charAt, paramValue]
      · have hceq' : ¬ '=' = c := fun h => hceq h.symm
        simp [charAt, paramValue, hceq, hceq', hc]
  · have hcmp : strncmp_eq name.length p name = false := by
      cases h : strncmp_eq name.length p name with
      | false => rfl
      | true => exact absurd ((strncmp_eq_iff_starts name hname p).mp h) hpre
    have h1 : p ≠ name := fun h => hpre ⟨[], by simp [h]⟩
    have h2 : (name ++ ['=']).isPrefixOf p = false := by
      cases h : (name ++ ['=']).isPrefixOf p with
      | false => rfl
      | true =>
        exfalso
        obtain ⟨t, ht⟩ := List.isPrefixOf_iff_prefix.mp h
        exact hpre ⟨'=' :: t, by rw [← ht]; simp⟩
    simp [GetDriverParam_loop, hcmp, paramValue, h1, h2]

theorem paramValue_eq_some (name p v : List Char) :
    paramValue name p = some v ↔ (p = name ∧ v = []) ∨ p = name ++ '=' :: v := by
  have hne : ∀ w : List Char, name ≠ name ++ '=' :: w := by
    intro w h
    have := congrArg List.length h
    simp at this
  unfold paramValue
  by_cases h1 : p = name
  · rw [if_pos h1]
    constructor
    · intro h
      cases h
      exact Or.inl ⟨h1, rfl⟩
    · rintro (⟨_, h⟩ | h)
      · rw [h]
      · exact absurd (h1.symm.trans h) (hne v)
  · rw [if_neg h1]
    by_cases h2 : (name ++ ['=']).isPrefixOf p = true
    · rw [if_pos h2]
      obtain ⟨t, ht⟩ := List.isPrefixOf_iff_prefix.mp h2
      subst ht
      constructor
      · intro h
        right
        have hv : v = t := by simpa using h.symm
        rw [hv]
        simp
      · rintro (⟨h, _⟩ | h)
        · exact absurd h h1
        · have hv : t = v := by simpa using h
          rw [hv]
          simp
    · rw [if_neg h2]
      constructor
      · intro h
        cases h
      · rintro (⟨h, _⟩ | h)
        · exact absurd h h1
        · exfalso
          apply h2
          rw [ List.isPrefixOf_iff_prefix]
          exact ⟨v, by rw [h]; simp⟩

theorem GetDriverParam_loop_findSome (name : List Char) (hname : isCString name) :
    ∀ entries : List (List Char), (∀ p ∈ entries, isCString p) →
      GetDriverParam_loop name name.length entries = entries.findSome? (paramValue name) := by
  intro entries
  induction entries with
  | nil => intro _; rfl
  | cons p parm ih =>
    intro h
    rw [GetDriverParam_loop_step name p parm hname (h p (List.mem_cons_self p parm)),
      ih (fun q hq => h q (List.mem_cons_of_mem p hq))]
    simp only [List.findSome?]
    cases paramValue name p <;> rfl

/-- C17: `GetDriverParam (parm, name)` returns `NULL` when `parm` is `NULL`;
on an array of C strings it returns what the first entry, in list order, that
is `name` itself or `name` followed by `=` gives: the empty string, or the text
after the `=`; it returns `NULL` when there is no such entry. An entry in which
`name` is followed by any other character gives nothing and is skipped, as
`foobar=1` is for `foo`. `GetDriverParamBool` is true exactly when
`GetDriverParam` is not `NULL`. -/
theorem GetDriverParam_first_match (name : List Char) (entries : List (List Char))
    (hname : isCString name) (hentries : ∀ p ∈ entries, isCString p) :
    GetDriverParam none name = none ∧
    GetDriverParam (some entries) name = entries.findSome? (paramValue name) ∧
    (∀ p v, paramValue name p = some v ↔ (p = name ∧ v = []) ∨ p = name ++ '=' :: v) ∧
    ((∀ p ∈ entries, p ≠ name ∧ ∀ v, p ≠ name ++ '=' :: v) →
      GetDriverParam (some entries) name = none) ∧
    (∀ (skipped : List (List Char)) (p : List Char) (rest : List (List Char)),
      entries = skipped ++ p :: rest →
      (∀ q ∈ skipped, q ≠ name ∧ ∀ v, q ≠ name ++ '=' :: v) →
      (p = name → GetDriverParam (some entries) name = some []) ∧
      (∀ v, p = name ++ '=' :: v → GetDriverParam (some entries) name = some v)) ∧
    (∀ (c : Char) (t : List Char), c ≠ '=' → paramValue name (name ++ c :: t) = none) ∧
    paramValue "foo".toList "foobar=1".toList = none ∧
    (∀ parm, GetDriverParamBool parm name = true ↔ GetDriverParam parm name ≠ none) := by
  have hfind : GetDriverParam (some entries) name = entries.findSome? (paramValue name) :=
    GetDriverParam_loop_findSome name hname entries hentries
  have hnone : ∀ q : List Char, (q ≠ name ∧ ∀ v, q ≠ name ++ '=' :: v) →
      paramValue name q = none := by
    intro q hq
    cases h : paramValue name q with
    | none => rfl
    | some v =>
      exfalso
      rcases (paramValue_eq_some name q v).mp h with ⟨h1, _⟩ | h2
      · exact hq.1 h1
      · exact hq.2 v h2
  refine ⟨rfl, hfind, paramValue_eq_some name, ?_, ?_, ?_, by decide, ?_⟩
  · intro h
    rw [hfind, List.findSome?_eq_none_iff]
    intro p hp
    exact hnone p (h p hp)
  · intro skipped p rest he hskip
    have hsk : (skipped ++ p :: rest).findSome? (paramValue name)
        = (paramValue name p).or ((rest).findSome? (paramValue name)) := by
      rw [List.findSome?_append]
      have : skipped.findSome? (paramValue name) = none := by
        rw [List.findSome?_eq_none_iff]
        intro q hq
        exact hnone q (hskip q hq)
      rw [this]
      simp only [List.findSome?, Option.none_or]
      cases paramValue name p <;> rfl
    rw [hfind, he, hsk]
    constructor
    · intro hp
      rw [(paramValue_eq_some name p []).mpr (Or.inl ⟨hp, rfl⟩)]
      rfl
    · intro v hp
      rw [(paramValue_eq_some name p v).mpr (Or.inr hp)]
      rfl
  · intro c t hc
    apply hnone
    constructor
    · intro h
      have := congrArg List.length h
      simp at this
    · intro v h
      have := List.append_cancel_left h
      simp only [List.cons.injEq] at this
      exact hc this.1
  · intro parm
    simp [GetDriverParamBool, Option.isSome_iff_ne_none]

/-- The hypotheses of `GetDriverParam_first_match` hold for the name `foo` and
the entries `foobar=1`, `foo=2`, `foo`: the first entry is skipped and the
value is `2`. -/
theorem GetDriverParam_first_match_witness :
    isCString "foo".toList ∧
    GetDriverParam (some ["foobar=1".toList, "foo=2".toList, "foo".toList]) "foo".toList
      = some "2".toList ∧
    GetDriverParamBool (some ["foobar=1".toList, "foo=2".toList, "foo".toList]) "foo".toList
      = true := by
  have h := GetDriverParam_first_match "foo".toList
    ["foobar=1".toList, "foo=2".toList, "foo".toList] (by decide) (by decide)
  refine ⟨by decide, ?_, ?_⟩
  · rw [h.2.1]
    decide
  · rw [h.2.2.2.2.2.2.2]
    rw [h.2.1]
    decide

/-! ## `DriverSystem::select`: probing -/

theorem probe_failed (E : DriverEnv) (d : DriverFactoryBase) (sys : DriverSystem)
    (log : List DriverEvent) (h : E.Start (Driver.mk d) none ≠ none) :
    probe E d sys log = (log ++ failedProbes [d], sys, false) := by
  cases hs : E.Start (Driver.mk d) none with
  | none => exact absurd hs h
  | some err => simp [probe, hs, failedProbes]

theorem probe_started (E : DriverEnv) (d : DriverFactoryBase) (sys : DriverSystem)
    (log : List DriverEvent) (h : E.Start (Driver.mk d) none = none) :
    probe E d sys log
      = (log ++ [DriverEvent.CreateInstance d, DriverEvent.Start (Driver.mk d) none,
          DriverEvent.delete sys.active], { sys with active := some (Driver.mk d) }, true) := by
  unfold probe
  simp [h]

theorem probeMap_eq_probeList (E : DriverEnv) (priority : Int) :
    ∀ (ds : List DriverFactoryBase) (sys : DriverSystem) (log : List DriverEvent),
      probeMap E priority ds sys log
        = probeList E (ds.filter (fun d => d.priority = priority)) sys log := by
  intro ds
  induction ds with
  | nil => intro _ _; rfl
  | cons d rest ih =>
    intro sys log
    by_cases hp : d.priority = priority
    · simp only [probeMap, hp, ne_eq, not_true_eq_false, if_false, List.filter, decide_True,
        probeList]
      rcases hpr : probe E d sys log with ⟨log', sys', found⟩
      cases found with
      | true => rfl
      | false => exact ih sys' log'
    · simp only [probeMap, ne_eq, hp, not_false_eq_true, if_true, List.filter, decide_False]
      exact ih sys log

theorem probeList_append (E : DriverEnv) (a b : List DriverFactoryBase) :
    ∀ (sys : DriverSystem) (log : List DriverEvent),
      probeList E (a ++ b) sys log
        = match probeList E a sys log with
          | (log', sys', true) => (log', sys', true)
          | (log', sys', false) => probeList E b sys' log' := by
  induction a with
  | nil => intro _ _; rfl
  | cons d rest ih =>
    intro sys log
    simp only [List.cons_append, probeList]
    rcases hpr : probe E d sys log with ⟨log', sys', found⟩
    cases found with
    | true => rfl
    | false => exact ih sys' log'

theorem probeAll_eq_probeList (E : DriverEnv) (drivers : List DriverFactoryBase) (n : Nat) :
    ∀ (sys : DriverSystem) (log : List DriverEvent),
      probeAll E drivers n sys log
        = match probeList E (probeOrder drivers n) sys log with
          | (log', sys', true) => (log', SelectResult.returned sys')
          | (log', _, false) =>
            (log', SelectResult.usererror UserError.no_suitable_driver) := by
  induction n with
  | zero => intro _ _; rfl
  | succ n ih =>
    intro sys log
    simp only [probeAll, probeOrder, probeMap_eq_probeList, probeList_append]
    rcases hpr : probeList E
      (drivers.filter (fun d => d.priority = ((n + 1 : Nat) : Int))) sys log with
      ⟨log', sys', found⟩
    cases found with
    | true => rfl
    | false => exact ih sys' log'

theorem probeList_none (E : DriverEnv) :
    ∀ (ds : List DriverFactoryBase) (sys : DriverSystem) (log : List DriverEvent),
      (∀ d ∈ ds, E.Start (Driver.mk d) none ≠ none) →
      probeList E ds sys log = (log ++ failedProbes ds, sys, false) := by
  intro ds
  induction ds with
  | nil => intro sys log _; simp [probeList, failedProbes]
  | cons d rest ih =>
    intro sys log h
    simp only [probeList, probe_failed E d sys log (h d (List.mem_cons_self d rest))]
    rw [ih sys _ (fun q hq => h q (List.mem_cons_of_mem d hq))]
    simp [failedProbes]

theorem probeList_first (E : DriverEnv) (failed : List DriverFactoryBase)
    (d : DriverFactoryBase) (rest : List DriverFactoryBase) (sys : DriverSystem)
    (log : List DriverEvent)
    (hfailed : ∀ q ∈ failed, E.Start (Driver.mk q) none ≠ none)
    (hd : E.Start (Driver.mk d) none = none) :
    probeList E (failed ++ d :: rest) sys log
      = (log ++ failedProbes failed ++ [DriverEvent.CreateInstance d,
          DriverEvent.Start (Driver.mk d) none, DriverEvent.delete sys.active],
        { sys with active := some (Driver.mk d) }, true) := by
  rw [probeList_append, probeList_none E failed sys log hfailed]
  simp only [probeList, probe_started E d sys _ hd]

theorem mem_probeOrder (drivers : List DriverFactoryBase) (q : DriverFactoryBase) (n : Nat) :
    q ∈ probeOrder drivers n ↔ q ∈ drivers ∧ 1 ≤ q.priority ∧ q.priority ≤ n := by
  induction n with
  | zero =>
    simp only [probeOrder, List.not_mem_nil, false_iff, not_and]
    intro _ h1 h2
    have : q.priority ≤ 0 := by exact_mod_cast h2
    omega
  | succ n ih =>
    simp only [probeOrder, List.mem_append, List.mem_filter, decide_eq_true_eq, ih]
    constructor
    · rintro (⟨hq, hp⟩ | ⟨hq, h1, h2⟩)
      · exact ⟨hq, by rw [hp]; push_cast; omega, by rw [hp]⟩
      · exact ⟨hq, h1, by push_cast; omega⟩
    · rintro ⟨hq, h1, h2⟩
      by_cases hp : q.priority = ((n + 1 : Nat) : Int)
      · exact Or.inl ⟨hq, hp⟩
      · right
        refine ⟨hq, h1, ?_⟩
        push_cast at h2 hp
        omega

theorem mem_failedProbes (ds : List DriverFactoryBase) (q : DriverFactoryBase) :
    DriverEvent.CreateInstance q ∈ failedProbes ds ↔ q ∈ ds := by
  induction ds with
  | nil => simp [failedProbes]
  | cons d rest ih =>
    have hcons : failedProbes (d :: rest) = failedProbes [d] ++ failedProbes rest := by
      simp [failedProbes]
    rw [hcons, List.mem_append, ih]
    simp only [failedProbes, List.flatMap_cons, List.flatMap_nil, List.append_nil, List.mem_cons,
      DriverEvent.CreateInstance.injEq, List.mem_singleton, List.not_mem_nil, or_false]
    constructor
    · rintro ((h | h | h) | h)
      · exact Or.inl h
      · cases h
      · cases h
      · exact Or.inr h
    · rintro (h | h)
      · exact Or.inl (Or.inl h)
      · exact Or.inr h

theorem first_split {α : Type} (p : α → Prop) :
    ∀ l : List α, (∃ x ∈ l, p x) →
      ∃ a x b, l = a ++ x :: b ∧ (∀ y ∈ a, ¬ p y) ∧ p x := by
  intro l
  induction l with
  | nil => rintro ⟨x, hx, _⟩; cases hx
  | cons y rest ih =>
    intro h
    by_cases hy : p y
    · exact ⟨[], y, rest, rfl, fun z hz => absurd hz (List.not_mem_nil z), hy⟩
    · obtain ⟨x, hx, hpx⟩ := h
      have hx' : x ∈ rest := by
        rcases List.mem_cons.mp hx with h1 | h1
        · subst h1; exact absurd hpx hy
        · exact h1
      obtain ⟨a, z, b, hl, ha, hz⟩ := ih ⟨x, hx', hpx⟩
      refine ⟨y :: a, z, b, by rw [hl]; rfl, ?_, hz⟩
      intro w hw
      rcases List.mem_cons.mp hw with h1 | h1
      · subst h1; exact hy
      · exact ha w h1

/-- C18: `select` with an empty name on a non-empty registry. Taking the
factories in descending priority 10, 9, ..., 1 and in registry order within a
priority (`probeOrder`), the first whose `Start(NULL)` reports no error
becomes the active driver and `select` returns; when none does, `select` ends
in `usererror`. Only factories of priority 1 to 10 are instantiated, so a
factory of priority 0 is never instantiated and never made active, and a probe
whose `Start` fails leaves the state, and with it the active driver, as it was
before that probe. -/
theorem select_probes (E : DriverEnv) (sys : DriverSystem) (name : Option (List Char))
    (hname : E.StrEmpty name = true) (hreg : sys.drivers ≠ []) :
    (∀ (failed : List DriverFactoryBase) (d : DriverFactoryBase)
        (rest : List DriverFactoryBase),
      probeOrder sys.drivers 10 = failed ++ d :: rest →
      (∀ q ∈ failed, E.Start (Driver.mk q) none ≠ none) →
      E.Start (Driver.mk d) none = none →
      sys.select E name
        = (failedProbes failed ++ [DriverEvent.CreateInstance d,
            DriverEvent.Start (Driver.mk d) none, DriverEvent.delete sys.active],
          SelectResult.returned { sys with active := some (Driver.mk d) })) ∧
    ((∀ q ∈ probeOrder sys.drivers 10, E.Start (Driver.mk q) none ≠ none) →
      sys.select E name
        = (failedProbes (probeOrder sys.drivers 10),
          SelectResult.usererror UserError.no_suitable_driver)) ∧
    (∀ q, q ∈ probeOrder sys.drivers 10 ↔ q ∈ sys.drivers ∧ 1 ≤ q.priority ∧ q.priority ≤ 10) ∧
    (∀ q, DriverEvent.CreateInstance q ∈ (sys.select E name).1 →
      q ∈ sys.drivers ∧ 1 ≤ q.priority ∧ q.priority ≤ 10) ∧
    (∀ sys', (sys.select E name).2 = SelectResult.returned sys' →
      ∃ d, sys'.active = some (Driver.mk d) ∧ d ∈ sys.drivers ∧ 1 ≤ d.priority ∧
        d.priority ≤ 10 ∧ E.Start (Driver.mk d) none = none) ∧
    (∀ (d : DriverFactoryBase) (s : DriverSystem) (log : List DriverEvent),
      E.Start (Driver.mk d) none ≠ none →
      (probe E d s log).2.1 = s ∧ (probe E d s log).2.2 = false) := by
  have hempty : sys.drivers.isEmpty = false := by
    cases hd : sys.drivers with
    | nil => exact absurd hd hreg
    | cons _ _ => rfl
  have hsel : sys.select E name
      = match probeList E (probeOrder sys.drivers 10) sys [] with
        | (log', sys', true) => (log', SelectResult.returned sys')
        | (log', _, false) => (log', SelectResult.usererror UserError.no_suitable_driver) := by
    simp only [DriverSystem.select, hempty, hname, if_true, Bool.false_eq_true, if_false]
    exact probeAll_eq_probeList E sys.drivers 10 sys []
  have hstart : ∀ (failed : List DriverFactoryBase) (d : DriverFactoryBase)
      (rest : List DriverFactoryBase),
      probeOrder sys.drivers 10 = failed ++ d :: rest →
      (∀ q ∈ failed, E.Start (Driver.mk q) none ≠ none) →
      E.Start (Driver.mk d) none = none →
      sys.select E name
        = (failedProbes failed ++ [DriverEvent.CreateInstance d,
            DriverEvent.Start (Driver.mk d) none, DriverEvent.delete sys.active],
          SelectResult.returned { sys with active := some (Driver.mk d) }) := by
    intro failed d rest hsplit hfailed hd
    rw [hsel, hsplit, probeList_first E failed d rest sys [] hfailed hd]
    simp
  have hnone : (∀ q ∈ probeOrder sys.drivers 10, E.Start (Driver.mk q) none ≠ none) →
      sys.select E name
        = (failedProbes (probeOrder sys.drivers 10),
          SelectResult.usererror UserError.no_suitable_driver) := by
    intro h
    rw [hsel, probeList_none E _ sys [] h]
    simp
  have hcases : (∃ failed d rest, probeOrder sys.drivers 10 = failed ++ d :: rest ∧
        (∀ q ∈ failed, E.Start (Driver.mk q) none ≠ none) ∧
        E.Start (Driver.mk d) none = none) ∨
      (∀ q ∈ probeOrder sys.drivers 10, E.Start (Driver.mk q) none ≠ none) := by
    by_cases h : ∃ x ∈ probeOrder sys.drivers 10, E.Start (Driver.mk x) none = none
    · obtain ⟨a, x, b, hl, ha, hx⟩ :=
        first_split (fun x => E.Start (Driver.mk x) none = none) _ h
      exact Or.inl ⟨a, x, b, hl, ha, hx⟩
    · right
      intro q hq hs
      exact h ⟨q, hq, hs⟩
  refine ⟨hstart, hnone, fun q => mem_probeOrder sys.drivers q 10, ?_, ?_, ?_⟩
  · intro q hq
    apply (mem_probeOrder sys.drivers q 10).mp
    rcases hcases with ⟨failed, d, rest, hsplit, hfailed, hd⟩ | h
    · rw [hstart failed d rest hsplit hfailed hd] at hq
      rw [hsplit]
      simp only [List.mem_append, mem_failedProbes, List.mem_cons, DriverEvent.CreateInstance.injEq,
        List.mem_singleton, List.not_mem_nil, or_false] at hq ⊢
      rcases hq with h1 | h1 | h1 | h1
      · exact Or.inl h1
      · exact Or.inr (Or.inl h1)
      · cases h1
      · cases h1
    · rw [hnone h] at hq
      exact (mem_failedProbes _ q).mp hq
  · intro sys' hret
    rcases hcases with ⟨failed, d, rest, hsplit, hfailed, hd⟩ | h
    · rw [hstart failed d rest hsplit hfailed hd] at hret
      simp only [SelectResult.returned.injEq] at hret
      subst hret
      have hmem : d ∈ probeOrder sys.drivers 10 := by
        rw [hsplit]; simp
      obtain ⟨h1, h2, h3⟩ := (mem_probeOrder sys.drivers d 10).mp hmem
      exact ⟨d, rfl, h1, h2, h3, hd⟩
    · rw [hnone h] at hret
      cases hret
  · intro d s log h
    rw [probe_failed E d s log h]
    exact ⟨rfl, rfl⟩

/-- The hypotheses of `select_probes` hold for `sampleSystem` and the `NULL`
name: `win32` of priority 9 and `allegro` of priority 5 are probed and fail,
`sdl` of priority 5 starts and is made active, and `null` of priority 0 is not
instantiated. -/
theorem select_probes_witness :
    sampleEnv.StrEmpty none = true ∧ sampleSystem.drivers ≠ [] ∧
    sampleSystem.select sampleEnv none
      = (failedProbes [DriverFactoryBase.mk "win32".toList 9,
            DriverFactoryBase.mk "allegro".toList 5]
          ++ [DriverEvent.CreateInstance (DriverFactoryBase.mk "sdl".toList 5),
            DriverEvent.Start (Driver.mk (DriverFactoryBase.mk "sdl".toList 5)) none,
            DriverEvent.delete none],
        SelectResult.returned
          { sampleSystem with active := some (Driver.mk (DriverFactoryBase.mk "sdl".toList 5)) }) :=
  ⟨by decide, by decide,
    (select_probes sampleEnv sampleSystem none (by decide) (by decide)).1
      [DriverFactoryBase.mk "win32".toList 9, DriverFactoryBase.mk "allegro".toList 5]
      (DriverFactoryBase.mk "sdl".toList 5) [] (by decide) (by decide) (by decide)⟩

/-! ## `DriverSystem::select`: the named driver and its parameters -/

theorem set_append_length {α : Type} (pre : List α) (x y : α) (rest : List α) :
    (pre ++ x :: rest).set pre.length y = pre ++ y :: rest := by
  induction pre with
  | nil => rfl
  | cons a pre ih => simp [List.set, ih]

theorem getElem?_append_length {α : Type} (pre : List α) (x : α) (rest : List α) :
    (pre ++ x :: rest)[pre.length]? = some x := by
  induction pre with
  | nil => simp
  | cons a pre ih => simpa using ih

theorem skipParam_field (tok : List Char) :
    ∀ (pre : List Char) (c : Char) (post : List Char) (fuel : Nat),
      isField tok → (c = '\x00' ∨ c = ',') → tok.length < fuel →
      skipParam (pre ++ tok ++ c :: post) fuel pre.length = some (pre.length + tok.length) := by
  induction tok with
  | nil =>
    intro pre c post fuel _ hc hfuel
    cases fuel with
    | zero => simp at hfuel
    | succ fuel =>
      simp only [List.append_nil, skipParam, getElem?_append_length]
      rcases hc with hc | hc <;> simp [hc]
  | cons t ts ih =>
    intro pre c post fuel htok hc hfuel
    cases fuel with
    | zero => simp at hfuel
    | succ fuel =>
      have ht := htok t (List.mem_cons_self t ts)
      have hts : isField ts := fun d hd => htok d (List.mem_cons_of_mem t hd)
      have e : pre ++ t :: ts ++ c :: post = pre ++ t :: (ts ++ c :: post) := by simp
      have e2 : pre ++ t :: (ts ++ c :: post) = (pre ++ [t]) ++ ts ++ c :: post := by simp
      have hlen : (pre ++ [t]).length = pre.length + 1 := by simp
      simp only [skipParam, e, getElem?_append_length]
      rw [if_pos ⟨ht.1, ht.2⟩, e2, ← hlen,
        ih (pre ++ [t]) c post fuel hts hc (by simpa using hfuel)]
      simp only [hlen, List.length_cons]
      congr 1
      omega

theorem tokenize_step (pre : List Char) (sep : Char) (f : List Char) (c : Char) (post : List Char)
    (fuel : Nat) (parms : List Nat) (hf : isField f) (hc : c = '\x00' ∨ c = ',')
    (hparms : parms.length ≤ 31) :
    tokenize (fuel + 1) (pre ++ sep :: (f ++ c :: post)) pre.length parms
      = if c = ',' then
          tokenize fuel ((pre ++ '\x00' :: f) ++ ',' :: post) (pre ++ '\x00' :: f).length
            (if parms.length < 31 then parms ++ [pre.length + 1] else parms)
        else
          some (pre ++ '\x00' :: (f ++ c :: post),
            if parms.length < 31 then parms ++ [pre.length + 1] else parms) := by
  have hlt : pre.length < (pre ++ sep :: (f ++ c :: post)).length := by simp
  have hstore : (if parms.length < 31 then storeParm parms (some (pre.length + 1)) else some parms)
      = some (if parms.length < 31 then parms ++ [pre.length + 1] else parms) := by
    by_cases h : parms.length < 31
    · have h32 : parms.length < 32 := by omega
      simp [h, storeParm, h32]
    · simp [h]
  have hbuf : pre ++ '\x00' :: (f ++ c :: post) = (pre ++ ['\x00']) ++ f ++ c :: post := by simp
  have hlen1 : (pre ++ ['\x00']).length = pre.length + 1 := by simp
  have hskip : skipParam (pre ++ '\x00' :: (f ++ c :: post))
      (pre ++ sep :: (f ++ c :: post)).length (pre.length + 1)
      = some (pre.length + 1 + f.length) := by
    rw [hbuf, ← hlen1]
    apply skipParam_field f (pre ++ ['\x00']) c post _ hf hc
    simp
    omega
  have hat : (pre ++ '\x00' :: (f ++ c :: post))[pre.length + 1 + f.length]? = some c := by
    have e : pre ++ '\x00' :: (f ++ c :: post) = (pre ++ '\x00' :: f) ++ c :: post := by simp
    have e2 : pre.length + 1 + f.length = (pre ++ '\x00' :: f).length := by simp; omega
    rw [e, e2, getElem?_append_length]
  simp only [tokenize, hlt, if_true, set_append_length, hstore, hskip, hat, Option.some.injEq]
  by_cases hcc : c = ','
  · subst hcc
    have e : pre ++ '\x00' :: (f ++ ',' :: post) = (pre ++ '\x00' :: f) ++ ',' :: post := by simp
    have e2 : pre.length + 1 + f.length = (pre ++ '\x00' :: f).length := by simp; omega
    simp only [if_true, e, e2]
  · simp only [hcc, if_false]

theorem tokenize_fields (fields : List (List Char)) :
    ∀ (pre : List Char) (sep : Char) (fuel : Nat) (parms : List Nat),
      fields ≠ [] → (∀ f ∈ fields, isField f) → fields.length ≤ fuel → parms.length ≤ 31 →
      tokenize fuel (pre ++ sep :: (joinWith ',' fields ++ ['\x00'])) pre.length parms
        = some (pre ++ '\x00' :: (joinWith '\x00' fields ++ ['\x00']),
            storeAll parms (fieldStarts (pre.length + 1) fields)) := by
  induction fields with
  | nil => intro _ _ _ _ h; exact absurd rfl h
  | cons f fs ih =>
    intro pre sep fuel parms _ hfields hfuel hparms
    have hf : isField f := hfields f (List.mem_cons_self f fs)
    cases fuel with
    | zero => simp at hfuel
    | succ fuel =>
      cases fs with
      | nil =>
        simp only [joinWith]
        rw [tokenize_step pre sep f '\x00' [] fuel parms hf (Or.inl rfl) hparms]
        simp [storeAll, fieldStarts]
      | cons g gs =>
        have e : joinWith ',' (f :: g :: gs) ++ ['\x00']
            = f ++ ',' :: (joinWith ',' (g :: gs) ++ ['\x00']) := by
          simp [joinWith]
        rw [e, tokenize_step pre sep f ',' _ fuel parms hf (Or.inr rfl) hparms]
        simp only [if_true]
        have hparms1 : (if parms.length < 31 then parms ++ [pre.length + 1] else parms).length
            ≤ 31 := by
          by_cases h : parms.length < 31
          · simp [h]; omega
          · simp [h]; omega
        rw [ih (pre ++ '\x00' :: f) ',' fuel _ (by simp)
          (fun q hq => hfields q (List.mem_cons_of_mem f hq))
          (by simpa using hfuel) hparms1]
        have e3 : (pre ++ '\x00' :: f).length + 1 = pre.length + 1 + f.length + 1 := by
          simp; omega
        rw [e3]
        simp [joinWith, storeAll, fieldStarts]

theorem storeAll_eq (ptrs : List Nat) :
    ∀ parms : List Nat, parms.length ≤ 31 →
      storeAll parms ptrs = parms ++ ptrs.take (31 - parms.length) := by
  induction ptrs with
  | nil => intro parms _; simp [storeAll]
  | cons p ps ih =>
    intro parms h
    by_cases hlt : parms.length < 31
    · have hl : (parms ++ [p]).length ≤ 31 := by simp; omega
      have e : 31 - parms.length = (31 - (parms ++ [p]).length) + 1 := by simp; omega
      simp only [storeAll, hlt, if_true]
      rw [ih (parms ++ [p]) hl, e, List.take_succ_cons]
      simp
    · have e : 31 - parms.length = 0 := by omega
      simp only [storeAll, hlt, if_false]
      rw [ih parms h, e]
      simp

theorem takeWhile_cstring (f : List Char) (r : List Char) (hf : isCString f) :
    (f ++ '\x00' :: r).takeWhile (· ≠ '\x00') = f := by
  induction f with
  | nil => simp
  | cons c f ih =>
    have hc : c ≠ '\x00' := hf c (List.mem_cons_self c f)
    have hf' : isCString f := fun d hd => hf d (List.mem_cons_of_mem c hd)
    rw [List.cons_append, List.takeWhile_cons_of_pos (by simpa using hc), ih hf']

theorem cstringAt_fieldStarts (buffer : List Char) (fields : List (List Char)) :
    ∀ off : Nat, fields ≠ [] → (∀ f ∈ fields, isCString f) →
      buffer.drop off = joinWith '\x00' fields ++ ['\x00'] →
      (fieldStarts off fields).map (cstringAt buffer) = fields := by
  induction fields with
  | nil => intro _ h; exact absurd rfl h
  | cons f fs ih =>
    intro off _ hfields hdrop
    have hf : isCString f := hfields f (List.mem_cons_self f fs)
    cases fs with
    | nil =>
      simp only [joinWith] at hdrop
      have h1 : cstringAt buffer off = f := by
        unfold cstringAt
        rw [hdrop]
        exact takeWhile_cstring f [] hf
      simp only [fieldStarts, List.map_cons, List.map_nil, h1]
    | cons g gs =>
      have e : joinWith '\x00' (f :: g :: gs) ++ ['\x00']
          = f ++ '\x00' :: (joinWith '\x00' (g :: gs) ++ ['\x00']) := by
        simp [joinWith]
      rw [e] at hdrop
      have hnext : buffer.drop (off + f.length + 1) = joinWith '\x00' (g :: gs) ++ ['\x00'] := by
        have : buffer.drop (off + f.length + 1) = (buffer.drop off).drop (f.length + 1) := by
          rw [List.drop_drop]
          congr 1
        rw [this, hdrop]
        have e2 : f ++ '\x00' :: (joinWith '\x00' (g :: gs) ++ ['\x00'])
            = (f ++ ['\x00']) ++ (joinWith '\x00' (g :: gs) ++ ['\x00']) := by simp
        rw [e2]
        have e3 : f.length + 1 = (f ++ ['\x00']).length := by simp
        rw [e3, List.drop_left]
      have ih' := ih (off + f.length + 1) (by simp)
        (fun q hq => hfields q (List.mem_cons_of_mem f hq)) hnext
      have h1 : cstringAt buffer off = f := by
        unfold cstringAt
        rw [hdrop]
        exact takeWhile_cstring f _ hf
      have e4 : fieldStarts off (f :: g :: gs)
          = off :: fieldStarts (off + f.length + 1) (g :: gs) := rfl
      rw [e4, List.map_cons, ih', h1]

theorem commaFields_ne_nil (s : List Char) : commaFields s ≠ [] := by
  induction s with
  | nil => simp [commaFields]
  | cons c s ih =>
    by_cases hc : c = ','
    · simp [commaFields, hc]
    · cases h : commaFields s with
      | nil => exact absurd h ih
      | cons f fs => simp [commaFields, hc, h]

theorem joinWith_cons_field (sep c : Char) (f : List Char) (fs : List (List Char)) :
    joinWith sep ((c :: f) :: fs) = c :: joinWith sep (f :: fs) := by
  cases fs <;> simp [joinWith]

theorem joinWith_commaFields (s : List Char) : joinWith ',' (commaFields s) = s := by
  induction s with
  | nil => simp [commaFields, joinWith]
  | cons c s ih =>
    by_cases hc : c = ','
    · subst hc
      cases h : commaFields s with
      | nil => exact absurd h (commaFields_ne_nil s)
      | cons f fs =>
        rw [h] at ih
        simp [commaFields, h, joinWith, ih]
    · cases h : commaFields s with
      | nil => exact absurd h (commaFields_ne_nil s)
      | cons f fs =>
        rw [h] at ih
        simp only [commaFields, hc, if_false, h]
        rw [joinWith_cons_field, ih]

theorem commaFields_mem (s : List Char) :
    ∀ f ∈ commaFields s, ∀ c ∈ f, c ≠ ',' ∧ c ∈ s := by
  induction s with
  | nil =>
    intro f hf c hc
    simp only [commaFields, List.mem_singleton] at hf
    subst hf
    cases hc
  | cons d s ih =>
    intro f hf c hc
    by_cases hd : d = ','
    · simp only [commaFields, hd, if_true, List.mem_cons] at hf
      rcases hf with hf | hf
      · subst hf; cases hc
      · obtain ⟨h1, h2⟩ := ih f hf c hc
        exact ⟨h1, List.mem_cons_of_mem d h2⟩
    · cases h : commaFields s with
      | nil => exact absurd h (commaFields_ne_nil s)
      | cons g gs =>
        simp only [commaFields, hd, if_false, h, List.mem_cons] at hf
        rcases hf with hf | hf
        · subst hf
          rcases List.mem_cons.mp hc with hc | hc
          · subst hc
            exact ⟨hd, List.mem_cons_self c s⟩
          · obtain ⟨h1, h2⟩ := ih g (by rw [h]; exact List.mem_cons_self g gs) c hc
            exact ⟨h1, List.mem_cons_of_mem d h2⟩
        · obtain ⟨h1, h2⟩ := ih f (by rw [h]; exact List.mem_cons_of_mem g hf) c hc
          exact ⟨h1, List.mem_cons_of_mem d h2⟩

theorem commaFields_length (s : List Char) : (commaFields s).length ≤ s.length + 1 := by
  induction s with
  | nil => simp [commaFields]
  | cons c s ih =>
    by_cases hc : c = ','
    · simp only [commaFields, hc, if_true, List.length_cons]
      omega
    · cases h : commaFields s with
      | nil => exact absurd h (commaFields_ne_nil s)
      | cons f fs =>
        rw [h] at ih
        simp only [commaFields, hc, if_false, h, List.length_cons] at ih ⊢
        omega

theorem strchr_found (pre : List Char) (c : Char) (rest : List Char)
    (hpre : ∀ x ∈ pre, x ≠ c ∧ x ≠ '\x00') :
    strchr (pre ++ c :: rest) c = some pre.length := by
  induction pre with
  | nil => simp [strchr]
  | cons x pre ih =>
    have hx := hpre x (List.mem_cons_self x pre)
    simp [strchr, hx.1, hx.2, ih (fun y hy => hpre y (List.mem_cons_of_mem x hy))]

theorem strchr_none (s : List Char) (c : Char) (hc : c ≠ '\x00')
    (hs : ∀ x ∈ s, x ≠ c) : strchr (s ++ ['\x00']) c = none := by
  induction s with
  | nil => simp [strchr, hc.symm]
  | cons x s ih =>
    have hx := hs x (List.mem_cons_self x s)
    by_cases h0 : x = '\x00'
    · simp [strchr, hx, h0]
      exact fun h => hx (h0.trans h)
    · simp [strchr, hx, h0, ih (fun y hy => hs y (List.mem_cons_of_mem x hy))]

theorem dropWhile_head {α : Type} (p : α → Bool) (l : List α) (x : α) (rest : List α)
    (h : l.dropWhile p = x :: rest) : p x = false := by
  induction l with
  | nil => simp at h
  | cons a l ih =>
    by_cases ha : p a = true
    · rw [List.dropWhile_cons_of_pos ha] at h
      exact ih h
    · rw [List.dropWhile_cons_of_neg ha] at h
      cases h
      simpa using ha

theorem takeWhile_all {α : Type} (p : α → Bool) (l : List α) :
    ∀ x ∈ l.takeWhile p, p x = true := by
  induction l with
  | nil => intro x hx; cases hx
  | cons a l ih =>
    intro x hx
    by_cases ha : p a = true
    · rw [List.takeWhile_cons_of_pos ha] at hx
      rcases List.mem_cons.mp hx with h | h
      · rw [h]; exact ha
      · exact ih x h
    · rw [List.takeWhile_cons_of_neg ha] at hx
      cases hx

/-- The named branch of `select` up to the search of the driver: for a C string
of fewer than 256 characters that `bstrcpy` copies whole, the name is parsed
without an access outside `buffer` or `parms`, at most 31 pointers are stored,
the string left at the start of the buffer is the text before the first `:`,
and the strings that the stored pointers point to are `nameParams`. -/
theorem parseName_spec (E : DriverEnv) (s : List Char) (hlen : s.length < 256)
    (hs : isCString s)
    (hcopy : ∀ t : List Char, t.length < 256 → E.bstrcpy t = t ++ ['\x00']) :
    ∃ buffer parms, parseName E s = some (buffer, parms) ∧ parms.length ≤ 31 ∧
      cstringAt buffer 0 = s.takeWhile (· ≠ ':') ∧
      parms.map (cstringAt buffer) = nameParams s := by
  have hsplit : s.takeWhile (· ≠ ':') ++ s.dropWhile (· ≠ ':') = s :=
    List.takeWhile_append_dropWhile _ s
  have hpre : ∀ x ∈ s.takeWhile (· ≠ ':'), x ≠ ':' ∧ x ≠ '\x00' := by
    intro x hx
    have h1 := takeWhile_all _ s x hx
    have h2 : x ∈ s := by
      rw [← hsplit]
      exact List.mem_append_left _ hx
    exact ⟨by simpa using h1, hs x h2⟩
  have hpreC : isCString (s.takeWhile (· ≠ ':')) := fun x hx => (hpre x hx).2
  cases hd : s.dropWhile (· ≠ ':') with
  | nil =>
    rw [hd, List.append_nil] at hsplit
    have hno : ∀ x ∈ s, x ≠ ':' := by
      intro x hx
      rw [← hsplit] at hx
      exact (hpre x hx).1
    refine ⟨s ++ ['\x00'], [], ?_, by simp, ?_, ?_⟩
    · simp only [parseName, hcopy s hlen, strchr_none s ':' (by decide) hno]
    · unfold cstringAt
      rw [List.drop_zero, hsplit]
      exact takeWhile_cstring s [] hs
    · unfold nameParams
      rw [hd]
      rfl
  | cons x text =>
    have hx : x = ':' := by
      have := dropWhile_head _ s x text hd
      simpa using this
    subst hx
    rw [hd] at hsplit
    have htext : isCString text := by
      intro c hc
      apply hs c
      rw [← hsplit]
      exact List.mem_append_right _ (List.mem_cons_of_mem _ hc)
    have hfieldsC : ∀ f ∈ commaFields text, isCString f := by
      intro f hf c hc
      exact htext c (commaFields_mem text f hf c hc).2
    have hfields : ∀ f ∈ commaFields text, isField f := by
      intro f hf c hc
      exact ⟨hfieldsC f hf c hc, (commaFields_mem text f hf c hc).1⟩
    have hbuf : s ++ ['\x00']
        = s.takeWhile (· ≠ ':') ++ ':' :: (joinWith ',' (commaFields text) ++ ['\x00']) := by
      rw [joinWith_commaFields]
      conv_lhs => rw [← hsplit]
      simp
    have hfuel : (commaFields text).length ≤ (s ++ ['\x00']).length := by
      have h1 := commaFields_length text
      have h2 : text.length < s.length := by
        conv_rhs => rw [← hsplit]
        simp
        omega
      simp
      omega
    have htok := tokenize_fields (commaFields text) (s.takeWhile (· ≠ ':')) ':'
      (s ++ ['\x00']).length [] (commaFields_ne_nil text) hfields hfuel (by simp)
    rw [← hbuf] at htok
    have hstore : storeAll [] (fieldStarts ((s.takeWhile (· ≠ ':')).length + 1)
        (commaFields text))
        = (fieldStarts ((s.takeWhile (· ≠ ':')).length + 1) (commaFields text)).take 31 := by
      rw [storeAll_eq _ [] (by simp)]
      simp
    have hlen31 : ((fieldStarts ((s.takeWhile (· ≠ ':')).length + 1)
        (commaFields text)).take 31).length ≤ 31 := by
      rw [List.length_take]
      exact Nat.min_le_left _ _
    refine ⟨s.takeWhile (· ≠ ':') ++ '\x00' :: (joinWith '\x00' (commaFields text) ++ ['\x00']),
      (fieldStarts ((s.takeWhile (· ≠ ':')).length + 1) (commaFields text)).take 31,
      ?_, hlen31, ?_, ?_⟩
    · have hstr : strchr (E.bstrcpy s) ':' = some (s.takeWhile (· ≠ ':')).length := by
        rw [hcopy s hlen, hbuf]
        exact strchr_found _ ':' _ hpre
      have h32 : ((fieldStarts ((s.takeWhile (· ≠ ':')).length + 1)
          (commaFields text)).take 31).length < 32 := by omega
      simp only [parseName, hstr]
      rw [hcopy s hlen, htok, hstore]
      simp only [storeParm, h32, if_true]
    · unfold cstringAt
      rw [List.drop_zero]
      exact takeWhile_cstring _ _ hpreC
    · rw [List.map_take]
      have hdrop : (s.takeWhile (· ≠ ':') ++ '\x00' ::
            (joinWith '\x00' (commaFields text) ++ ['\x00'])).drop
          ((s.takeWhile (· ≠ ':')).length + 1)
          = joinWith '\x00' (commaFields text) ++ ['\x00'] := by
        have e : s.takeWhile (· ≠ ':') ++ '\x00' ::
            (joinWith '\x00' (commaFields text) ++ ['\x00'])
            = (s.takeWhile (· ≠ ':') ++ ['\x00'])
              ++ (joinWith '\x00' (commaFields text) ++ ['\x00']) := by simp
        have e2 : (s.takeWhile (· ≠ ':')).length + 1
            = (s.takeWhile (· ≠ ':') ++ ['\x00']).length := by simp
        rw [e, e2, List.drop_left]
      rw [cstringAt_fieldStarts _ (commaFields text) _ (commaFields_ne_nil text) hfieldsC hdrop]
      unfold nameParams
      rw [hd]

theorem takeWhile_dropWhile_colon (pre text : List Char) (hpre : ∀ c ∈ pre, c ≠ ':') :
    (pre ++ ':' :: text).takeWhile (· ≠ ':') = pre ∧
      (pre ++ ':' :: text).dropWhile (· ≠ ':') = ':' :: text := by
  induction pre with
  | nil =>
    constructor
    · rw [List.nil_append, List.takeWhile_cons_of_neg (by simp)]
    · rw [List.nil_append, List.dropWhile_cons_of_neg (by simp)]
  | cons c pre ih =>
    have hc : c ≠ ':' := hpre c (List.mem_cons_self c pre)
    obtain ⟨h1, h2⟩ := ih (fun d hd => hpre d (List.mem_cons_of_mem c hd))
    constructor
    · rw [List.cons_append, List.takeWhile_cons_of_pos (by simpa using hc), h1]
    · rw [List.cons_append, List.dropWhile_cons_of_pos (by simpa using hc), h2]

theorem dropWhile_no_colon (s : List Char) (hs : ∀ c ∈ s, c ≠ ':') :
    s.dropWhile (· ≠ ':') = [] := by
  induction s with
  | nil => rfl
  | cons c s ih =>
    have hc : c ≠ ':' := hs c (List.mem_cons_self c s)
    rw [List.dropWhile_cons_of_pos (by simpa using hc),
      ih (fun d hd => hs d (List.mem_cons_of_mem c hd))]

theorem selectNamed_first (E : DriverEnv) (buffer : List Char) (parms : List (List Char))
    (sys : DriverSystem) (skipped : List DriverFactoryBase) (d : DriverFactoryBase)
    (rest : List DriverFactoryBase)
    (hskip : ∀ q ∈ skipped, strcasecmp_eq buffer q.name = false)
    (hd : strcasecmp_eq buffer d.name = true) :
    selectNamed E buffer parms sys (skipped ++ d :: rest)
      = selectNamed E buffer parms sys [d] := by
  induction skipped with
  | nil => simp [selectNamed, hd]
  | cons q skipped ih =>
    simp only [List.cons_append, selectNamed, hskip q (List.mem_cons_self q skipped),
      Bool.false_eq_true, if_false]
    exact ih (fun r hr => hskip r (List.mem_cons_of_mem q hr))

theorem selectNamed_none (E : DriverEnv) (buffer : List Char) (parms : List (List Char))
    (sys : DriverSystem) (ds : List DriverFactoryBase)
    (h : ∀ q ∈ ds, strcasecmp_eq buffer q.name = false) :
    selectNamed E buffer parms sys ds
      = ([], SelectResult.usererror (UserError.no_such_driver buffer)) := by
  induction ds with
  | nil => rfl
  | cons q ds ih =>
    simp only [selectNamed, h q (List.mem_cons_self q ds), Bool.false_eq_true, if_false]
    exact ih (fun r hr => h r (List.mem_cons_of_mem q hr))

/-- C19: `select` with a non-empty name that is a C string of fewer than 256
characters, which `bstrcpy` copies whole, on a non-empty registry. The name is
parsed without a store outside the 32-entry array `parms`, of which at most the
31 entries before the terminating `NULL` are written; the string compared
without regard to case against the factory names is the text before the first
`:`; and the array passed to `Start` of the first factory that matches holds,
in order, `nameParams`: nothing when there is no `:`, else the first
`min(k, 31)` of the `k` comma-separated fields of the text after the first
`:`. -/
theorem select_named (E : DriverEnv) (sys : DriverSystem) (s : List Char)
    (hne : E.StrEmpty (some s) = false) (hlen : s.length < 256) (hs : isCString s)
    (hcopy : ∀ t : List Char, t.length < 256 → E.bstrcpy t = t ++ ['\x00'])
    (hreg : sys.drivers ≠ []) :
    (∃ buffer parms, parseName E s = some (buffer, parms) ∧ parms.length ≤ 31 ∧
      cstringAt buffer 0 = s.takeWhile (· ≠ ':') ∧
      parms.map (cstringAt buffer) = nameParams s) ∧
    sys.select E (some s)
      = selectNamed E (s.takeWhile (· ≠ ':')) (nameParams s) sys sys.drivers ∧
    (∀ (skipped : List DriverFactoryBase) (d : DriverFactoryBase)
        (rest : List DriverFactoryBase),
      sys.drivers = skipped ++ d :: rest →
      (∀ q ∈ skipped, strcasecmp_eq (s.takeWhile (· ≠ ':')) q.name = false) →
      strcasecmp_eq (s.takeWhile (· ≠ ':')) d.name = true →
      (E.Start (Driver.mk d) (some (nameParams s)) = none →
        sys.select E (some s)
          = ([DriverEvent.CreateInstance d,
              DriverEvent.Start (Driver.mk d) (some (nameParams s)),
              DriverEvent.delete sys.active],
            SelectResult.returned { sys with active := some (Driver.mk d) })) ∧
      (∀ err, E.Start (Driver.mk d) (some (nameParams s)) = some err →
        sys.select E (some s)
          = ([DriverEvent.CreateInstance d,
              DriverEvent.Start (Driver.mk d) (some (nameParams s)),
              DriverEvent.delete (some (Driver.mk d))],
            SelectResult.usererror (UserError.unable_to_load d.name err)))) ∧
    ((∀ q ∈ sys.drivers, strcasecmp_eq (s.takeWhile (· ≠ ':')) q.name = false) →
      sys.select E (some s)
        = ([], SelectResult.usererror (UserError.no_such_driver (s.takeWhile (· ≠ ':'))))) ∧
    ((∀ c ∈ s, c ≠ ':') → s.takeWhile (· ≠ ':') = s ∧ nameParams s = []) ∧
    (∀ pre text : List Char, s = pre ++ ':' :: text → (∀ c ∈ pre, c ≠ ':') →
      s.takeWhile (· ≠ ':') = pre ∧ nameParams s = (commaFields text).take 31 ∧
        (nameParams s).length = min (commaFields text).length 31) ∧
    (∀ text : List Char, commaFields text ≠ [] ∧ joinWith ',' (commaFields text) = text ∧
      ∀ f ∈ commaFields text, ∀ c ∈ f, c ≠ ',') := by
  have hparse := parseName_spec E s hlen hs hcopy
  have hempty : sys.drivers.isEmpty = false := by
    cases hd : sys.drivers with
    | nil => exact absurd hd hreg
    | cons _ _ => rfl
  have hsel : sys.select E (some s)
      = selectNamed E (s.takeWhile (· ≠ ':')) (nameParams s) sys sys.drivers := by
    obtain ⟨buffer, parms, hp, _, hb, hpm⟩ := hparse
    simp only [DriverSystem.select, hempty, hne, Bool.false_eq_true, if_false, hp, hb, hpm]
  refine ⟨hparse, hsel, ?_, ?_, ?_, ?_, ?_⟩
  · intro skipped d rest hsplit hskip hd
    have h1 := selectNamed_first E (s.takeWhile (· ≠ ':')) (nameParams s) sys skipped d rest
      hskip hd
    rw [← hsplit] at h1
    rw [hsel, h1]
    constructor
    · intro hstart
      simp only [selectNamed, hd, if_true, hstart]
    · intro err hstart
      simp only [selectNamed, hd, if_true, hstart]
  · intro h
    rw [hsel, selectNamed_none E _ _ sys sys.drivers h]
  · intro h
    have hdrop := dropWhile_no_colon s h
    have hsplit := List.takeWhile_append_dropWhile (fun c : Char => decide (c ≠ ':')) s
    rw [hdrop, List.append_nil] at hsplit
    refine ⟨hsplit, ?_⟩
    unfold nameParams
    rw [hdrop]
  · intro pre text hsplit hpre
    obtain ⟨h1, h2⟩ := takeWhile_dropWhile_colon pre text hpre
    rw [← hsplit] at h1 h2
    have hn : nameParams s = (commaFields text).take 31 := by
      unfold nameParams
      rw [h2]
    refine ⟨h1, hn, ?_⟩
    rw [hn, List.length_take, Nat.min_comm]
  · intro text
    exact ⟨commaFields_ne_nil text, joinWith_commaFields text,
      fun f hf c hc => (commaFields_mem text f hf c hc).1⟩

/-- The hypotheses of `select_named` hold for `sampleSystem` and the name
`SDL:a=1,,b`: the driver `sdl` is found whatever the case of the letters and
is started on the three fields `a=1`, the empty field and `b`. -/
theorem select_named_witness :
    sampleEnv.StrEmpty (some "SDL:a=1,,b".toList) = false ∧
    isCString "SDL:a=1,,b".toList ∧
    sampleSystem.select sampleEnv (some "SDL:a=1,,b".toList)
      = ([DriverEvent.CreateInstance (DriverFactoryBase.mk "sdl".toList 5),
          DriverEvent.Start (Driver.mk (DriverFactoryBase.mk "sdl".toList 5))
            (some ["a=1".toList, [], "b".toList]),
          DriverEvent.delete none],
        SelectResult.returned
          { sampleSystem with active := some (Driver.mk (DriverFactoryBase.mk "sdl".toList 5)) }) := by
  refine ⟨by decide, by decide, ?_⟩
  have h := (select_named sampleEnv sampleSystem "SDL:a=1,,b".toList (by decide) (by decide)
    (by decide) (fun t ht => by
      show t.take 255 ++ ['\x00'] = t ++ ['\x00']
      rw [List.take_of_length_le (by omega)]) (by decide)).2.2.1
    [DriverFactoryBase.mk "allegro".toList 5, DriverFactoryBase.mk "null".toList 0]
    (DriverFactoryBase.mk "sdl".toList 5) [DriverFactoryBase.mk "win32".toList 9]
    rfl (by decide) (by decide)
  have hp : nameParams "SDL:a=1,,b".toList = ["a=1".toList, [], "b".toList] := by decide
  rw [hp] at h
  exact h.1 (by decide)

/-! ## `ScriptBridge` -/

/-- C20: for a `bridge_id` that is not below `MAX_BRIDGES`, whatever the table
of bridge specifications holds, and for a `bridge_id` below `MAX_BRIDGES` whose
bridge has an `avail_year` later than the current year, `IsValidBridge` is
false, `GetMaxSpeed`, `GetPrice`, `GetMaxLength` and `GetMinLength` return -1
and `GetName` returns `NULL`; in the first case no bridge specification is
read, since a read outside the table would give no result. For a valid id
`GetMaxLength` returns `min(spec.max_length, max_bridge_length) + 2` and
`GetMinLength` returns `spec.min_length + 2`. -/
theorem ScriptBridge_invalid (E : BridgeEnv) (bridge_id : Nat) :
    (E.MAX_BRIDGES ≤ bridge_id →
      ScriptBridge.IsValidBridge E bridge_id = some false ∧
      ScriptBridge.GetMaxSpeed E bridge_id = some (-1) ∧
      (∀ length, ScriptBridge.GetPrice E bridge_id length = some (-1)) ∧
      ScriptBridge.GetMaxLength E bridge_id = some (-1) ∧
      ScriptBridge.GetMinLength E bridge_id = some (-1) ∧
      ScriptBridge.GetName E bridge_id = some none) ∧
    (∀ spec, bridge_id < E.MAX_BRIDGES → ScriptBridge.GetBridgeSpec E bridge_id = some spec →
      E.cur_year < spec.avail_year →
      ScriptBridge.IsValidBridge E bridge_id = some false ∧
      ScriptBridge.GetMaxSpeed E bridge_id = some (-1) ∧
      (∀ length, ScriptBridge.GetPrice E bridge_id length = some (-1)) ∧
      ScriptBridge.GetMaxLength E bridge_id = some (-1) ∧
      ScriptBridge.GetMinLength E bridge_id = some (-1) ∧
      ScriptBridge.GetName E bridge_id = some none) ∧
    (∀ spec, bridge_id < E.MAX_BRIDGES → ScriptBridge.GetBridgeSpec E bridge_id = some spec →
      spec.avail_year ≤ E.cur_year →
      ScriptBridge.IsValidBridge E bridge_id = some true ∧
      ScriptBridge.GetMaxLength E bridge_id
        = some ((min spec.max_length E.max_bridge_length : Nat) + 2) ∧
      ScriptBridge.GetMinLength E bridge_id = some ((spec.min_length : Int) + 2)) := by
  refine ⟨?_, ?_, ?_⟩
  · intro h
    have hv : ScriptBridge.IsValidBridge E bridge_id = some false := by
      simp [ScriptBridge.IsValidBridge, Nat.not_lt.mpr h]
    simp [ScriptBridge.GetMaxSpeed, ScriptBridge.GetPrice, ScriptBridge.GetMaxLength,
      ScriptBridge.GetMinLength, ScriptBridge.GetName, hv]
  · intro spec hlt hspec hyear
    have hv : ScriptBridge.IsValidBridge E bridge_id = some false := by
      simp [ScriptBridge.IsValidBridge, hlt, hspec, not_le.mpr hyear]
    simp [ScriptBridge.GetMaxSpeed, ScriptBridge.GetPrice, ScriptBridge.GetMaxLength,
      ScriptBridge.GetMinLength, ScriptBridge.GetName, hv]
  · intro spec hlt hspec hyear
    have hv : ScriptBridge.IsValidBridge E bridge_id = some true := by
      simp [ScriptBridge.IsValidBridge, hlt, hspec, hyear]
    simp [ScriptBridge.GetMaxLength, ScriptBridge.GetMinLength, hv, hspec]

/-- In `sampleBridges` the id 7 is out of range and the id 1 is not yet
available: both give -1 and `NULL`; the id 0 is valid, with a maximal length of
`min(16, 12) + 2` and a minimal length of `0 + 2`. -/
theorem ScriptBridge_invalid_witness :
    ScriptBridge.GetMaxSpeed sampleBridges 7 = some (-1) ∧
    ScriptBridge.GetName sampleBridges 7 = some none ∧
    ScriptBridge.GetMaxLength sampleBridges 1 = some (-1) ∧
    ScriptBridge.GetPrice sampleBridges 1 10 = some (-1) ∧
    ScriptBridge.GetMaxLength sampleBridges 0 = some 14 ∧
    ScriptBridge.GetMinLength sampleBridges 0 = some 2 := by
  have h7 := (ScriptBridge_invalid sampleBridges 7).1 (by decide)
  have h1 := (ScriptBridge_invalid sampleBridges 1).2.1 (BridgeSpec.mk 1930 1 9 100 48 2)
    (by decide) (by decide) (by decide)
  have h0 := (ScriptBridge_invalid sampleBridges 0).2.2 (BridgeSpec.mk 0 0 16 80 32 1)
    (by decide) (by decide) (by decide)
  exact ⟨h7.2.1, h7.2.2.2.2.2, h1.2.2.2.1, h1.2.2.1 10, h0.2.1, h0.2.2⟩
